import Mathlib

/-!
# Dumper-7 declaration generation: layout reconciliation, dependency order, enums

A shallow embedding of `Dumper/Package.cpp`.

* C++ `int`/`int32`/`int64` values are mathematical integers (`Int`); signed overflow is
  undefined behaviour in the source and is outside the model. `uint8` and `uint32`
  values are reduced modulo `2 ^ 8` and `2 ^ 32`.
* `Types::Member` is a tagged record instead of three formatted strings: the tag and
  the fields hold exactly the data the source formats into type, name and comment.
* `Struct.AddMember` appends to a member list; every generator returns the members it
  appended, in order.
* The two function-local `static uint32` pad counters are threaded explicitly
  (`PadCounters`).
* `Settings::Debug::bGenerateAssertionFile` is the constant `false`, so the assertion
  stream writes are dead code and are left out.
* The recursive walk of `PackageDependencyManager` carries an explicit recursion bound
  and returns `none` when the bound is hit; the theorems show which bound suffices.
* The driver's emission (`GenerateClass`, `GenerateStruct`) is recorded by the index it
  is called with.
* A `std::unordered_set<int32>` is the list of its elements in insertion order; the
  results stated about it do not depend on the order.
* A reflected property is read through two views: the flat record `UEProperty` (layout,
  parameters, field order) and the tree `PropertyKind` (dependency gathering, which
  descends into container element types).
-/

namespace Dumper

/-! ## Data model -/

/-- Reflected property as exposed by the accessor layer (`UEProperty` and its casts). -/
structure UEProperty where
  /-- Value of `GetValidName()`. -/
  ValidName : String := ""
  /-- Value of `GetCppType()`. -/
  CppType : String := ""
  /-- Value of `GetOffset()`. -/
  Offset : Int
  /-- Value of `GetSize()`. -/
  Size : Int
  /-- Value of `GetArrayDim()`. -/
  ArrayDim : Int := 1
  /-- Result of `IsA(EClassCastFlags::StructProperty)`. -/
  IsStructProperty : Bool := false
  /-- Value of `Cast<UEStructProperty>().GetUnderlayingStruct().GetIndex()`. -/
  UnderlayingStructIndex : Int := 0
  /-- Value of `Cast<UEStructProperty>().GetUnderlayingStruct().GetStructSize()`. -/
  UnderlayingStructSize : Int := 0
  /-- Result of `IsA(EClassCastFlags::BoolProperty)`. -/
  IsBoolProperty : Bool := false
  /-- Value of `Cast<UEBoolProperty>().IsNativeBool()`. -/
  IsNativeBool : Bool := true
  /-- Value of `Cast<UEBoolProperty>().GetBitIndex()`, a `uint8`. -/
  BitIndex : Nat := 0
  /-- Value of `Cast<UEBoolProperty>().GetFieldMask()`, a `uint8`. -/
  FieldMask : Nat := 0
  /-- Result of `IsA(EClassCastFlags::ArrayProperty)`. -/
  IsArrayProperty : Bool := false
  /-- Result of `IsA(EClassCastFlags::StrProperty)`. -/
  IsStrProperty : Bool := false
  /-- Result of `HasPropertyFlags(EPropertyFlags::ReturnParm)`. -/
  HasReturnParm : Bool := false
  /-- Result of `HasPropertyFlags(EPropertyFlags::ReferenceParm)`. -/
  HasReferenceParm : Bool := false
  /-- Result of `HasPropertyFlags(EPropertyFlags::OutParm)`. -/
  HasOutParm : Bool := false
  deriving DecidableEq, Repr

/-- Modelled from the spec: a tuple of the override table `Generator::PredefinedMembers`
(its declaration is outside the translated files): type, name, absolute offset and size,
read by the source as `Type`, `Name`, `Offset`, `Size`. -/
structure PredefinedMember where
  TypeName : String := ""
  Name : String := ""
  Offset : Int
  Size : Int
  deriving DecidableEq, Repr

/-- Cause written into a byte-padding member's comment. -/
inductive PadReason where
  /-- The comment `MISSED OFFSET (FIX SIZE AFTER LAST PROPERTY)`. -/
  | MissedOffset
  /-- The comment `MISSED OFFSET (FIX SIZE AFTER LAST PREDEFINED PROPERTY)`. -/
  | MissedOffsetPredefined
  /-- The comment `FIX SIZE OF STRUCT`. -/
  | FixSizeOfStruct
  deriving DecidableEq, Repr

/-- Member record handed to `Struct.AddMember`. -/
inductive Member where
  /-- A reflected field: `Types::Member(CppType, Name, Comment)`; `Size` is the byte
  size printed in the comment. The name carries ` : 1` when the field is bit-packed. -/
  | Property (Field : UEProperty) (Size : Int)
  /-- Result of `GenerateBytePadding`: `uint8 Pad_<PadNum>[0x<PadSize>]`; the comment
  holds `Offset`, `PadSize` and the reason. -/
  | BytePadding (PadNum : Nat) (Offset : Int) (PadSize : Int) (Reason : PadReason)
  /-- Result of `GenerateBitPadding`: `uint8 BitPad_<BitPadNum> : <PadSize>` with the
  comment `FIX BIT_FIELD SIZE`. -/
  | BitPadding (BitPadNum : Nat) (PadSize : Int)
  /-- An override tuple: `Types::Member(Type, Name, "... NOT AUTO-GENERATED PROPERTY")`. -/
  | Predefined (Entry : PredefinedMember)
  deriving DecidableEq, Repr

/-- The function-local statics `PadNum` and `BitPadNum` (both `uint32`). -/
structure PadCounters where
  PadNum : Nat := 0
  BitPadNum : Nat := 0
  deriving DecidableEq, Repr

/-- Loop-carried locals of `GenerateMembers`. -/
structure LoopVars where
  bLastPropertyWasBitField : Bool
  PrevPropertyEnd : Int
  PrevBoolPropertyEnd : Int
  PrevBoolPropertyBit : Int
  deriving DecidableEq, Repr

/-! ## Padding generators -/

/-- Source `Package::GenerateBytePadding`: builds `Pad_<PadNum>` and post-increments the
counter (`uint32`, wrapping). -/
def GenerateBytePadding (Offset PadSize : Int) (Reason : PadReason) (c : PadCounters) :
    Member × PadCounters :=
  (Member.BytePadding c.PadNum Offset PadSize Reason,
    { c with PadNum := (c.PadNum + 1) % 2 ^ 32 })

/-- Source `Package::GenerateBitPadding`: builds `BitPad_<BitPadNum>` and post-increments
the counter; the `Offset` argument is not used by the source. -/
def GenerateBitPadding (_Offset PadSize : Int) (c : PadCounters) : Member × PadCounters :=
  (Member.BitPadding c.BitPadNum PadSize,
    { c with BitPadNum := (c.BitPadNum + 1) % 2 ^ 32 })

/-- A guarded `Struct.AddMember(Generate...Padding(...))`: the generator runs, and its
counter advances, only when the guard holds. -/
def AddPaddingIf (cond : Bool) (gen : PadCounters → Member × PadCounters)
    (c : PadCounters) : List Member × PadCounters :=
  if cond then ([(gen c).1], (gen c).2) else ([], c)

/-! ## Override walk -/

/-- Loop of `GeneratePredefinedMembers` over the tuples of one override entry:
returns the members added, the final `PrevPropertyEnd` and the counters. -/
def PredefinedLoop : List PredefinedMember → Int → PadCounters →
    List Member × Int × PadCounters
  | [], PrevPropertyEnd, c => ([], PrevPropertyEnd, c)
  | Entry :: rest, PrevPropertyEnd, c =>
    let pad := AddPaddingIf (decide (Entry.Offset > PrevPropertyEnd))
      (GenerateBytePadding PrevPropertyEnd (Entry.Offset - PrevPropertyEnd)
        PadReason.MissedOffsetPredefined) c
    let r := PredefinedLoop rest (Entry.Offset + Entry.Size) pad.2
    (pad.1 ++ Member.Predefined Entry :: r.1, r.2.1, r.2.2)

/-- Source `Package::GeneratePredefinedMembers`. `Table` is
`Generator::PredefinedMembers` (a map from class name to tuple list, declared outside
the translated file). Returns the members added, the `int32` result and the counters. -/
def GeneratePredefinedMembers (Table : String → Option (List PredefinedMember))
    (ClassName : String) (StructSize SuperSize : Int) (c : PadCounters) :
    List Member × Int × PadCounters :=
  match Table ClassName with
  | some Predef =>
    let r := PredefinedLoop Predef SuperSize c
    let PrevPropertyEnd := r.2.1
    let sizeFix := AddPaddingIf (decide (StructSize > PrevPropertyEnd))
      (GenerateBytePadding PrevPropertyEnd (StructSize - PrevPropertyEnd)
        PadReason.FixSizeOfStruct) r.2.2
    (r.1 ++ sizeFix.1, PrevPropertyEnd, sizeFix.2)
  | none => ([], 0, c)

/-! ## Generic reconciliation -/

/-- The test `IsA(BoolProperty) && !Cast<UEBoolProperty>().IsNativeBool()`. -/
def IsBitField (p : UEProperty) : Bool :=
  p.IsBoolProperty && !p.IsNativeBool

/-- The local `Size` of the loop body: element size (the value struct's size for a
struct property) times the array dimension. -/
def PropertySize (p : UEProperty) : Int :=
  (if !p.IsStructProperty then p.Size else p.UnderlayingStructSize) * p.ArrayDim

/-- The local `BitIndex` of the loop body (`const uint8`). -/
def GetBitIndex (p : UEProperty) : Int :=
  ((p.BitIndex % 256 : Nat) : Int)

/-- One iteration of the `for (auto& Property : MemberVector)` loop of
`GenerateMembers`: the members added, the updated locals and counters. -/
def GenerateMembersStep (v : LoopVars) (c : PadCounters) (Property : UEProperty) :
    List Member × LoopVars × PadCounters :=
  let Offset := Property.Offset
  let Size := PropertySize Property
  -- if (Offset >= PrevPropertyEnd) { close open bitfield; fill byte gap }
  let closePad := AddPaddingIf
    (decide (Offset ≥ v.PrevPropertyEnd) &&
      (v.bLastPropertyWasBitField && decide (v.PrevBoolPropertyBit ≠ 9)))
    (GenerateBitPadding Offset (9 - v.PrevBoolPropertyBit)) c
  let gapPad := AddPaddingIf
    (decide (Offset ≥ v.PrevPropertyEnd) && decide (Offset > v.PrevPropertyEnd))
    (GenerateBytePadding v.PrevPropertyEnd (Offset - v.PrevPropertyEnd)
      PadReason.MissedOffset) closePad.2
  if IsBitField Property then
    let BitIndex := GetBitIndex Property
    let PrevBoolPropertyBit :=
      if v.PrevBoolPropertyEnd < Offset then 1 else v.PrevBoolPropertyBit
    let bitPad := AddPaddingIf (decide (PrevBoolPropertyBit < BitIndex))
      (GenerateBitPadding Offset (BitIndex - PrevBoolPropertyBit)) gapPad.2
    (closePad.1 ++ gapPad.1 ++ bitPad.1 ++ [Member.Property Property Size],
      { bLastPropertyWasBitField := true
        PrevPropertyEnd := Offset + Size
        PrevBoolPropertyEnd := Offset
        PrevBoolPropertyBit := BitIndex + 1 },
      bitPad.2)
  else
    (closePad.1 ++ gapPad.1 ++ [Member.Property Property Size],
      { v with bLastPropertyWasBitField := false, PrevPropertyEnd := Offset + Size },
      gapPad.2)

/-- The whole `for` loop of `GenerateMembers`. -/
def GenerateMembersLoop : List UEProperty → LoopVars → PadCounters →
    List Member × LoopVars × PadCounters
  | [], v, c => ([], v, c)
  | Property :: rest, v, c =>
    let s := GenerateMembersStep v c Property
    let r := GenerateMembersLoop rest s.2.1 s.2.2
    (s.1 ++ r.1, r.2.1, r.2.2)

/-- Initial values of the locals of `GenerateMembers`. -/
def InitialVars (SuperSize : Int) : LoopVars :=
  { bLastPropertyWasBitField := false
    PrevPropertyEnd := SuperSize
    PrevBoolPropertyEnd := 0
    PrevBoolPropertyBit := 1 }

/-- The generic part of `GenerateMembers` (after the override test): the loop followed
by the `if (StructSize > PrevPropertyEnd)` trailing pad. -/
def GenerateMembersGeneric (MemberVector : List UEProperty) (StructSize SuperSize : Int)
    (c : PadCounters) : List Member × PadCounters :=
  let r := GenerateMembersLoop MemberVector (InitialVars SuperSize) c
  let PrevPropertyEnd := r.2.1.PrevPropertyEnd
  let sizeFix := AddPaddingIf (decide (StructSize > PrevPropertyEnd))
    (GenerateBytePadding PrevPropertyEnd (StructSize - PrevPropertyEnd)
      PadReason.FixSizeOfStruct) r.2.2
  (r.1 ++ sizeFix.1, sizeFix.2)

/-- Source `Package::GenerateMembers`. `SuperName` is `Super.GetCppName()`. Returns the
members appended to `Struct` and the pad counters. The override walk runs (and adds its
members) whenever the field list is empty; the function returns early only when the
walk's result is non-zero. -/
def GenerateMembers (Table : String → Option (List PredefinedMember))
    (MemberVector : List UEProperty) (SuperName : String) (StructSize SuperSize : Int)
    (c : PadCounters) : List Member × PadCounters :=
  if MemberVector.length = 0 then
    let pre := GeneratePredefinedMembers Table SuperName StructSize SuperSize c
    if pre.2.1 ≠ 0 then
      (pre.1, pre.2.2)
    else
      let g := GenerateMembersGeneric MemberVector StructSize SuperSize pre.2.2
      (pre.1 ++ g.1, g.2)
  else
    GenerateMembersGeneric MemberVector StructSize SuperSize c

/-- The running cursor `PrevPropertyEnd` after the loop of `GenerateMembers`. -/
def FinalCursor (MemberVector : List UEProperty) (SuperSize : Int) : Int :=
  (GenerateMembersLoop MemberVector (InitialVars SuperSize) {}).2.1.PrevPropertyEnd

/-! ## Byte spans of a member sequence -/

/-- Bytes consumed by a member sequence. `grp` is the reflected offset of the bitfield
group that is open at this point, if any. A non-bitfield field counts its size
(element size times array dimension), a byte pad its pad size, an override tuple its
size, a bit pad nothing, and a bit-packed boolean one byte when it opens a group and
nothing when it continues the open group (same reflected offset). -/
def SpanFrom : Option Int → List Member → Int
  | _, [] => 0
  | grp, Member.Property p Size :: rest =>
    if IsBitField p then
      (if grp = some p.Offset then 0 else 1) + SpanFrom (some p.Offset) rest
    else
      Size + SpanFrom none rest
  | _, Member.BytePadding _ _ PadSize _ :: rest => PadSize + SpanFrom none rest
  | grp, Member.BitPadding _ _ :: rest => SpanFrom grp rest
  | _, Member.Predefined Entry :: rest => Entry.Size + SpanFrom none rest

/-- Bytes consumed by a complete member sequence. -/
def Span (ms : List Member) : Int := SpanFrom none ms

/-- The bitfield group left open by a member sequence (its reflected offset). -/
def OpenGroup : Option Int → List Member → Option Int
  | grp, [] => grp
  | _, Member.Property p _ :: rest =>
    OpenGroup (if IsBitField p then some p.Offset else none) rest
  | _, Member.BytePadding _ _ _ _ :: rest => OpenGroup none rest
  | grp, Member.BitPadding _ _ :: rest => OpenGroup grp rest
  | _, Member.Predefined _ :: rest => OpenGroup none rest

/-! ## Contract predicates for the reconciliation loop -/

/-- The bitfield group the loop locals describe as open. -/
def GroupOf (v : LoopVars) : Option Int :=
  if v.bLastPropertyWasBitField then some v.PrevBoolPropertyEnd else none

/-- Consistency of the loop locals: after a bit-packed boolean the cursor is one byte
past the boolean's offset. -/
def VarsOk (v : LoopVars) : Prop :=
  v.bLastPropertyWasBitField = true → v.PrevPropertyEnd = v.PrevBoolPropertyEnd + 1

/-- A field the loop can place without moving backward: it starts at or after the
cursor, or it continues the open bitfield group; a bit-packed boolean has byte size 1. -/
def StepOk (v : LoopVars) (f : UEProperty) : Prop :=
  (v.PrevPropertyEnd ≤ f.Offset ∨
    (v.bLastPropertyWasBitField = true ∧ IsBitField f = true ∧
      f.Offset = v.PrevBoolPropertyEnd)) ∧
  (IsBitField f = true → PropertySize f = 1)

/-- Every reflected field of the sequence sits at its reflected offset when the
sequence is laid out from byte `cur` with bitfield group `grp` open: a field that
continues the open group shares the group's byte, which ends at `cur`. -/
def PlacedFrom : Int → Option Int → List Member → Prop
  | _, _, [] => True
  | cur, grp, Member.Property p Size :: rest =>
    if IsBitField p then
      if grp = some p.Offset then cur - 1 = p.Offset ∧ PlacedFrom cur (some p.Offset) rest
      else cur = p.Offset ∧ PlacedFrom (cur + 1) (some p.Offset) rest
    else cur = p.Offset ∧ PlacedFrom (cur + Size) none rest
  | cur, _, Member.BytePadding _ _ PadSize _ :: rest => PlacedFrom (cur + PadSize) none rest
  | cur, grp, Member.BitPadding _ _ :: rest => PlacedFrom cur grp rest
  | cur, _, Member.Predefined Entry :: rest => PlacedFrom (cur + Entry.Size) none rest

/-- Two consecutive fields of a list that meets the contract: the second starts at or
after the end of the first, unless both are bit-packed booleans at the same offset. -/
def FollowsWithoutOverlap (a b : UEProperty) : Prop :=
  a.Offset + PropertySize a ≤ b.Offset ∨
    (IsBitField a = true ∧ IsBitField b = true ∧ a.Offset = b.Offset)

instance instDecidableFollowsWithoutOverlap (a b : UEProperty) :
    Decidable (FollowsWithoutOverlap a b) :=
  inferInstanceAs (Decidable (a.Offset + PropertySize a ≤ b.Offset ∨
    (IsBitField a = true ∧ IsBitField b = true ∧ a.Offset = b.Offset)))

/-- Bytes consumed before a field's own layout unit: the span of the members emitted
before it, where a field that continues the bitfield group open at that point belongs
to that group, so the group's single byte is not before it. -/
def SpanBefore (pre : List Member) (p : UEProperty) : Int :=
  Span pre - (if IsBitField p = true ∧ OpenGroup none pre = some p.Offset then 1 else 0)

/-! ## Example inputs -/

/-- An empty override table. -/
def NoOverrides : String → Option (List PredefinedMember) := fun _ => none

/-- A plain (non-boolean, non-struct) field. -/
def PlainField (Name CppType : String) (Offset Size : Int) : UEProperty :=
  { ValidName := Name, CppType := CppType, Offset := Offset, Size := Size }

/-- A bit-packed boolean field. -/
def BitField (Name : String) (Offset Size : Int) (BitIndex : Nat) : UEProperty :=
  { ValidName := Name, CppType := "uint8", Offset := Offset, Size := Size,
    IsBoolProperty := true, IsNativeBool := false, BitIndex := BitIndex }

/-- The fields of the struct `S` of the end-to-end scenario: `int32 X` at offset 0 and
the bit-packed `bool bFlag` (bit index 0) at offset 4. -/
def ScenarioFields : List UEProperty :=
  [PlainField "X" "int32" 0 4, BitField "bFlag" 4 1 0]

/-- A run of four bit-packed booleans at byte offset 0 with bit indices 0, 1, 3, 7. -/
def RunFields : List UEProperty :=
  [BitField "b0" 0 1 0, BitField "b1" 0 1 1, BitField "b3" 0 1 3, BitField "b7" 0 1 7]

/-! ## Override walk as the specification words it -/

/-- Members of the override walk before the trailing pad, following the spec's words:
for each tuple in table order a byte pad of `tuple.offset - cursor` bytes when
`tuple.offset > cursor`, then the tuple itself; the cursor moves to the tuple's end.
`PadNum` is the number the next byte pad gets. -/
def OverrideMembers : Int → Nat → List PredefinedMember → List Member
  | _, _, [] => []
  | cursor, PadNum, t :: rest =>
    if t.Offset > cursor then
      Member.BytePadding PadNum cursor (t.Offset - cursor) PadReason.MissedOffsetPredefined ::
        Member.Predefined t :: OverrideMembers (t.Offset + t.Size) ((PadNum + 1) % 2 ^ 32) rest
    else
      Member.Predefined t :: OverrideMembers (t.Offset + t.Size) PadNum rest

/-- End of the last override tuple; the inherited size when the entry has no tuples. -/
def OverrideEnd (SuperSize : Int) (tuples : List PredefinedMember) : Int :=
  match tuples.getLast? with
  | some t => t.Offset + t.Size
  | none => SuperSize

/-- An override table with the single entry `S`. -/
def TableOf (tuples : List PredefinedMember) : String → Option (List PredefinedMember) :=
  fun ClassName => if ClassName = "S" then some tuples else none

/-- Two override tuples with a gap before each: `A` at 8 (size 4), `B` at 16 (size 8). -/
def TwoTuples : List PredefinedMember :=
  [{ TypeName := "int32", Name := "A", Offset := 8, Size := 4 },
   { TypeName := "int64", Name := "B", Offset := 16, Size := 8 }]

/-- Two override tuples that overlap: `A` at 0 (size 8), `B` at 4 (size 4). -/
def OverlappingTuples : List PredefinedMember :=
  [{ TypeName := "int64", Name := "A", Offset := 0, Size := 8 },
   { TypeName := "int32", Name := "B", Offset := 4, Size := 4 }]

/-! ## Dependency graph resolver -/

/-- Modelled from the spec: the recorded dependencies of a `PackageDependencyManager`
(the member `AllDependencies` is declared outside the translated files): for each index
that has an entry, its dependency set in iteration order. -/
abbrev Dependencies := List (Int × List Int)

/-- The set `AllDependencies[Index].second`; `operator[]` creates an entry with no
dependencies when the index has none. -/
def DependenciesOf (g : Dependencies) (Index : Int) : List Int :=
  (g.lookup Index).getD []

/-- Mutable part of a `PackageDependencyManager` together with the driver's output:
the indices whose `bIsIncluded` flag is set and the indices for which the driver's
emission (`GenerateClass` / `GenerateStruct`) has run, in call order. -/
structure SorterState where
  Included : List Int := []
  Emitted : List Int := []
  deriving DecidableEq, Repr

/-- The `for (auto& Dependency : Dependencies)` loop with the recursive call `visit`. -/
def ForEachDependency (visit : Int → SorterState → Option SorterState) :
    List Int → SorterState → Option SorterState
  | [], s => some s
  | Dependency :: rest, s =>
    match visit Dependency s with
    | none => none
    | some s' => ForEachDependency visit rest s'

/-- Common body of `GenerateClassSorted` and `GenerateStructSorted`: if the flag of
`Index` is unset, set it, recurse into every dependency, then run the driver's emission
for `Index`. The recursion depth is bounded by `fuel`; `none` means the bound was hit. -/
def GenerateSorted (g : Dependencies) : Nat → Int → SorterState → Option SorterState
  | 0, _, _ => none
  | fuel + 1, Index, s =>
    if Index ∈ s.Included then
      some s
    else
      match ForEachDependency (GenerateSorted g fuel) (DependenciesOf g Index)
          { s with Included := Index :: s.Included } with
      | none => none
      | some s' => some { s' with Emitted := s'.Emitted ++ [Index] }

/-- Source `PackageDependencyManager::GenerateStructSorted`; the emission is
`Pack.GenerateStruct(ObjectArray::GetByIndex<UEStruct>(StructIdx))`. -/
def GenerateStructSorted (g : Dependencies) (fuel : Nat) (StructIdx : Int)
    (s : SorterState) : Option SorterState :=
  GenerateSorted g fuel StructIdx s

/-- Source `PackageDependencyManager::GenerateClassSorted`; the emission is
`Pack.GenerateClass(ObjectArray::GetByIndex<UEClass>(ClassIdx))`. -/
def GenerateClassSorted (g : Dependencies) (fuel : Nat) (ClassIdx : Int)
    (s : SorterState) : Option SorterState :=
  GenerateSorted g fuel ClassIdx s

/-- Result of `ObjectArray::GetByIndex(Index)` as far as `Process` inspects it. -/
structure UEObject where
  /-- Value of `operator bool` (the object exists). -/
  IsValid : Bool := true
  /-- Result of `IsA(EClassCastFlags::Enum)`. -/
  IsEnum : Bool := false
  /-- Result of `IsA(EClassCastFlags::Class)`. -/
  IsClass : Bool := false
  /-- Result of `IsA(EClassCastFlags::Struct)`. -/
  IsStruct : Bool := false
  /-- Result of `IsA(EClassCastFlags::Function)`. -/
  IsFunction : Bool := false
  /-- Value of `GetIndex()`. -/
  Index : Int := 0
  /-- Value of `GetOutermost().GetIndex()`, the index of the enclosing package. -/
  OutermostIndex : Int := 0
  deriving DecidableEq, Repr

/-- State of a `Package` during `Process`: its two sorters (with the order in which
classes and structs were generated) and the indices of the enums generated. -/
structure PackageState where
  ClassSorter : SorterState := {}
  StructSorter : SorterState := {}
  EnumsGenerated : List Int := []
  deriving DecidableEq, Repr

/-- Source `Package::Process`: one pass over the member indices; enums are generated
directly, classes go through `ClassSorter`, non-function structs through
`StructSorter`. -/
def Process (ObjectArray : Int → UEObject) (ClassDeps StructDeps : Dependencies)
    (fuel : Nat) : List Int → PackageState → Option PackageState
  | [], p => some p
  | Index :: rest, p =>
    let Object := ObjectArray Index
    if !Object.IsValid then
      Process ObjectArray ClassDeps StructDeps fuel rest p
    else if Object.IsEnum then
      Process ObjectArray ClassDeps StructDeps fuel rest
        { p with EnumsGenerated := p.EnumsGenerated ++ [Index] }
    else if Object.IsClass then
      match GenerateClassSorted ClassDeps fuel Index p.ClassSorter with
      | none => none
      | some s => Process ObjectArray ClassDeps StructDeps fuel rest { p with ClassSorter := s }
    else if Object.IsStruct && !Object.IsFunction then
      match GenerateStructSorted StructDeps fuel Index p.StructSorter with
      | none => none
      | some s => Process ObjectArray ClassDeps StructDeps fuel rest { p with StructSorter := s }
    else
      Process ObjectArray ClassDeps StructDeps fuel rest p

/-- A recorded dependency edge: `b` is in the dependency set of `a`. -/
def DependsOn (g : Dependencies) (a b : Int) : Prop :=
  b ∈ DependenciesOf g a

/-- Index `x` is reachable from `i` through recorded dependencies (in zero or more
steps). -/
def Reachable (g : Dependencies) (i x : Int) : Prop :=
  Relation.ReflTransGen (DependsOn g) i x

/-- The graph has no dependency cycle (and no self-loop). -/
def Acyclic (g : Dependencies) : Prop :=
  ∀ x, ¬ Relation.TransGen (DependsOn g) x x

/-- In the emission order `l`, index `d` is emitted before index `x`. -/
def EmittedBefore (l : List Int) (d x : Int) : Prop :=
  ∃ l1 l2, l = l1 ++ x :: l2 ∧ d ∈ l1

/-- What a completed walk from `roots` has done to the state: it appended the list `L`
of newly included indices to the emission order. -/
def WalkPost (g : Dependencies) (roots : List Int) (s s' : SorterState) : Prop :=
  ∃ L, s'.Emitted = s.Emitted ++ L ∧
    (∀ x, x ∈ s'.Included ↔ x ∈ s.Included ∨ x ∈ L) ∧
    L.Nodup ∧
    (∀ x ∈ L, x ∉ s.Included) ∧
    (∀ r ∈ roots, r ∈ s'.Included) ∧
    (∀ x ∈ L, ∀ d ∈ DependenciesOf g x, d ∈ s'.Included) ∧
    (∀ x ∈ L, ∃ r ∈ roots, Reachable g r x)

/-- Every index mentioned by the graph, together with the given roots. -/
def Nodes (g : Dependencies) (roots : List Int) : List Int :=
  roots ++ g.flatMap (fun e => e.1 :: e.2)

/-- The synthetic 3-cycle A→B→C→A with A = 0, B = 1, C = 2. -/
def ThreeCycle : Dependencies := [(0, [1]), (1, [2]), (2, [0])]

/-- An acyclic graph: 0 depends on 1 and 2, 1 depends on 2. -/
def Diamond : Dependencies := [(0, [1, 2]), (1, [2])]

/-- Index `y` is on the recursion stack: its flag is set and its emission has not run. -/
def OnStack (s : SorterState) (y : Int) : Prop :=
  y ∈ s.Included ∧ y ∉ s.Emitted

/-- In the emission order `l`, every recorded dependency of an emitted index is emitted
before that index. -/
def DependenciesFirst (g : Dependencies) (l : List Int) : Prop :=
  ∀ x ∈ l, ∀ d ∈ DependenciesOf g x, EmittedBefore l d x

/-- Both sorters of a package are between top-level calls (empty recursion stack) and
their emission orders put dependencies first. -/
def PackageOrdered (ClassDeps StructDeps : Dependencies) (p : PackageState) : Prop :=
  (∀ y, ¬ OnStack p.ClassSorter y) ∧ DependenciesFirst ClassDeps p.ClassSorter.Emitted ∧
  (∀ y, ¬ OnStack p.StructSorter y) ∧ DependenciesFirst StructDeps p.StructSorter.Emitted

/-- An object array in which every index is a (non-function, non-class) struct. -/
def AllStructObjects : Int → UEObject := fun _ => { IsStruct := true }

/-! ## Enum materializer -/

/-- Reflected enum as `GenerateEnum` reads it (`UEEnum`). -/
structure UEEnum where
  /-- Value of `GetEnumTypeAsStr()`. -/
  EnumTypeAsStr : String
  /-- Value of `GetIndex()`. -/
  Index : Int
  /-- Value of `GetNameValuePairs()`, each name already passed through
  `ToValidString()`; the values are `int64`. -/
  NameValuePairs : List (String × Int)
  deriving DecidableEq, Repr

/-- Modelled from the spec: the declaration model `Types::Enum` (declared outside the
translated file): the enum's name, its underlying type and its members in the order of
the `AddMember` calls, each a name with its value. -/
structure TypesEnum where
  Name : String
  UnderlayingType : String
  Members : List (String × Int) := []
  deriving DecidableEq, Repr

/-- Modelled from the spec: `Types::Enum::AddMember` appends one member. -/
def TypesEnum.AddMember (Enm : TypesEnum) (Name : String) (Value : Int) : TypesEnum :=
  { Enm with Members := Enm.Members ++ [(Name, Value)] }

/-- Modelled from the spec: `Types::Enum::FixWindowsConstant` rewrites every member
whose name equals the collision target `ConstantName` to the target's substitute. The
spec does not give the substitute text; it is the parameter `Substitute`. -/
def TypesEnum.FixWindowsConstant (Substitute : String → String) (Enm : TypesEnum)
    (ConstantName : String) : TypesEnum :=
  { Enm with
    Members := List.map
      (fun m => if m.1 = ConstantName then (Substitute ConstantName, m.2) else m)
      Enm.Members }

/-- The call `s.find_last_of(ch)` for a one-character argument: the index of the last
occurrence of `ch`, `none` for `std::string::npos`. -/
def FindLastOf : List Char → Char → Option Nat
  | [], _ => none
  | c :: rest, ch =>
    match FindLastOf rest ch with
    | some i => some (i + 1)
    | none => if c = ch then some 0 else none

/-- The call `s.find(sub)`: the index of the first occurrence of `sub`, `none` for
`std::string::npos`. -/
def Find : List Char → List Char → Option Nat
  | [], sub => if sub = [] then some 0 else none
  | c :: rest, sub =>
    if sub.isPrefixOf (c :: rest) then some 0
    else (Find rest sub).map (fun i => i + 1)

/-- The test `s.find(sub) != -1`. -/
def Contains (s sub : String) : Bool :=
  (Find s.data sub.data).isSome

/-- The expression `s.substr(s.find_last_of(":") + 1)`: `npos + 1` wraps to 0 (the
whole string), an index `i` gives the characters after position `i`. -/
def StripQualifier (s : String) : String :=
  String.mk (s.data.drop (match FindLastOf s.data ':' with
    | some i => i + 1
    | none => 0))

/-- The `for` loop of `GenerateEnum` over the name/value pairs. -/
def AddEnumMembers : List (String × Int) → TypesEnum → TypesEnum
  | [], Enm => Enm
  | nv :: rest, Enm => AddEnumMembers rest (Enm.AddMember (StripQualifier nv.1) nv.2)

/-- Source `Package::GenerateEnum`. `BigEnums` is `UEEnum::BigEnums` (type index to
underlying type name); the result is the enum returned and pushed to `AllEnums`. -/
def GenerateEnum (BigEnums : Int → Option String) (Substitute : String → String)
    (Enum : UEEnum) : TypesEnum :=
  let EnumName := Enum.EnumTypeAsStr
  let Enm0 : TypesEnum :=
    match BigEnums Enum.Index with
    | some Underlaying => { Name := EnumName, UnderlayingType := Underlaying }
    | none => { Name := EnumName, UnderlayingType := "uint8" }
  let Enm1 := AddEnumMembers Enum.NameValuePairs Enm0
  let Enm2 :=
    if Contains EnumName "PixelFormat" then Enm1.FixWindowsConstant Substitute "PF_MAX"
    else Enm1
  let Enm3 :=
    if Contains EnumName "ERaMaterialName" then Enm2.FixWindowsConstant Substitute "TRANSPARENT"
    else Enm2
  Enm3

/-- The part of a name after its last `:`, in the spec's words: `short` contains no
`:` and the name is `short` preceded by nothing or by a qualifier that ends in `:`. -/
def IsUnqualifiedPartOf (short full : String) : Prop :=
  ':' ∉ short.data ∧
    ∃ qualifier : List Char, full.data = qualifier ++ short.data ∧
      (qualifier = [] ∨ qualifier.getLast? = some ':')

/-- No width override for any enum. -/
def NoBigEnums : Int → Option String := fun _ => none

/-- A collision table whose substitute appends an underscore. -/
def UnderscoreSubstitute : String → String := fun s => s ++ "_"

/-- The enum `E` with the pairs `("E::A", 0)`, `("E::B", 1)`. -/
def ExampleEnum : UEEnum :=
  { EnumTypeAsStr := "E", Index := 7, NameValuePairs := [("E::A", 0), ("E::B", 1)] }

/-- A pixel-format enum with the member `PF_MAX`. -/
def PixelFormatEnum : UEEnum :=
  { EnumTypeAsStr := "EPixelFormat", Index := 9,
    NameValuePairs := [("EPixelFormat::PF_Unknown", 0), ("EPixelFormat::PF_MAX", 72)] }

/-- An enum whose type name `E` matches no collision guard, with the member `PF_MAX`. -/
def UnguardedEnum : UEEnum :=
  { EnumTypeAsStr := "E", Index := 3, NameValuePairs := [("E::PF_MAX", 1)] }

/-! ## Struct sizes -/

/-- What `GenerateStruct` reads of a `UEStruct` to fix its sizes. -/
structure UEStruct where
  /-- Value of `GetIndex()`. -/
  Index : Int
  /-- Value of `GetStructSize()`. -/
  StructSize : Int
  deriving DecidableEq, Repr

/-- The size lookup of `GenerateStruct` and `GenerateClass`: the reflected size
`GetStructSize()`, replaced by the entry of `UEStruct::StructSizes` for the struct's
index when there is one. -/
def ResolveStructSize (StructSizes : Int → Option Int) (Struct : UEStruct) : Int :=
  match StructSizes Struct.Index with
  | some Size => Size
  | none => Struct.StructSize

/-- The locals `Size` and `SuperSize` of `GenerateStruct` as passed to
`GenerateMembers`: `Super` is `Struct.GetSuper()` (`none` for a null super), which is
only consulted when `bIsFunction` is false. -/
def GenerateStructSizes (StructSizes : Int → Option Int) (Struct : UEStruct)
    (Super : Option UEStruct) (bIsFunction : Bool) : Int × Int :=
  let Size := ResolveStructSize StructSizes Struct
  let SuperSize :=
    if !bIsFunction then
      match Super with
      | some SuperStruct => ResolveStructSize StructSizes SuperStruct
      | none => 0
    else 0
  (Size, SuperSize)

/-- A size table that overrides the size of struct 5 with 16. -/
def SizeOverrides : Int → Option Int := fun Index => if Index = 5 then some 16 else none

/-- The value struct with index 5 and reflected size 12. -/
def ValueStruct : UEStruct := { Index := 5, StructSize := 12 }

/-- A field at offset 0 whose value type is the struct with index 5 (reflected size 12);
the field's own reported size is 8. -/
def StructField : UEProperty :=
  { ValidName := "Value", CppType := "struct FValue", Offset := 0, Size := 8,
    IsStructProperty := true, UnderlayingStructIndex := 5, UnderlayingStructSize := 12 }

/-! ## Function stub synthesizer -/

/-- What `GenerateFunction` reads of a `UEFunction`. -/
structure UEFunction where
  /-- Value of `GetValidName()`. -/
  ValidName : String
  /-- Value of `GetName()`. -/
  Name : String := ""
  /-- Value of `GetParamStructName()`. -/
  ParamStructName : String := ""
  /-- Value of `GetProperties()`, the parameters in order. -/
  Properties : List UEProperty
  /-- Result of `HasFlags(EFunctionFlags::Native)`. -/
  IsNative : Bool := false
  deriving DecidableEq, Repr

/-- Modelled from the spec: `Types::Parameter` (declared outside the translated files),
built as `Types::Parameter(Type, Name, bIsOutPtr)`; `IsParamOutPtr()` reads the flag. -/
structure Parameter where
  TypeName : String
  Name : String
  bIsOutPtr : Bool
  deriving DecidableEq, Repr

/-- One piece of the text appended to `FuncBody`, in the order of the `+=`. -/
inductive BodyStatement where
  /-- The text `static class UFunction* Func = nullptr; if (!Func)`. -/
  | StaticFunc
  /-- The text `Func = Class->GetFunction("<Super>", "<Function>");`
  (`Settings::bShouldXorStrings` is the constant `false`). -/
  | GetFunction (SuperName FunctionName : String)
  /-- The text `Params::<ParamStructName> Parms{};`
  (`Settings::bUseNamespaceForParams` is the constant `true`). -/
  | DeclareParms (ParamStructName : String)
  /-- The text `Parms.<Name> = <Name>;`. -/
  | AssignParm (Name : String)
  /-- The text `auto Flgs = Func->FunctionFlags; Func->FunctionFlags |= 0x400;`. -/
  | SaveFlags
  /-- The text `UObject::ProcessEvent(Func, &Parms);`, the dispatch call. -/
  | ProcessEvent
  /-- The text `Func->FunctionFlags = Flgs;`. -/
  | RestoreFlags
  /-- The text `if (<Name> != nullptr) *<Name> = Parms.<Name>;`. -/
  | WriteBack (Name : String)
  /-- The text `return Parms.ReturnValue;`. -/
  | ReturnValue
  deriving DecidableEq, Repr

/-- Name of the generated stub: the function's valid name, or `UnknownFunction_<n>`
drawn from the static counter `NumUnnamedFunctions` when the valid name is empty. -/
inductive StubName where
  | Valid (Name : String)
  | UnknownFunction (Number : Nat)
  deriving DecidableEq, Repr

/-- Modelled from the spec: the declaration model `Types::Function` (declared outside
the translated files) as `GenerateFunction` fills it: result type, name, owner name,
parameter list (`GetParameters()`) and body. The comment lines (`AddCommentEx`) and the
parameter struct (`SetParamStruct`) are not part of the stub's signature or body and are
left out. -/
structure TypesFunction where
  ReturnType : String
  Name : StubName
  SuperName : String
  Parameters : List Parameter
  Body : List BodyStatement
  deriving DecidableEq, Repr

/-- Locals of `GenerateFunction` that the parameter loop updates. -/
structure ParamLoopState where
  ReturnType : String := "void"
  Params : List Parameter := []
  OutPtrParamNames : List String := []
  bHasRetType : Bool := false
  deriving DecidableEq, Repr

/-- One iteration of `for (UEProperty Param : Function.GetProperties())`. -/
def GenerateFunctionStep (s : ParamLoopState) (Param : UEProperty) : ParamLoopState :=
  let bIsRet := Param.HasReturnParm
  let Type0 := Param.CppType
  -- if (!bIsRet && Param.HasPropertyFlags(EPropertyFlags::ReferenceParm))
  let c1 := !bIsRet && Param.HasReferenceParm
  let Type1 := if c1 then Type0 ++ "&" else Type0
  let bIsRef := c1
  let bIsOut1 := c1
  -- if (!bIsRet && !bIsRef && Param.HasPropertyFlags(EPropertyFlags::OutParm))
  let c2 := !bIsRet && !bIsRef && Param.HasOutParm
  let Type2 := if c2 then Type1 ++ "*" else Type1
  let bIsOut := bIsOut1 || c2
  let OutPtrParamNames :=
    if c2 then s.OutPtrParamNames ++ [Param.ValidName] else s.OutPtrParamNames
  -- if (!bIsRet && !bIsOut && !bIsRef && (struct || array || string))
  let c3 := !bIsRet && !bIsOut && !bIsRef &&
    (Param.IsStructProperty || Param.IsArrayProperty || Param.IsStrProperty)
  let Type3 := if c3 then "const " ++ (Type2 ++ "&") else Type2
  if bIsRet then
    { s with ReturnType := Type3, bHasRetType := true, OutPtrParamNames := OutPtrParamNames }
  else
    { s with
      Params := s.Params ++ [{ TypeName := Type3, Name := Param.ValidName,
                               bIsOutPtr := bIsOut && !bIsRef }]
      OutPtrParamNames := OutPtrParamNames }

/-- The parameter loop of `GenerateFunction`. -/
def GenerateFunctionLoop : List UEProperty → ParamLoopState → ParamLoopState
  | [], s => s
  | Param :: rest, s => GenerateFunctionLoop rest (GenerateFunctionStep s Param)

/-- The text `GenerateFunction` appends to `FuncBody`, piece by piece. -/
def GenerateFunctionBody (Function : UEFunction) (SuperName : String)
    (s : ParamLoopState) : List BodyStatement :=
  [BodyStatement.StaticFunc, BodyStatement.GetFunction SuperName Function.Name,
    BodyStatement.DeclareParms Function.ParamStructName] ++
  ((s.Params.filter (fun Param => !Param.bIsOutPtr)).map
    (fun Param => BodyStatement.AssignParm Param.Name)) ++
  (if Function.IsNative then [BodyStatement.SaveFlags] else []) ++
  [BodyStatement.ProcessEvent] ++
  (if Function.IsNative then [BodyStatement.RestoreFlags] else []) ++
  (s.OutPtrParamNames.map BodyStatement.WriteBack) ++
  (if s.bHasRetType then [BodyStatement.ReturnValue] else [])

/-- Source `Package::GenerateFunction`. `SuperCppName` and `SuperName` are
`Super.GetCppName()` and `Super.GetName()`, `NumUnnamedFunctions` is the function-local
static counter. Returns the stub (also pushed to `AllFunctions`) and the counter. -/
def GenerateFunction (Function : UEFunction) (SuperCppName SuperName : String)
    (NumUnnamedFunctions : Nat) : TypesFunction × Nat :=
  let Named : StubName × Nat :=
    if Function.ValidName.isEmpty then
      (StubName.UnknownFunction NumUnnamedFunctions, NumUnnamedFunctions + 1)
    else (StubName.Valid Function.ValidName, NumUnnamedFunctions)
  let s := GenerateFunctionLoop Function.Properties {}
  ({ ReturnType := s.ReturnType
     Name := Named.1
     SuperName := SuperCppName
     Parameters := s.Params
     Body := GenerateFunctionBody Function SuperName s },
    Named.2)

/-- The class the spec assigns to a non-return parameter, by priority: reference (type
suffix `&`, not an out-pointer), output (type suffix `*`, out-pointer), const-reference
for a struct, array or string property (`const T&`), otherwise by value. -/
def ClassifiedParameter (Param : UEProperty) : Parameter :=
  if Param.HasReferenceParm then
    { TypeName := Param.CppType ++ "&", Name := Param.ValidName, bIsOutPtr := false }
  else if Param.HasOutParm then
    { TypeName := Param.CppType ++ "*", Name := Param.ValidName, bIsOutPtr := true }
  else if Param.IsStructProperty || Param.IsArrayProperty || Param.IsStrProperty then
    { TypeName := "const " ++ (Param.CppType ++ "&"), Name := Param.ValidName,
      bIsOutPtr := false }
  else
    { TypeName := Param.CppType, Name := Param.ValidName, bIsOutPtr := false }

/-- A function parameter with the given flags. -/
def ParamOf (Name CppType : String) (Ret Ref Out : Bool) : UEProperty :=
  { ValidName := Name, CppType := CppType, Offset := 0, Size := 4,
    HasReturnParm := Ret, HasReferenceParm := Ref, HasOutParm := Out }

/-- A function with a by-value, a reference, an output and a return parameter. -/
def ExampleFunction : UEFunction :=
  { ValidName := "Trace", Name := "Trace", ParamStructName := "Actor_Trace_Params",
    Properties := [ParamOf "Start" "int32" false false false,
                   ParamOf "Hit" "struct FHit" false true true,
                   ParamOf "Distance" "float" false false true,
                   ParamOf "ReturnValue" "bool" true false true] }

/-- A function whose only parameter is a reference parameter. -/
def ReferenceOnlyFunction : UEFunction :=
  { ValidName := "Adjust", Name := "Adjust", ParamStructName := "Actor_Adjust_Params",
    Properties := [ParamOf "Value" "struct FValue" false true false] }

/-- A function whose return parameter has the C++ type text `void`. -/
def VoidReturnFunction : UEFunction :=
  { ValidName := "Run", Name := "Run", ParamStructName := "Actor_Run_Params",
    Properties := [ParamOf "ReturnValue" "void" true false false] }

/-! ## Include directives -/

/-- Modelled from the spec: the enumeration `EIncludeFileType` (declared outside the
translated files). The source names `Struct`, `Class` and `Params`; `Other` stands for
every other value, which the `switch` of `GetIncludesForPackage` sends to `default`. -/
inductive EIncludeFileType where
  | Struct
  | Class
  | Params
  | Other
  deriving DecidableEq, Repr

/-- One directive appended to `OutRef`: the text
`\n<//>#include "SDK/<PackageName>_<structs|classes|parameters>.hpp"`, where `//` is
present when `bCommentOut` holds, the file suffix is fixed by `FileType` and
`PackageName` is the name of the object with index `Package`
(`Settings::FilePrefix` is the constant `nullptr`). -/
structure IncludeDirective where
  bCommentOut : Bool
  FileType : EIncludeFileType
  Package : Int
  deriving DecidableEq, Repr

/-- State touched by `GetIncludesForPackage`: the `bIsIncluded` flags of this manager,
those of the secondary manager `AdditionalDependencies`, and the text `OutRef` as the
list of directives appended so far. -/
structure IncludeState where
  Included : List Int := []
  AdditionalIncluded : List Int := []
  OutRef : List IncludeDirective := []
  deriving DecidableEq, Repr

/-- The `switch (FileType)` of `GetIncludesForPackage`: one directive for `Struct`,
`Class` and `Params`, nothing for any other value. -/
def AppendInclude (FileType : EIncludeFileType) (bCommentOut : Bool) (Index : Int)
    (OutRef : List IncludeDirective) : List IncludeDirective :=
  match FileType with
  | EIncludeFileType.Struct =>
    OutRef ++ [{ bCommentOut := bCommentOut, FileType := EIncludeFileType.Struct, Package := Index }]
  | EIncludeFileType.Class =>
    OutRef ++ [{ bCommentOut := bCommentOut, FileType := EIncludeFileType.Class, Package := Index }]
  | EIncludeFileType.Params =>
    OutRef ++ [{ bCommentOut := bCommentOut, FileType := EIncludeFileType.Params, Package := Index }]
  | EIncludeFileType.Other => OutRef

/-- The `for (auto& Dependency : Dependencies)` loop of `GetIncludesForPackage` with the
recursive call `visit`. -/
def ForEachInclude (visit : Int → IncludeState → Option IncludeState) :
    List Int → IncludeState → Option IncludeState
  | [], s => some s
  | Dependency :: rest, s =>
    match visit Dependency s with
    | none => none
    | some s' => ForEachInclude visit rest s'

/-- Source `PackageDependencyManager::GetIncludesForPackage` on the manager with
dependencies `g`. `Additional` is `AdditionalDependencies` (`none` for `nullptr`) with
`AdditionalDepFileType`; the call on the secondary manager passes no further secondary
manager. The recursion depth is bounded by the first argument; `none` means the bound
was hit. -/
def GetIncludesForPackage : Nat → Dependencies → Option (Dependencies × EIncludeFileType) →
    Int → EIncludeFileType → Bool → IncludeState → Option IncludeState
  | 0, _, _, _, _, _, _ => none
  | fuel + 1, g, Additional, Index, FileType, bCommentOut, s =>
    if Index ∈ s.Included then
      some s
    else
      let s1 : IncludeState := { s with Included := Index :: s.Included }
      let afterAdditional : Option IncludeState :=
        match Additional with
        | none => some s1
        | some (g2, AdditionalDepFileType) =>
          match GetIncludesForPackage fuel g2 none Index AdditionalDepFileType bCommentOut
              { Included := s1.AdditionalIncluded, AdditionalIncluded := [],
                OutRef := s1.OutRef } with
          | none => none
          | some r =>
            some { Included := s1.Included, AdditionalIncluded := r.Included,
                   OutRef := r.OutRef }
      match afterAdditional with
      | none => none
      | some s2 =>
        match ForEachInclude
            (fun Dependency t =>
              GetIncludesForPackage fuel g Additional Dependency FileType bCommentOut t)
            (DependenciesOf g Index) s2 with
        | none => none
        | some s3 => some { s3 with OutRef := AppendInclude FileType bCommentOut Index s3.OutRef }

/-- The packages named by a list of directives, in order. -/
def IncludedPackages (OutRef : List IncludeDirective) : List Int :=
  OutRef.map (fun d => d.Package)

/-- The state with the same flags and an empty `OutRef`. -/
def IncludeState.withoutDirectives (s : IncludeState) : IncludeState :=
  { s with OutRef := [] }

/-- The flags and the directive order of an include walk, seen as a sorter state. -/
def IncludeState.toSorter (s : IncludeState) : SorterState :=
  { Included := s.Included, Emitted := IncludedPackages s.OutRef }

/-! ## Dependency discovery -/

/-- Modelled from the spec: `PackageDependencyManager::AddDependency` (declared outside
the translated files) records the directed edge from `DepandantIdx` to
`DependencyIndex`: the index is inserted into the dependency set of the dependant,
whose entry is created when it does not exist. -/
def AddDependency : Dependencies → Int → Int → Dependencies
  | [], DepandantIdx, DependencyIndex => [(DepandantIdx, [DependencyIndex])]
  | (Key, Set) :: rest, DepandantIdx, DependencyIndex =>
    if DepandantIdx = Key then
      (Key, if DependencyIndex ∈ Set then Set else Set ++ [DependencyIndex]) :: rest
    else
      (Key, Set) :: AddDependency rest DepandantIdx DependencyIndex

/-- The five graphs `GatherDependencies` writes to: the three static package graphs and
the two intra-package graphs of the package. -/
structure DependencyGraphs where
  PackageSorterClasses : Dependencies := []
  PackageSorterStructs : Dependencies := []
  PackageSorterParams : Dependencies := []
  ClassSorter : Dependencies := []
  StructSorter : Dependencies := []
  deriving DecidableEq, Repr

/-- Body of the loop `for (auto& Idx : ObjectsToCheck)` of `GatherDependencies` for the
owner `Object` of the package with index `PackageIndex` (`PackageObject.GetIndex()`).
The test `PackageObject != Outermost` compares the two objects by identity, here by
index. -/
def RecordDependency (ObjectArray : Int → UEObject) (PackageIndex : Int) (Object : UEObject)
    (G : DependencyGraphs) (Idx : Int) : DependencyGraphs :=
  let Obj := ObjectArray Idx
  let bIsClass := Object.IsClass
  let bDependencyIsClass := Obj.IsClass
  let bDependencyIsStruct := Obj.IsStruct && !bDependencyIsClass
  if PackageIndex ≠ Obj.OutermostIndex then
    let G1 : DependencyGraphs :=
      if bDependencyIsClass then
        { G with PackageSorterClasses :=
            AddDependency G.PackageSorterClasses PackageIndex Obj.OutermostIndex }
      else
        { G with PackageSorterStructs :=
            AddDependency G.PackageSorterStructs PackageIndex Obj.OutermostIndex }
    { G1 with PackageSorterParams :=
        AddDependency G1.PackageSorterParams PackageIndex Obj.OutermostIndex }
  else if bIsClass && bDependencyIsClass then
    { G with ClassSorter := AddDependency G.ClassSorter Object.Index Idx }
  else if !bIsClass && bDependencyIsStruct then
    { G with StructSorter := AddDependency G.StructSorter Object.Index Idx }
  else
    G

/-- The whole loop `for (auto& Idx : ObjectsToCheck)`. -/
def RecordDependencies (ObjectArray : Int → UEObject) (PackageIndex : Int) (Object : UEObject)
    (ObjectsToCheck : List Int) (G : DependencyGraphs) : DependencyGraphs :=
  ObjectsToCheck.foldl (RecordDependency ObjectArray PackageIndex Object) G

/-- Graph `g'` is graph `g` with the edge from `a` to `b` added and no other change. -/
def EdgeAdded (g g' : Dependencies) (a b : Int) : Prop :=
  ∀ x y, DependsOn g' x y ↔ DependsOn g x y ∨ (x = a ∧ y = b)

/-- An object array: 10 is a class of package 1, 11 a struct of package 1, 20 a class of
package 2, 21 a struct of package 2; 1 and 2 are the packages. -/
def ExampleObjects : Int → UEObject := fun Index =>
  if Index = 10 then { IsClass := true, IsStruct := true, Index := 10, OutermostIndex := 1 }
  else if Index = 11 then { IsStruct := true, Index := 11, OutermostIndex := 1 }
  else if Index = 20 then { IsClass := true, IsStruct := true, Index := 20, OutermostIndex := 2 }
  else if Index = 21 then { IsStruct := true, Index := 21, OutermostIndex := 2 }
  else { Index := Index, OutermostIndex := Index }

/-! ## Parameter collection -/

/-- Source `ParamCollection` (`MemberWrappers.h`): the type/name pairs, the return value
at position 0. -/
structure ParamCollection where
  TypeNamePairs : List (String × String)
  deriving DecidableEq, Repr

/-- Source `ParamCollection::begin()`: the iterator `TypeNamePairs.begin() + 1`, as its
distance from `TypeNamePairs.begin()`. -/
def ParamCollection.begin (_pc : ParamCollection) : Nat := 1

/-- Source `ParamCollection::end()`: the iterator `TypeNamePairs.begin() + 1`, as its
distance from `TypeNamePairs.begin()`. -/
def ParamCollection.end_ (_pc : ParamCollection) : Nat := 1

/-- The elements a loop `for (it = first; it != last; ++it)` visits in a vector, for
iterators `first ≤ last` given by their distance from the vector's start. -/
def VisitRange {α : Type} (xs : List α) (first last : Nat) : List α :=
  (xs.drop first).take (last - first)

/-- The pairs visited by iterating a `ParamCollection` from `begin()` to `end()`. -/
def ParamCollection.Visited (pc : ParamCollection) : List (String × String) :=
  VisitRange pc.TypeNamePairs pc.begin pc.end_

/-- A collection holding the return value and two parameters. -/
def ExampleParams : ParamCollection :=
  { TypeNamePairs := [("void", "+InvalidName-"), ("int32", "A"), ("float", "B")] }

/-! ## Bit widths of a bitfield group -/

/-- Declared bit widths of a member sequence: 1 for every bit-packed boolean, the pad
width for every bit pad, nothing for byte-sized members. -/
def BitWidth : List Member → Int
  | [] => 0
  | Member.Property p _ :: rest => (if IsBitField p then 1 else 0) + BitWidth rest
  | Member.BitPadding _ PadSize :: rest => PadSize + BitWidth rest
  | Member.BytePadding _ _ _ _ :: rest => BitWidth rest
  | Member.Predefined _ :: rest => BitWidth rest

/-- Members of one bitfield group in the spec's words, from bit cursor `cursor`: before
each field a bit pad of `bitIndex - cursor` bits when the field's bit index is ahead of
the cursor, then the field, the cursor moving to `bitIndex + 1`; after the last field the
completion pad of `9 - cursor` bits unless the cursor is 9. `BitPadNum` is the number the
next bit pad gets. -/
def ExpectedGroup : Int → Nat → List UEProperty → List Member
  | cursor, BitPadNum, [] =>
    if cursor ≠ 9 then [Member.BitPadding BitPadNum (9 - cursor)] else []
  | cursor, BitPadNum, f :: rest =>
    if cursor < GetBitIndex f then
      Member.BitPadding BitPadNum (GetBitIndex f - cursor) ::
        Member.Property f (PropertySize f) ::
        ExpectedGroup (GetBitIndex f + 1) ((BitPadNum + 1) % 2 ^ 32) rest
    else
      Member.Property f (PropertySize f) :: ExpectedGroup (GetBitIndex f + 1) BitPadNum rest

/-- A member that is a padding member (byte or bit pad). -/
def IsPadding : Member → Bool
  | Member.BytePadding _ _ _ _ => true
  | Member.BitPadding _ _ => true
  | _ => false

/-- The loop locals inside the bitfield group at byte offset `o` with bit cursor
`cursor`, for booleans of byte size 1. -/
def InGroup (o cursor : Int) (v : LoopVars) : Prop :=
  v.bLastPropertyWasBitField = true ∧ v.PrevPropertyEnd = o + 1 ∧
    v.PrevBoolPropertyEnd = o ∧ v.PrevBoolPropertyBit = cursor

/-! ## Field order before reconciliation -/

/-- Value of `Cast<UEBoolProperty>().GetFieldMask()` (`uint8`). -/
def GetFieldMask (p : UEProperty) : Nat :=
  p.FieldMask % 256

/-- The comparison `GenerateStruct` and `GenerateClass` pass to `std::sort` (the two
lambdas have the same text); `true` when `Left` is ordered before `Right`. -/
def SortCompare (Left Right : UEProperty) : Bool :=
  if Left.IsBoolProperty && Right.IsBoolProperty then
    if Left.Offset = Right.Offset then
      decide (GetFieldMask Left < GetFieldMask Right)
    else
      decide (Left.Offset < Right.Offset)
  else
    decide (Left.Offset < Right.Offset)

/-- Neither property is ordered before the other. -/
def Incomparable (a b : UEProperty) : Prop :=
  SortCompare a b = false ∧ SortCompare b a = false

/-- Two properties that share an offset are both boolean properties or both not. -/
def SameKindAtSameOffset (a b : UEProperty) : Prop :=
  a.Offset = b.Offset → a.IsBoolProperty = b.IsBoolProperty

/-- A bit-packed boolean property at `Offset` with the given field mask. -/
def MaskedBool (Name : String) (Offset : Int) (FieldMask : Nat) : UEProperty :=
  { ValidName := Name, CppType := "uint8", Offset := Offset, Size := 1,
    IsBoolProperty := true, IsNativeBool := false, FieldMask := FieldMask }

/-! ## Runs of padding creations -/

/-- One call of a padding generator, with its arguments. -/
inductive PaddingCall where
  /-- A call `GenerateBytePadding(Offset, PadSize, Reason)`. -/
  | Byte (Offset PadSize : Int) (Reason : PadReason)
  /-- A call `GenerateBitPadding(Offset, PadSize, Reason)`. -/
  | Bit (Offset PadSize : Int)
  deriving DecidableEq, Repr

/-- The call is a call of `GenerateBytePadding`. -/
def PaddingCall.IsByte : PaddingCall → Bool
  | PaddingCall.Byte _ _ _ => true
  | PaddingCall.Bit _ _ => false

/-- The call is a call of `GenerateBitPadding`. -/
def PaddingCall.IsBit : PaddingCall → Bool
  | PaddingCall.Byte _ _ _ => false
  | PaddingCall.Bit _ _ => true

/-- The padding members a run creates: the calls are made in order, each on the counter
values the previous one left. -/
def RunPaddingCalls : List PaddingCall → PadCounters → List Member
  | [], _ => []
  | PaddingCall.Byte Offset PadSize Reason :: rest, c =>
    (GenerateBytePadding Offset PadSize Reason c).1 ::
      RunPaddingCalls rest (GenerateBytePadding Offset PadSize Reason c).2
  | PaddingCall.Bit Offset PadSize :: rest, c =>
    (GenerateBitPadding Offset PadSize c).1 ::
      RunPaddingCalls rest (GenerateBitPadding Offset PadSize c).2

/-- The counter values at the start of a run: `static uint32 PadNum = 0` and
`static uint32 BitPadNum = 0`. -/
def InitialCounters : PadCounters := { PadNum := 0, BitPadNum := 0 }

/-- Number of `GenerateBytePadding` calls among `calls`. -/
def ByteCalls (calls : List PaddingCall) : Nat :=
  calls.countP PaddingCall.IsByte

/-- Number of `GenerateBitPadding` calls among `calls`. -/
def BitCalls (calls : List PaddingCall) : Nat :=
  calls.countP PaddingCall.IsBit

/-- The member a call is expected to create when `k` calls of the byte generator and `n`
calls of the bit generator precede it. -/
def ExpectedPadding (k n : Nat) : PaddingCall → Member
  | PaddingCall.Byte Offset PadSize Reason => Member.BytePadding k Offset PadSize Reason
  | PaddingCall.Bit _ PadSize => Member.BitPadding n PadSize

/-- A run of five calls: byte, bit, byte, bit, byte. -/
def ExampleCalls : List PaddingCall :=
  [PaddingCall.Byte 0 4 PadReason.MissedOffset, PaddingCall.Bit 4 3,
    PaddingCall.Byte 8 2 PadReason.MissedOffset, PaddingCall.Bit 12 7,
    PaddingCall.Byte 16 8 PadReason.FixSizeOfStruct]

/-! ## Dependency gathering -/

/-- Reflected property as `GetPropertyDependency` reads it: the property class the `IsA`
chain selects, with what the matching `Cast` exposes. `Other` is a property that passes
none of the six tests. -/
inductive PropertyKind where
  /-- `StructProperty`, with `GetUnderlayingStruct().GetIndex()`. -/
  | StructProperty (UnderlayingStructIndex : Int)
  /-- `EnumProperty`, with the index of `GetEnum()` (`none` for a null enum). -/
  | EnumProperty (Enum : Option Int)
  /-- `ByteProperty`, with the index of `GetEnum()` (`none` for a null enum). -/
  | ByteProperty (Enum : Option Int)
  /-- `ArrayProperty`, with `GetInnerProperty()`. -/
  | ArrayProperty (InnerProperty : PropertyKind)
  /-- `SetProperty`, with `GetElementProperty()`. -/
  | SetProperty (ElementProperty : PropertyKind)
  /-- `MapProperty`, with `GetKeyProperty()` and `GetValueProperty()`. -/
  | MapProperty (KeyProperty ValueProperty : PropertyKind)
  /-- Any other property class. -/
  | Other
  deriving DecidableEq, Repr

/-- The call `Store.insert(Index)` on a `std::unordered_set<int32>`, the set held as the
list of its elements in insertion order. -/
def StoreInsert (Store : List Int) (Index : Int) : List Int :=
  if Index ∈ Store then Store else Store ++ [Index]

/-- Source `PackageDependencyManager::GetPropertyDependency`. -/
def GetPropertyDependency : PropertyKind → List Int → List Int
  | PropertyKind.StructProperty UnderlayingStructIndex, Store =>
    StoreInsert Store UnderlayingStructIndex
  | PropertyKind.EnumProperty (some Enum), Store => StoreInsert Store Enum
  | PropertyKind.EnumProperty none, Store => Store
  | PropertyKind.ByteProperty (some Enum), Store => StoreInsert Store Enum
  | PropertyKind.ByteProperty none, Store => Store
  | PropertyKind.ArrayProperty InnerProperty, Store =>
    GetPropertyDependency InnerProperty Store
  | PropertyKind.SetProperty ElementProperty, Store =>
    GetPropertyDependency ElementProperty Store
  | PropertyKind.MapProperty KeyProperty ValueProperty, Store =>
    GetPropertyDependency ValueProperty (GetPropertyDependency KeyProperty Store)
  | PropertyKind.Other, Store => Store

/-- Source `PackageDependencyManager::GetFunctionDependency`, on the function's
`GetProperties()`. -/
def GetFunctionDependency (Properties : List PropertyKind) (Store : List Int) : List Int :=
  Properties.foldl (fun St Property => GetPropertyDependency Property St) Store

/-- A field of the child chain `GetChild()`, `GetNext()`, ... of a struct. -/
structure UEField where
  /-- Result of `IsA(EClassCastFlags::Function)`. -/
  IsFunction : Bool
  /-- Value of `UEFunction(Field.GetAddress()).GetProperties()`. -/
  Properties : List PropertyKind := []
  deriving DecidableEq, Repr

/-- What `GatherDependencies` reads of `Object.Cast<UEStruct>()`. -/
structure ReflectedStruct where
  /-- Index of `GetSuper()`, `none` for a null super. -/
  Super : Option Int := none
  /-- Value of `GetProperties()`. -/
  Properties : List PropertyKind := []
  /-- The child chain from `GetChild()` on. -/
  Children : List UEField := []
  deriving DecidableEq, Repr

/-- The set `ObjectsToCheck` of `GatherDependencies` when its last loop starts: the
super's index, the dependencies of the fields, then those of the parameters of every
child that is a function. -/
def ObjectsToCheck (Struct : ReflectedStruct) : List Int :=
  let Store0 : List Int :=
    match Struct.Super with
    | some Super => StoreInsert [] Super
    | none => []
  let Store1 := Struct.Properties.foldl (fun St Property => GetPropertyDependency Property St)
    Store0
  Struct.Children.foldl
    (fun St Field => if Field.IsFunction then GetFunctionDependency Field.Properties St else St)
    Store1

/-- Source `Package::GatherDependencies` for the package with index `PackageIndex`
(`PackageObject.GetIndex()`); `StructAt Index` is `ObjectArray::GetByIndex(Index)` cast to
`UEStruct`. -/
def GatherDependencies (ObjectArray : Int → UEObject) (StructAt : Int → ReflectedStruct)
    (PackageIndex : Int) : List Int → DependencyGraphs → DependencyGraphs
  | [], G => G
  | Index :: rest, G =>
    let Object := ObjectArray Index
    if !Object.IsValid then
      GatherDependencies ObjectArray StructAt PackageIndex rest G
    else if Object.IsStruct && !Object.IsFunction then
      GatherDependencies ObjectArray StructAt PackageIndex rest
        (RecordDependencies ObjectArray PackageIndex Object (ObjectsToCheck (StructAt Index)) G)
    else
      GatherDependencies ObjectArray StructAt PackageIndex rest G

/-- Index `x` is the struct or enum of the property's type, or of an array, set or map
element type nested in it. -/
def Mentions : PropertyKind → Int → Prop
  | PropertyKind.StructProperty UnderlayingStructIndex, x => UnderlayingStructIndex = x
  | PropertyKind.EnumProperty Enum, x => Enum = some x
  | PropertyKind.ByteProperty Enum, x => Enum = some x
  | PropertyKind.ArrayProperty InnerProperty, x => Mentions InnerProperty x
  | PropertyKind.SetProperty ElementProperty, x => Mentions ElementProperty x
  | PropertyKind.MapProperty KeyProperty ValueProperty, x =>
    Mentions KeyProperty x ∨ Mentions ValueProperty x
  | PropertyKind.Other, _ => False

/-- The loop of `GatherDependencies` enters its body for `Index`: the object exists and
is a struct that is not a function. -/
def IsGathered (ObjectArray : Int → UEObject) (Index : Int) : Prop :=
  (ObjectArray Index).IsValid = true ∧ (ObjectArray Index).IsStruct = true ∧
    (ObjectArray Index).IsFunction = false

/-- The dependency `Idx` of the owner `Object` is routed to `StructSorter`: it lies in the
package, the owner is not a class and the dependency is a struct that is not a class. -/
def RoutedToStructSorter (ObjectArray : Int → UEObject) (PackageIndex : Int)
    (Object : UEObject) (Idx : Int) : Prop :=
  PackageIndex = (ObjectArray Idx).OutermostIndex ∧ Object.IsClass = false ∧
    (ObjectArray Idx).IsStruct = true ∧ (ObjectArray Idx).IsClass = false

/-- The dependency `Idx` of the owner `Object` is routed to `ClassSorter`: it lies in the
package and both are classes. -/
def RoutedToClassSorter (ObjectArray : Int → UEObject) (PackageIndex : Int)
    (Object : UEObject) (Idx : Int) : Prop :=
  PackageIndex = (ObjectArray Idx).OutermostIndex ∧ Object.IsClass = true ∧
    (ObjectArray Idx).IsClass = true

/-- The struct 11 of `ExampleObjects` as a tree node: its only field is an array whose
elements are of struct 11 itself (`TArray<FNode> Children`). -/
def TreeNodeStruct : Int → ReflectedStruct := fun Index =>
  if Index = 11 then
    { Properties := [PropertyKind.ArrayProperty (PropertyKind.StructProperty 11)] }
  else {}

/-! # Theorems -/

/-! ## Layout reconciliation: auxiliary lemmas -/

theorem SpanFrom_append (a b : List Member) : ∀ grp,
    SpanFrom grp (a ++ b) = SpanFrom grp a + SpanFrom (OpenGroup grp a) b := by
  induction a with
  | nil => intro grp; simp [SpanFrom, OpenGroup]
  | cons m rest ih =>
    intro grp
    cases m with
    | Property p sz =>
      by_cases hb : IsBitField p = true
      · simp [SpanFrom, OpenGroup, hb, ih, add_assoc]
      · simp [SpanFrom, OpenGroup, hb, ih, add_assoc]
    | BytePadding n o sz r => simp [SpanFrom, OpenGroup, ih, add_assoc]
    | BitPadding n sz => simp [SpanFrom, OpenGroup, ih]
    | Predefined e => simp [SpanFrom, OpenGroup, ih, add_assoc]

theorem OpenGroup_append (a b : List Member) : ∀ grp,
    OpenGroup grp (a ++ b) = OpenGroup (OpenGroup grp a) b := by
  induction a with
  | nil => intro grp; simp [OpenGroup]
  | cons m rest ih =>
    intro grp
    cases m <;> simp [OpenGroup, ih]

@[simp] theorem AddPaddingIf_true (gen : PadCounters → Member × PadCounters) (c : PadCounters) :
    AddPaddingIf true gen c = ([(gen c).1], (gen c).2) := rfl

@[simp] theorem AddPaddingIf_false (gen : PadCounters → Member × PadCounters) (c : PadCounters) :
    AddPaddingIf false gen c = ([], c) := rfl

@[simp] theorem SpanFrom_bitPad (b : Bool) (o w : Int) (c : PadCounters) (grp : Option Int)
    (rest : List Member) :
    SpanFrom grp ((AddPaddingIf b (GenerateBitPadding o w) c).1 ++ rest) = SpanFrom grp rest := by
  cases b <;> simp [GenerateBitPadding, SpanFrom]

@[simp] theorem OpenGroup_bitPad (b : Bool) (o w : Int) (c : PadCounters) (grp : Option Int)
    (rest : List Member) :
    OpenGroup grp ((AddPaddingIf b (GenerateBitPadding o w) c).1 ++ rest) = OpenGroup grp rest := by
  cases b <;> simp [GenerateBitPadding, OpenGroup]

theorem SpanFrom_bytePad (b : Bool) (o w : Int) (r : PadReason) (c : PadCounters)
    (grp : Option Int) (rest : List Member) :
    SpanFrom grp ((AddPaddingIf b (GenerateBytePadding o w r) c).1 ++ rest)
      = if b then w + SpanFrom none rest else SpanFrom grp rest := by
  cases b <;> simp [GenerateBytePadding, SpanFrom]

theorem OpenGroup_bytePad (b : Bool) (o w : Int) (r : PadReason) (c : PadCounters)
    (grp : Option Int) (rest : List Member) :
    OpenGroup grp ((AddPaddingIf b (GenerateBytePadding o w r) c).1 ++ rest)
      = if b then OpenGroup none rest else OpenGroup grp rest := by
  cases b <;> simp [GenerateBytePadding, OpenGroup]

theorem step_span (v : LoopVars) (c : PadCounters) (f : UEProperty)
    (hv : VarsOk v) (hf : StepOk v f) :
    SpanFrom (GroupOf v) (GenerateMembersStep v c f).1
        = (GenerateMembersStep v c f).2.1.PrevPropertyEnd - v.PrevPropertyEnd ∧
      OpenGroup (GroupOf v) (GenerateMembersStep v c f).1
        = GroupOf (GenerateMembersStep v c f).2.1 ∧
      VarsOk (GenerateMembersStep v c f).2.1 ∧
      (GenerateMembersStep v c f).2.1.PrevPropertyEnd = f.Offset + PropertySize f ∧
      (GenerateMembersStep v c f).2.1.bLastPropertyWasBitField = IsBitField f ∧
      (IsBitField f = true → (GenerateMembersStep v c f).2.1.PrevBoolPropertyEnd = f.Offset) := by
  obtain ⟨hpos, hsz⟩ := hf
  unfold VarsOk at hv
  obtain ⟨bl, pe, be, bb⟩ := v
  simp only at hv hpos
  by_cases hb : IsBitField f = true
  · have h1 := hsz hb
    simp only [GenerateMembersStep, hb, if_true, List.append_assoc, SpanFrom_bitPad,
      OpenGroup_bitPad, SpanFrom_bytePad, OpenGroup_bytePad, GroupOf, VarsOk, h1]
    cases bl <;> by_cases h2 : pe < f.Offset <;> by_cases h2' : pe ≤ f.Offset <;>
      simp_all [SpanFrom, OpenGroup, SpanFrom_bytePad, OpenGroup_bytePad] <;> omega
  · simp only [GenerateMembersStep, hb, List.append_assoc, SpanFrom_bitPad,
      OpenGroup_bitPad, SpanFrom_bytePad, OpenGroup_bytePad, GroupOf, VarsOk]
    cases bl <;> by_cases h2 : pe < f.Offset <;> by_cases h2' : pe ≤ f.Offset <;>
      simp_all [SpanFrom, OpenGroup, SpanFrom_bytePad, OpenGroup_bytePad] <;> omega

theorem PlacedFrom_append (a b : List Member) : ∀ cur grp,
    PlacedFrom cur grp (a ++ b) ↔
      PlacedFrom cur grp a ∧ PlacedFrom (cur + SpanFrom grp a) (OpenGroup grp a) b := by
  induction a with
  | nil => intro cur grp; simp [PlacedFrom, SpanFrom, OpenGroup]
  | cons m rest ih =>
    intro cur grp
    cases m with
    | Property p sz =>
      by_cases hb : IsBitField p = true
      · by_cases hg : grp = some p.Offset
        · simp [PlacedFrom, SpanFrom, OpenGroup, hb, hg, ih, and_assoc]
        · simp [PlacedFrom, SpanFrom, OpenGroup, hb, hg, ih, and_assoc, add_assoc]
      · simp [PlacedFrom, SpanFrom, OpenGroup, hb, ih, and_assoc, add_assoc]
    | BytePadding n o sz r => simp [PlacedFrom, SpanFrom, OpenGroup, ih, add_assoc]
    | BitPadding n sz => simp [PlacedFrom, SpanFrom, OpenGroup, ih]
    | Predefined e => simp [PlacedFrom, SpanFrom, OpenGroup, ih, add_assoc]

@[simp] theorem PlacedFrom_bitPad (b : Bool) (o w : Int) (c : PadCounters) (cur : Int)
    (grp : Option Int) (rest : List Member) :
    PlacedFrom cur grp ((AddPaddingIf b (GenerateBitPadding o w) c).1 ++ rest)
      ↔ PlacedFrom cur grp rest := by
  cases b <;> simp [GenerateBitPadding, PlacedFrom]

theorem PlacedFrom_bytePad (b : Bool) (o w : Int) (r : PadReason) (c : PadCounters)
    (cur : Int) (grp : Option Int) (rest : List Member) :
    PlacedFrom cur grp ((AddPaddingIf b (GenerateBytePadding o w r) c).1 ++ rest)
      ↔ if b then PlacedFrom (cur + w) none rest else PlacedFrom cur grp rest := by
  cases b <;> simp [GenerateBytePadding, PlacedFrom]

theorem step_placed (v : LoopVars) (c : PadCounters) (f : UEProperty)
    (hv : VarsOk v) (hf : StepOk v f) :
    PlacedFrom v.PrevPropertyEnd (GroupOf v) (GenerateMembersStep v c f).1 := by
  obtain ⟨hpos, hsz⟩ := hf
  unfold VarsOk at hv
  obtain ⟨bl, pe, be, bb⟩ := v
  simp only at hv hpos
  by_cases hb : IsBitField f = true
  · have h1 := hsz hb
    simp only [GenerateMembersStep, hb, if_true, List.append_assoc, PlacedFrom_bitPad,
      PlacedFrom_bytePad, GroupOf, h1]
    cases bl <;> by_cases h2 : pe < f.Offset <;> by_cases h2' : pe ≤ f.Offset <;>
      simp_all [PlacedFrom, PlacedFrom_bytePad] <;> omega
  · simp only [GenerateMembersStep, hb, List.append_assoc, PlacedFrom_bitPad,
      PlacedFrom_bytePad, GroupOf]
    cases bl <;> by_cases h2 : pe < f.Offset <;> by_cases h2' : pe ≤ f.Offset <;>
      simp_all [PlacedFrom, PlacedFrom_bytePad] <;> omega

theorem loop_span : ∀ (fs : List UEProperty) (v : LoopVars) (c : PadCounters),
    VarsOk v → (∀ f ∈ fs.head?, StepOk v f) → fs.Chain' FollowsWithoutOverlap →
    (∀ f ∈ fs, IsBitField f = true → PropertySize f = 1) →
    SpanFrom (GroupOf v) (GenerateMembersLoop fs v c).1
        = (GenerateMembersLoop fs v c).2.1.PrevPropertyEnd - v.PrevPropertyEnd ∧
      OpenGroup (GroupOf v) (GenerateMembersLoop fs v c).1
        = GroupOf (GenerateMembersLoop fs v c).2.1 ∧
      PlacedFrom v.PrevPropertyEnd (GroupOf v) (GenerateMembersLoop fs v c).1 := by
  intro fs
  induction fs with
  | nil => intro v c _ _ _ _; simp [GenerateMembersLoop, SpanFrom, OpenGroup, PlacedFrom]
  | cons f rest ih =>
    intro v c hv hhead hchain hbits
    have hf : StepOk v f := hhead f (by simp)
    obtain ⟨hs1, hs2, hs3, hs4, hs5, hs6⟩ := step_span v c f hv hf
    have hp := step_placed v c f hv hf
    have hnext : ∀ g ∈ rest.head?, StepOk (GenerateMembersStep v c f).2.1 g := by
      intro g hg
      cases rest with
      | nil => simp at hg
      | cons g' rest' =>
        simp at hg
        subst hg
        have hrel : FollowsWithoutOverlap f g' := by
          simpa using (List.chain'_cons.mp hchain).1
        refine ⟨?_, hbits g' (by simp)⟩
        rcases hrel with h | ⟨ha, hb, hab⟩
        · left; rw [hs4]; exact h
        · right; refine ⟨by rw [hs5]; exact ha, hb, ?_⟩
          rw [hs6 ha]; exact hab.symm
    have hchain' : rest.Chain' FollowsWithoutOverlap := (List.chain'_cons'.mp hchain).2
    obtain ⟨ih1, ih2, ih3⟩ := ih (GenerateMembersStep v c f).2.1 (GenerateMembersStep v c f).2.2
      hs3 hnext hchain' (fun g hg => hbits g (by simp [hg]))
    simp only [GenerateMembersLoop]
    refine ⟨?_, ?_, ?_⟩
    · rw [SpanFrom_append, hs1, hs2, ih1]; ring
    · rw [OpenGroup_append, hs2, ih2]
    · rw [PlacedFrom_append]
      refine ⟨hp, ?_⟩
      rw [hs1, hs2]
      have : v.PrevPropertyEnd + ((GenerateMembersStep v c f).2.1.PrevPropertyEnd - v.PrevPropertyEnd)
          = (GenerateMembersStep v c f).2.1.PrevPropertyEnd := by ring
      rw [this]; exact ih3

theorem step_vars_indep (v : LoopVars) (c c' : PadCounters) (f : UEProperty) :
    (GenerateMembersStep v c f).2.1 = (GenerateMembersStep v c' f).2.1 := by
  unfold GenerateMembersStep
  by_cases hb : IsBitField f = true <;> simp [hb]

theorem loop_vars_indep : ∀ (fs : List UEProperty) (v : LoopVars) (c c' : PadCounters),
    (GenerateMembersLoop fs v c).2.1 = (GenerateMembersLoop fs v c').2.1 := by
  intro fs
  induction fs with
  | nil => intro v c c'; rfl
  | cons f rest ih =>
    intro v c c'
    simp only [GenerateMembersLoop]
    rw [step_vars_indep v c c' f]
    exact ih _ _ _

theorem FinalCursor_eq (fs : List UEProperty) (SuperSize : Int) (c : PadCounters) :
    (GenerateMembersLoop fs (InitialVars SuperSize) c).2.1.PrevPropertyEnd
      = FinalCursor fs SuperSize := by
  unfold FinalCursor
  rw [loop_vars_indep fs _ c {}]

theorem PlacedFrom_split : ∀ (pre : List Member) (cur : Int) (grp : Option Int)
    (p : UEProperty) (sz : Int) (post : List Member),
    PlacedFrom cur grp (pre ++ Member.Property p sz :: post) →
    cur + SpanFrom grp pre
      - (if IsBitField p = true ∧ OpenGroup grp pre = some p.Offset then 1 else 0) = p.Offset := by
  intro pre cur grp p sz post h
  rw [PlacedFrom_append] at h
  obtain ⟨_, h2⟩ := h
  by_cases hb : IsBitField p = true
  · by_cases hg : OpenGroup grp pre = some p.Offset
    · simp [PlacedFrom, hb, hg] at h2
      simp [hb, hg]; omega
    · simp [PlacedFrom, hb, hg] at h2
      simp [hg]; omega
  · simp [PlacedFrom, hb] at h2
    simp [hb]; omega

theorem GenerateMembers_nonempty (Table : String → Option (List PredefinedMember))
    (fs : List UEProperty) (SuperName : String) (StructSize SuperSize : Int)
    (c : PadCounters) (h : fs ≠ []) :
    GenerateMembers Table fs SuperName StructSize SuperSize c
      = GenerateMembersGeneric fs StructSize SuperSize c := by
  unfold GenerateMembers
  have : fs.length ≠ 0 := by
    cases fs with
    | nil => exact absurd rfl h
    | cons a l => simp
  simp [this]

theorem GenerateMembers_noOverride (Table : String → Option (List PredefinedMember))
    (fs : List UEProperty) (SuperName : String) (StructSize SuperSize : Int)
    (c : PadCounters) (h : fs = [] → Table SuperName = none) :
    GenerateMembers Table fs SuperName StructSize SuperSize c
      = GenerateMembersGeneric fs StructSize SuperSize c := by
  cases fs with
  | nil =>
    have ht := h rfl
    simp [GenerateMembers, GeneratePredefinedMembers, ht]
  | cons a l => exact GenerateMembers_nonempty _ _ _ _ _ _ (by simp)

theorem InitialVars_ok (SuperSize : Int) : VarsOk (InitialVars SuperSize) := by
  simp [VarsOk, InitialVars]

theorem head_ok (fs : List UEProperty) (SuperSize : Int)
    (hfirst : ∀ f ∈ fs.head?, SuperSize ≤ f.Offset)
    (hbits : ∀ f ∈ fs, IsBitField f = true → PropertySize f = 1) :
    ∀ f ∈ fs.head?, StepOk (InitialVars SuperSize) f := by
  intro f hf
  refine ⟨Or.inl (hfirst f hf), hbits f ?_⟩
  cases fs with
  | nil => simp at hf
  | cons a l => simp at hf; simp [hf]

theorem generic_span (fs : List UEProperty) (StructSize SuperSize : Int) (c : PadCounters)
    (hfirst : ∀ f ∈ fs.head?, SuperSize ≤ f.Offset)
    (hchain : fs.Chain' FollowsWithoutOverlap)
    (hbits : ∀ f ∈ fs, IsBitField f = true → PropertySize f = 1)
    (hend : FinalCursor fs SuperSize ≤ StructSize) :
    SuperSize + Span (GenerateMembersGeneric fs StructSize SuperSize c).1 = StructSize := by
  obtain ⟨h1, h2, _⟩ := loop_span fs (InitialVars SuperSize) c (InitialVars_ok _)
    (head_ok fs SuperSize hfirst hbits) hchain hbits
  have hg : GroupOf (InitialVars SuperSize) = none := by simp [GroupOf, InitialVars]
  rw [hg] at h1 h2
  have hc := FinalCursor_eq fs SuperSize c
  simp only [GenerateMembersGeneric, Span]
  rw [SpanFrom_append, h1, hc]
  by_cases hlt : FinalCursor fs SuperSize < StructSize
  · simp [hlt, GenerateBytePadding, SpanFrom, InitialVars]
  · have : FinalCursor fs SuperSize = StructSize := by omega
    simp [this, SpanFrom, InitialVars]

/-! ## C1 -/

/-- C1, counterexample: for the single field `int32 X` at offset 0 (size 4), inherited
size 0 and total size 2, the emitted sequence consumes 4 bytes, not `2 - 0`. -/
theorem C1_counterexample :
    Span (GenerateMembers NoOverrides [PlainField "X" "int32" 0 4] "S" 2 0 {}).1 ≠ 2 - 0 := by
  decide

/-- C1, amended: when the first field starts at or after the inherited size, every
field starts at or after the end of the preceding one unless both are bit-packed
booleans at the same offset, bit-packed booleans have byte size 1, the running cursor
after the last field is at or before the total size, and an empty field list has no
override entry, the members `GenerateMembers` appends consume exactly
`totalSize - inheritedSize` bytes. -/
theorem C1_span_eq_total_minus_inherited (Table : String → Option (List PredefinedMember))
    (fields : List UEProperty) (SuperName : String) (StructSize SuperSize : Int)
    (c : PadCounters)
    (hover : fields = [] → Table SuperName = none)
    (hfirst : ∀ f ∈ fields.head?, SuperSize ≤ f.Offset)
    (hchain : fields.Chain' FollowsWithoutOverlap)
    (hbits : ∀ f ∈ fields, IsBitField f = true → PropertySize f = 1)
    (hend : FinalCursor fields SuperSize ≤ StructSize) :
    Span (GenerateMembers Table fields SuperName StructSize SuperSize c).1
      = StructSize - SuperSize := by
  rw [GenerateMembers_noOverride Table fields SuperName StructSize SuperSize c hover]
  have := generic_span fields StructSize SuperSize c hfirst hchain hbits hend
  omega

/-- C1, witness: the amended statement at the scenario struct `S` (size 0x10). -/
theorem C1_witness :
    Span (GenerateMembers NoOverrides ScenarioFields "S" 0x10 0 {}).1 = 0x10 - 0 :=
  C1_span_eq_total_minus_inherited NoOverrides ScenarioFields "S" 0x10 0 {}
    (by decide) (by decide)
    (by simp only [ScenarioFields, List.chain'_cons, List.chain'_singleton]; decide)
    (by decide) (by decide)

theorem PredefinedLoop_no_property : ∀ (ts : List PredefinedMember) (e : Int) (c : PadCounters)
    (p : UEProperty) (sz : Int), Member.Property p sz ∉ (PredefinedLoop ts e c).1 := by
  intro ts
  induction ts with
  | nil => intro e c p sz; simp [PredefinedLoop]
  | cons t rest ih =>
    intro e c p sz
    simp only [PredefinedLoop, AddPaddingIf, GenerateBytePadding]
    split_ifs <;> simp [ih]

theorem GenerateMembers_nil_no_property (Table : String → Option (List PredefinedMember))
    (SuperName : String) (StructSize SuperSize : Int) (c : PadCounters)
    (p : UEProperty) (sz : Int) :
    Member.Property p sz ∉ (GenerateMembers Table [] SuperName StructSize SuperSize c).1 := by
  have hgen : ∀ c', Member.Property p sz ∉ (GenerateMembersGeneric [] StructSize SuperSize c').1 := by
    intro c'
    simp only [GenerateMembersGeneric, GenerateMembersLoop, AddPaddingIf, GenerateBytePadding]
    split_ifs <;> simp
  have hpre : Member.Property p sz ∉
      (GeneratePredefinedMembers Table SuperName StructSize SuperSize c).1 := by
    unfold GeneratePredefinedMembers
    cases Table SuperName with
    | none => simp
    | some ts =>
      simp only [AddPaddingIf, GenerateBytePadding]
      split_ifs <;> simp [PredefinedLoop_no_property]
  unfold GenerateMembers
  simp only [List.length_nil, if_true]
  split_ifs
  · exact hpre
  · simp only [List.mem_append, not_or]
    exact ⟨hpre, hgen _⟩

theorem generic_placed (fs : List UEProperty) (StructSize SuperSize : Int) (c : PadCounters)
    (hfirst : ∀ f ∈ fs.head?, SuperSize ≤ f.Offset)
    (hchain : fs.Chain' FollowsWithoutOverlap)
    (hbits : ∀ f ∈ fs, IsBitField f = true → PropertySize f = 1) :
    PlacedFrom SuperSize none (GenerateMembersGeneric fs StructSize SuperSize c).1 := by
  obtain ⟨_, _, h3⟩ := loop_span fs (InitialVars SuperSize) c (InitialVars_ok _)
    (head_ok fs SuperSize hfirst hbits) hchain hbits
  have hg : GroupOf (InitialVars SuperSize) = none := by simp [GroupOf, InitialVars]
  rw [hg] at h3
  simp only [GenerateMembersGeneric]
  rw [PlacedFrom_append]
  refine ⟨by simpa [InitialVars] using h3, ?_⟩
  simp only [AddPaddingIf, GenerateBytePadding]
  split_ifs <;> simp [PlacedFrom]

/-! ## C2 -/

/-- C2: when the first field starts at or after the inherited size, every field starts
at or after the end of the preceding field unless both are bit-packed booleans at the
same offset, and bit-packed booleans have byte size 1, then for every field
`GenerateMembers` emits, the inherited size plus the bytes consumed by the members
emitted before it (a bitfield group counted once, for the group as a whole; bit pads
zero) equals the field's reflected offset. Sortedness by offset is not needed. -/
theorem C2_emitted_field_at_reflected_offset
    (Table : String → Option (List PredefinedMember))
    (fields : List UEProperty) (SuperName : String) (StructSize SuperSize : Int)
    (c : PadCounters)
    (hfirst : ∀ f ∈ fields.head?, SuperSize ≤ f.Offset)
    (hchain : fields.Chain' FollowsWithoutOverlap)
    (hbits : ∀ f ∈ fields, IsBitField f = true → PropertySize f = 1) :
    ∀ (pre : List Member) (p : UEProperty) (sz : Int) (post : List Member),
      (GenerateMembers Table fields SuperName StructSize SuperSize c).1
          = pre ++ Member.Property p sz :: post →
      SuperSize + SpanBefore pre p = p.Offset := by
  intro pre p sz post hsplit
  cases hf : fields with
  | nil =>
    subst hf
    have := GenerateMembers_nil_no_property Table SuperName StructSize SuperSize c p sz
    rw [hsplit] at this
    simp at this
  | cons a l =>
    have hne : fields ≠ [] := by rw [hf]; simp
    rw [GenerateMembers_nonempty Table fields SuperName StructSize SuperSize c hne] at hsplit
    have hp := generic_placed fields StructSize SuperSize c hfirst hchain hbits
    rw [hsplit] at hp
    have := PlacedFrom_split pre SuperSize none p sz post hp
    unfold SpanBefore Span
    omega

/-- C2, witness: in the run of four bit-packed booleans at offset 0 the field `b3`
is emitted after `b0`, `b1` and a bit pad, and its start offset is its reflected
offset 0. -/
theorem C2_witness :
    (0 : Int) + SpanBefore
        [Member.Property (BitField "b0" 0 1 0) 1, Member.Property (BitField "b1" 0 1 1) 1,
          Member.BitPadding 0 1] (BitField "b3" 0 1 3)
      = (BitField "b3" 0 1 3).Offset :=
  C2_emitted_field_at_reflected_offset NoOverrides RunFields "S" 1 0 {}
    (by decide)
    (by simp only [RunFields, List.chain'_cons, List.chain'_singleton]; decide)
    (by decide)
    [Member.Property (BitField "b0" 0 1 0) 1, Member.Property (BitField "b1" 0 1 1) 1,
      Member.BitPadding 0 1]
    (BitField "b3" 0 1 3) 1
    [Member.BitPadding 1 3, Member.Property (BitField "b7" 0 1 7) 1]
    (by decide)

theorem step_end (v : LoopVars) (c : PadCounters) (f : UEProperty) :
    (GenerateMembersStep v c f).2.1.PrevPropertyEnd = f.Offset + PropertySize f := by
  unfold GenerateMembersStep
  by_cases hb : IsBitField f = true <;> simp [hb]

theorem loop_end : ∀ (fs : List UEProperty) (v : LoopVars) (c : PadCounters) (f : UEProperty),
    fs.getLast? = some f →
    (GenerateMembersLoop fs v c).2.1.PrevPropertyEnd = f.Offset + PropertySize f := by
  intro fs
  induction fs with
  | nil => intro v c f h; simp at h
  | cons a rest ih =>
    intro v c f h
    simp only [GenerateMembersLoop]
    cases rest with
    | nil =>
      simp at h
      subst h
      simp [GenerateMembersLoop, step_end]
    | cons b rest' =>
      rw [List.getLast?_cons_cons] at h
      exact ih _ _ f h

theorem generic_shape (fs : List UEProperty) (StructSize SuperSize : Int) (c : PadCounters) :
    (GenerateMembersGeneric fs StructSize SuperSize c).1
      = (GenerateMembersLoop fs (InitialVars SuperSize) c).1 ++
        (if FinalCursor fs SuperSize < StructSize then
          [Member.BytePadding (GenerateMembersLoop fs (InitialVars SuperSize) c).2.2.PadNum
            (FinalCursor fs SuperSize) (StructSize - FinalCursor fs SuperSize)
            PadReason.FixSizeOfStruct]
        else []) := by
  simp only [GenerateMembersGeneric, AddPaddingIf, GenerateBytePadding, FinalCursor_eq]
  by_cases h : FinalCursor fs SuperSize < StructSize <;> simp [h]

/-! ## C3 -/

/-- C3, counterexample: the single bit-packed boolean at offset 0 whose reflected byte
size is 4, with inherited size 0 and total size 4, is sorted, non-overlapping, starts at
the inherited size and ends at the total size; `GenerateMembers` emits the field alone,
whose span as a one-byte bitfield group is 1, so inherited size plus spans is not 4. -/
theorem C3_counterexample :
    List.Pairwise (fun a b : UEProperty => a.Offset ≤ b.Offset) [BitField "bFlag" 0 4 0] ∧
    List.Pairwise (fun a b : UEProperty => a.Offset + PropertySize a ≤ b.Offset)
      [BitField "bFlag" 0 4 0] ∧
    (0 : Int) ≤ (BitField "bFlag" 0 4 0).Offset ∧
    (BitField "bFlag" 0 4 0).Offset + PropertySize (BitField "bFlag" 0 4 0) ≤ 4 ∧
    (GenerateMembers NoOverrides [BitField "bFlag" 0 4 0] "S" 4 0 {}).1
      = [Member.Property (BitField "bFlag" 0 4 0) 4] ∧
    (0 : Int) + Span (GenerateMembers NoOverrides [BitField "bFlag" 0 4 0] "S" 4 0 {}).1 ≠ 4 := by
  refine ⟨by simp, by simp, by decide, by decide, by decide, by decide⟩

/-- C3, amended: for a non-empty field list whose first field starts at or after the
inherited size, in which every field starts at or after the end of the preceding one
unless both are bit-packed booleans at the same offset, in which bit-packed booleans
have byte size 1, and whose last field ends at or before the total size,
`GenerateMembers` appends after the members of the field loop exactly one trailing byte
pad of size `totalSize - cursor` when `cursor < totalSize` and nothing otherwise, and the
inherited size plus the spans of all emitted members equals the total size. -/
theorem C3_trailing_pad_closes_layout (Table : String → Option (List PredefinedMember))
    (fields : List UEProperty) (SuperName : String) (StructSize SuperSize : Int)
    (c : PadCounters)
    (hne : fields ≠ [])
    (hfirst : ∀ f ∈ fields.head?, SuperSize ≤ f.Offset)
    (hchain : fields.Chain' FollowsWithoutOverlap)
    (hbits : ∀ f ∈ fields, IsBitField f = true → PropertySize f = 1)
    (hlast : ∀ f ∈ fields.getLast?, f.Offset + PropertySize f ≤ StructSize) :
    (GenerateMembers Table fields SuperName StructSize SuperSize c).1
        = (GenerateMembersLoop fields (InitialVars SuperSize) c).1 ++
          (if FinalCursor fields SuperSize < StructSize then
            [Member.BytePadding
              (GenerateMembersLoop fields (InitialVars SuperSize) c).2.2.PadNum
              (FinalCursor fields SuperSize) (StructSize - FinalCursor fields SuperSize)
              PadReason.FixSizeOfStruct]
          else []) ∧
      SuperSize + Span (GenerateMembers Table fields SuperName StructSize SuperSize c).1
        = StructSize := by
  rw [GenerateMembers_nonempty Table fields SuperName StructSize SuperSize c hne]
  refine ⟨generic_shape fields StructSize SuperSize c, ?_⟩
  apply generic_span fields StructSize SuperSize c hfirst hchain hbits
  obtain ⟨f, hf⟩ : ∃ f, fields.getLast? = some f := by
    cases h : fields.getLast? with
    | none => exact absurd (List.getLast?_eq_none_iff.mp h) hne
    | some f => exact ⟨f, rfl⟩
  rw [← FinalCursor_eq fields SuperSize c, loop_end fields _ c f hf]
  exact hlast f (by simp [hf])

/-- C3, witness: the scenario struct `S` with total size 0x10. -/
theorem C3_witness :
    (GenerateMembers NoOverrides ScenarioFields "S" 0x10 0 {}).1
        = (GenerateMembersLoop ScenarioFields (InitialVars 0) {}).1 ++
          (if FinalCursor ScenarioFields 0 < 0x10 then
            [Member.BytePadding
              (GenerateMembersLoop ScenarioFields (InitialVars 0) {}).2.2.PadNum
              (FinalCursor ScenarioFields 0) (0x10 - FinalCursor ScenarioFields 0)
              PadReason.FixSizeOfStruct]
          else []) ∧
      (0 : Int) + Span (GenerateMembers NoOverrides ScenarioFields "S" 0x10 0 {}).1 = 0x10 :=
  C3_trailing_pad_closes_layout NoOverrides ScenarioFields "S" 0x10 0 {}
    (by decide) (by decide)
    (by simp only [ScenarioFields, List.chain'_cons, List.chain'_singleton]; decide)
    (by decide) (by decide)

theorem loop_append : ∀ (xs ys : List UEProperty) (v : LoopVars) (c : PadCounters),
    GenerateMembersLoop (xs ++ ys) v c
      = ((GenerateMembersLoop xs v c).1 ++
          (GenerateMembersLoop ys (GenerateMembersLoop xs v c).2.1
            (GenerateMembersLoop xs v c).2.2).1,
        (GenerateMembersLoop ys (GenerateMembersLoop xs v c).2.1
            (GenerateMembersLoop xs v c).2.2).2) := by
  intro xs
  induction xs with
  | nil => intro ys v c; simp [GenerateMembersLoop]
  | cons x rest ih =>
    intro ys v c
    simp only [List.cons_append, GenerateMembersLoop, List.append_eq, ih, List.append_assoc]

theorem step_emits_field (v : LoopVars) (c : PadCounters) (f : UEProperty) :
    ∃ front, (GenerateMembersStep v c f).1 = front ++ [Member.Property f (PropertySize f)] := by
  unfold GenerateMembersStep
  by_cases hb : IsBitField f = true
  · simp only [hb, if_true]
    exact ⟨_, rfl⟩
  · simp only [hb]
    exact ⟨_, rfl⟩

theorem step_after_bit (v : LoopVars) (c : PadCounters) (a : UEProperty)
    (ha : IsBitField a = true) :
    (GenerateMembersStep v c a).2.1 =
      { bLastPropertyWasBitField := true
        PrevPropertyEnd := a.Offset + PropertySize a
        PrevBoolPropertyEnd := a.Offset
        PrevBoolPropertyBit := GetBitIndex a + 1 } := by
  unfold GenerateMembersStep
  simp [ha]

theorem step_in_group (a b : UEProperty) (c : PadCounters)
    (hb : IsBitField b = true) (hoff : a.Offset = b.Offset) (hsize : 0 < PropertySize a) :
    (GenerateMembersStep
        { bLastPropertyWasBitField := true
          PrevPropertyEnd := a.Offset + PropertySize a
          PrevBoolPropertyEnd := a.Offset
          PrevBoolPropertyBit := GetBitIndex a + 1 } c b).1
      = (if GetBitIndex a + 1 < GetBitIndex b then
          [Member.BitPadding c.BitPadNum (GetBitIndex b - GetBitIndex a - 1)] else []) ++
        [Member.Property b (PropertySize b)] := by
  have h1 : ¬ (a.Offset + PropertySize a ≤ b.Offset) := by omega
  have h2 : ¬ (a.Offset < b.Offset) := by omega
  simp only [GenerateMembersStep, hb, if_true, ge_iff_le, gt_iff_lt, h1, h2, decide_False,
    Bool.false_and, AddPaddingIf_false, if_false, List.nil_append]
  by_cases h3 : GetBitIndex a + 1 < GetBitIndex b
  · simp [h3, GenerateBitPadding]; omega
  · simp [h3]

/-! ## C4 -/

/-- C4, counterexample: two bit-packed booleans at byte offset 0 with bit indices 0 and 1
and reflected byte size 0. Between the two fields `GenerateMembers` emits a bit pad of
width 8 although the bit indices are adjacent. -/
theorem C4_counterexample :
    (GenerateMembers NoOverrides [BitField "b0" 0 0 0, BitField "b1" 0 0 1] "S" 1 0 {}).1
      = [Member.Property (BitField "b0" 0 0 0) 0, Member.BitPadding 0 8,
          Member.Property (BitField "b1" 0 0 1) 0,
          Member.BytePadding 0 0 1 PadReason.FixSizeOfStruct] := by
  decide

/-- C4, amended: for two consecutive bit-packed booleans `a`, `b` of a field list that
share one byte offset, where `a` has positive byte size, `GenerateMembers` emits both
fields and between them exactly one bit pad of width `b - a - 1` (bit indices) when
`b > a + 1` and nothing when `b ≤ a + 1`; and for the run with bit indices [0,1,3,7]
at offset 0 (byte size 1, total size 1) the output is the four fields with one bit pad
of width 1 before the index-3 field and one of width 3 before the index-7 field. -/
theorem C4_bit_pad_between_neighbours (Table : String → Option (List PredefinedMember))
    (pre post : List UEProperty) (a b : UEProperty) (SuperName : String)
    (StructSize SuperSize : Int) (c : PadCounters)
    (ha : IsBitField a = true) (hb : IsBitField b = true) (hoff : a.Offset = b.Offset)
    (hsize : 0 < PropertySize a) :
    (∃ front back,
      (GenerateMembersLoop (pre ++ [a]) (InitialVars SuperSize) c).1
        = front ++ [Member.Property a (PropertySize a)] ∧
      (GenerateMembers Table (pre ++ a :: b :: post) SuperName StructSize SuperSize c).1
        = front ++ Member.Property a (PropertySize a) ::
            ((if GetBitIndex a + 1 < GetBitIndex b then
                [Member.BitPadding
                  (GenerateMembersLoop (pre ++ [a]) (InitialVars SuperSize) c).2.2.BitPadNum
                  (GetBitIndex b - GetBitIndex a - 1)]
              else []) ++
              Member.Property b (PropertySize b) :: back)) ∧
    (GenerateMembers NoOverrides RunFields "S" 1 0 {}).1
      = [Member.Property (BitField "b0" 0 1 0) 1, Member.Property (BitField "b1" 0 1 1) 1,
          Member.BitPadding 0 1, Member.Property (BitField "b3" 0 1 3) 1,
          Member.BitPadding 1 3, Member.Property (BitField "b7" 0 1 7) 1] := by
  refine ⟨?_, by decide⟩
  have hne : pre ++ a :: b :: post ≠ [] := by simp
  rw [GenerateMembers_nonempty Table _ SuperName StructSize SuperSize c hne, generic_shape]
  have hsplit : pre ++ a :: b :: post = (pre ++ [a]) ++ (b :: post) := by simp
  -- the state after `a`
  have hstate : (GenerateMembersLoop (pre ++ [a]) (InitialVars SuperSize) c).2.1 =
      { bLastPropertyWasBitField := true
        PrevPropertyEnd := a.Offset + PropertySize a
        PrevBoolPropertyEnd := a.Offset
        PrevBoolPropertyBit := GetBitIndex a + 1 } := by
    rw [loop_append]
    simp only [GenerateMembersLoop]
    exact step_after_bit _ _ a ha
  obtain ⟨front, hfront⟩ : ∃ front,
      (GenerateMembersLoop (pre ++ [a]) (InitialVars SuperSize) c).1
        = front ++ [Member.Property a (PropertySize a)] := by
    rw [loop_append]
    simp only [GenerateMembersLoop, List.append_nil]
    obtain ⟨fr, hfr⟩ := step_emits_field
      (GenerateMembersLoop pre (InitialVars SuperSize) c).2.1
      (GenerateMembersLoop pre (InitialVars SuperSize) c).2.2 a
    exact ⟨(GenerateMembersLoop pre (InitialVars SuperSize) c).1 ++ fr, by
      rw [hfr, List.append_assoc]⟩
  refine ⟨front, ?_⟩
  rw [hsplit, loop_append (pre ++ [a]) (b :: post)]
  simp only [GenerateMembersLoop]
  rw [hstate, step_in_group a b _ hb hoff hsize, hfront]
  simp only [List.append_assoc, List.singleton_append, List.cons_append, List.nil_append]
  exact ⟨_, trivial, rfl⟩

/-- C4, witness: in the run with bit indices [0,1,3,7] the neighbours `b1`, `b3` are
separated by exactly one bit pad of width 1. -/
theorem C4_witness :
    ∃ front back,
      (GenerateMembers NoOverrides RunFields "S" 1 0 {}).1
        = front ++ Member.Property (BitField "b1" 0 1 1) 1 ::
            ([Member.BitPadding 0 1] ++ Member.Property (BitField "b3" 0 1 3) 1 :: back) := by
  obtain ⟨⟨front, back, _, h⟩, _⟩ :=
    C4_bit_pad_between_neighbours NoOverrides [BitField "b0" 0 1 0] [BitField "b7" 0 1 7]
      (BitField "b1" 0 1 1) (BitField "b3" 0 1 3) "S" 1 0 {}
      (by decide) (by decide) (by decide) (by decide)
  exact ⟨front, back, h⟩

/-! ## C5 -/

/-- C5, the code at the scenario struct `S` (no super, size 0x10, `int32 X` at offset 0,
bit-packed `bFlag` with bit index 0 at offset 4): `GenerateMembers` yields `X`, `bFlag`
and the trailing byte pad of 11 bytes from offset 5; no bit-padding member closes the
bitfield group of `bFlag`. -/
theorem C5_last_bitfield_group_left_open :
    (GenerateMembers NoOverrides ScenarioFields "S" 0x10 0 {}).1
      = [Member.Property (PlainField "X" "int32" 0 4) 4,
          Member.Property (BitField "bFlag" 4 1 0) 1,
          Member.BytePadding 0 5 11 PadReason.FixSizeOfStruct] ∧
    ∀ n w, Member.BitPadding n w ∉
      (GenerateMembers NoOverrides ScenarioFields "S" 0x10 0 {}).1 := by
  have h : (GenerateMembers NoOverrides ScenarioFields "S" 0x10 0 {}).1
      = [Member.Property (PlainField "X" "int32" 0 4) 4,
          Member.Property (BitField "bFlag" 4 1 0) 1,
          Member.BytePadding 0 5 11 PadReason.FixSizeOfStruct] := by decide
  refine ⟨h, ?_⟩
  intro n w
  rw [h]
  simp

/-! ## C9 -/

/-- C9, counterexample: for the single field `int32 X` at offset 0 (size 4) and total
size 2 the running cursor 4 exceeds the total size, and `GenerateMembers` returns an
ordinary member list, the very value it returns for the consistent total size 4. -/
theorem C9_counterexample :
    (2 : Int) < FinalCursor [PlainField "X" "int32" 0 4] 0 ∧
    GenerateMembers NoOverrides [PlainField "X" "int32" 0 4] "S" 2 0 {}
      = ([Member.Property (PlainField "X" "int32" 0 4) 4], {}) ∧
    GenerateMembers NoOverrides [PlainField "X" "int32" 0 4] "S" 2 0 {}
      = GenerateMembers NoOverrides [PlainField "X" "int32" 0 4] "S" 4 0 {} := by
  decide

/-- C9, amended: when the total size is smaller than the running cursor after the field
loop (and an empty field list has no override entry), `GenerateMembers` reports nothing:
it returns exactly the members and counters of the field loop, without a trailing pad. -/
theorem C9_inconsistent_size_returns_loop_members
    (Table : String → Option (List PredefinedMember))
    (fields : List UEProperty) (SuperName : String) (StructSize SuperSize : Int)
    (c : PadCounters)
    (hover : fields = [] → Table SuperName = none)
    (hsmall : StructSize < FinalCursor fields SuperSize) :
    GenerateMembers Table fields SuperName StructSize SuperSize c
      = ((GenerateMembersLoop fields (InitialVars SuperSize) c).1,
          (GenerateMembersLoop fields (InitialVars SuperSize) c).2.2) := by
  rw [GenerateMembers_noOverride Table fields SuperName StructSize SuperSize c hover]
  have hc := FinalCursor_eq fields SuperSize c
  have hnot : ¬ (FinalCursor fields SuperSize < StructSize) := by omega
  simp only [GenerateMembersGeneric, hc, gt_iff_lt, hnot, decide_False, AddPaddingIf_false,
    List.append_nil]

/-- C9, witness: the amended statement at the single field `int32 X` with total size 2. -/
theorem C9_witness :
    GenerateMembers NoOverrides [PlainField "X" "int32" 0 4] "S" 2 0 {}
      = ((GenerateMembersLoop [PlainField "X" "int32" 0 4] (InitialVars 0) {}).1,
          (GenerateMembersLoop [PlainField "X" "int32" 0 4] (InitialVars 0) {}).2.2) :=
  C9_inconsistent_size_returns_loop_members NoOverrides [PlainField "X" "int32" 0 4] "S" 2 0 {}
    (by decide) (by decide)

theorem PredefinedLoop_members : ∀ (ts : List PredefinedMember) (e : Int) (c : PadCounters),
    (PredefinedLoop ts e c).1 = OverrideMembers e c.PadNum ts := by
  intro ts
  induction ts with
  | nil => intro e c; simp [PredefinedLoop, OverrideMembers]
  | cons t rest ih =>
    intro e c
    simp only [PredefinedLoop, OverrideMembers, AddPaddingIf, GenerateBytePadding]
    by_cases h : t.Offset > e
    · simp [h, ih]
    · simp [h, ih]

theorem PredefinedLoop_end : ∀ (ts : List PredefinedMember) (e : Int) (c : PadCounters),
    (PredefinedLoop ts e c).2.1 = OverrideEnd e ts := by
  intro ts
  induction ts with
  | nil => intro e c; simp [PredefinedLoop, OverrideEnd]
  | cons t rest ih =>
    intro e c
    simp only [PredefinedLoop, ih]
    cases rest with
    | nil => simp [OverrideEnd]
    | cons u rest' =>
      simp only [OverrideEnd, List.getLast?_cons_cons]
      cases h : (u :: rest').getLast? with
      | none => simp at h
      | some w => rfl

theorem PredefinedLoop_span : ∀ (ts : List PredefinedMember) (e : Int) (c : PadCounters)
    (grp : Option Int) (tail : List Member),
    (∀ t ∈ ts.head?, e ≤ t.Offset) →
    ts.Chain' (fun a b => a.Offset + a.Size ≤ b.Offset) →
    (∀ g, SpanFrom g tail = SpanFrom none tail) →
    SpanFrom grp ((PredefinedLoop ts e c).1 ++ tail)
      = (PredefinedLoop ts e c).2.1 - e + SpanFrom none tail := by
  intro ts
  induction ts with
  | nil => intro e c grp tail _ _ ht; simp [PredefinedLoop, ht grp]
  | cons t rest ih =>
    intro e c grp tail hhead hchain ht
    have he : e ≤ t.Offset := hhead t (by simp)
    have hnext : ∀ u ∈ rest.head?, t.Offset + t.Size ≤ u.Offset := by
      intro u hu
      cases rest with
      | nil => simp at hu
      | cons u' rest' =>
        simp at hu; subst hu
        exact (List.chain'_cons.mp hchain).1
    have hchain' := (List.chain'_cons'.mp hchain).2
    simp only [PredefinedLoop, List.append_assoc, List.cons_append, SpanFrom_bytePad]
    by_cases h : t.Offset > e
    · simp only [h, decide_True, if_true, SpanFrom]
      rw [ih (t.Offset + t.Size) _ none tail hnext hchain' ht]
      ring
    · have : t.Offset = e := by omega
      simp only [h, decide_False, SpanFrom]
      rw [ih (t.Offset + t.Size) _ none tail hnext hchain' ht]
      simp only [Bool.false_eq_true, if_false]
      rw [this]; ring

/-! ## C8 -/

/-- C8, counterexample: the override entry with the overlapping tuples `A` at 0
(size 8) and `B` at 4 (size 4), no reflected fields, inherited size 0 and declared total
size 16 (larger than the end 8 of the last tuple): the emitted spans are 8 + 4 + 8, so
the running size is 20, not 16. -/
theorem C8_counterexample :
    TableOf OverlappingTuples "S" = some OverlappingTuples ∧
    OverrideEnd 0 OverlappingTuples < 16 ∧
    (GenerateMembers (TableOf OverlappingTuples) [] "S" 16 0 {}).1
      = [Member.Predefined { TypeName := "int64", Name := "A", Offset := 0, Size := 8 },
          Member.Predefined { TypeName := "int32", Name := "B", Offset := 4, Size := 4 },
          Member.BytePadding 0 8 8 PadReason.FixSizeOfStruct] ∧
    (0 : Int) + Span (GenerateMembers (TableOf OverlappingTuples) [] "S" 16 0 {}).1 ≠ 16 := by
  decide

/-- C8, amended: for a type with no reflected fields whose name has an override entry
whose tuples are in ascending, non-overlapping order (the first at or after the
inherited size, each later one at or after the end of the one before), whose last tuple
does not end at 0, and a declared total size larger than the end of the last tuple,
`GenerateMembers` produces exactly: for each tuple in table order a byte pad of
`tuple.offset - cursor` bytes when `tuple.offset > cursor`, then the tuple; then one
trailing byte pad of `totalSize - cursor` bytes; and the inherited size plus all emitted
spans equals the declared total size. -/
theorem C8_override_walk (Table : String → Option (List PredefinedMember))
    (tuples : List PredefinedMember) (SuperName : String) (StructSize SuperSize : Int)
    (c : PadCounters)
    (hentry : Table SuperName = some tuples)
    (hfirst : ∀ t ∈ tuples.head?, SuperSize ≤ t.Offset)
    (hchain : tuples.Chain' (fun a b => a.Offset + a.Size ≤ b.Offset))
    (hnonzero : OverrideEnd SuperSize tuples ≠ 0)
    (htotal : OverrideEnd SuperSize tuples < StructSize) :
    (∃ n, (GenerateMembers Table [] SuperName StructSize SuperSize c).1
        = OverrideMembers SuperSize c.PadNum tuples ++
          [Member.BytePadding n (OverrideEnd SuperSize tuples)
            (StructSize - OverrideEnd SuperSize tuples) PadReason.FixSizeOfStruct]) ∧
      SuperSize + Span (GenerateMembers Table [] SuperName StructSize SuperSize c).1
        = StructSize := by
  have hend := PredefinedLoop_end tuples SuperSize c
  have hout : (GenerateMembers Table [] SuperName StructSize SuperSize c).1
      = (PredefinedLoop tuples SuperSize c).1 ++
        [Member.BytePadding (PredefinedLoop tuples SuperSize c).2.2.PadNum
          (OverrideEnd SuperSize tuples)
          (StructSize - OverrideEnd SuperSize tuples) PadReason.FixSizeOfStruct] := by
    simp [GenerateMembers, GeneratePredefinedMembers, hentry, hend, hnonzero, htotal,
      GenerateBytePadding]
  refine ⟨⟨_, by rw [hout, PredefinedLoop_members]⟩, ?_⟩
  rw [hout]
  unfold Span
  rw [PredefinedLoop_span tuples SuperSize c none _ hfirst hchain (by intro g; simp [SpanFrom]),
    hend]
  simp [SpanFrom]

/-- C8, witness: an override entry of two tuples (`A` at 8, size 4; `B` at 16, size 8),
inherited size 0 and declared total size 0x20. -/
theorem C8_witness :
    (∃ n, (GenerateMembers (TableOf TwoTuples) [] "S" 0x20 0 {}).1
        = OverrideMembers 0 0 TwoTuples ++
          [Member.BytePadding n (OverrideEnd 0 TwoTuples)
            (0x20 - OverrideEnd 0 TwoTuples) PadReason.FixSizeOfStruct]) ∧
      (0 : Int) + Span (GenerateMembers (TableOf TwoTuples) [] "S" 0x20 0 {}).1 = 0x20 :=
  C8_override_walk (TableOf TwoTuples) TwoTuples "S" 0x20 0 {}
    (by decide) (by decide)
    (by simp only [TwoTuples, List.chain'_cons, List.chain'_singleton]; decide)
    (by decide) (by decide)

/-! ## Dependency resolver: auxiliary lemmas -/

theorem WalkPost_nil (g : Dependencies) (s : SorterState) : WalkPost g [] s s :=
  ⟨[], by simp, by simp, by simp, by simp, by simp, by simp, by simp⟩

theorem WalkPost_included (g : Dependencies) (d : Int) (s : SorterState)
    (h : d ∈ s.Included) : WalkPost g [d] s s :=
  ⟨[], by simp, by simp, by simp, by simp, by simpa using h, by simp, by simp⟩

theorem WalkPost_cons (g : Dependencies) (d : Int) (ds : List Int) (s s1 s2 : SorterState)
    (h1 : WalkPost g [d] s s1) (h2 : WalkPost g ds s1 s2) : WalkPost g (d :: ds) s s2 := by
  obtain ⟨L1, e1, i1, n1, f1, r1, c1, p1⟩ := h1
  obtain ⟨L2, e2, i2, n2, f2, r2, c2, p2⟩ := h2
  refine ⟨L1 ++ L2, ?_, ?_, ?_, ?_, ?_, ?_, ?_⟩
  · rw [e2, e1, List.append_assoc]
  · intro x
    rw [i2, i1, List.mem_append, or_assoc]
  · rw [List.nodup_append]
    refine ⟨n1, n2, ?_⟩
    intro x hx1 hx2
    exact f2 x hx2 ((i1 x).mpr (Or.inr hx1))
  · intro x hx
    rcases List.mem_append.mp hx with h | h
    · exact f1 x h
    · intro hs
      exact f2 x h ((i1 x).mpr (Or.inl hs))
  · intro r hr
    rcases List.mem_cons.mp hr with h | h
    · subst h
      exact (i2 r).mpr (Or.inl (r1 r (by simp)))
    · exact r2 r h
  · intro x hx dd hd
    rcases List.mem_append.mp hx with h | h
    · exact (i2 dd).mpr (Or.inl (c1 x h dd hd))
    · exact c2 x h dd hd
  · intro x hx
    rcases List.mem_append.mp hx with h | h
    · obtain ⟨r, hr, hreach⟩ := p1 x h
      simp at hr; subst hr
      exact ⟨r, by simp, hreach⟩
    · obtain ⟨r, hr, hreach⟩ := p2 x h
      exact ⟨r, List.mem_cons_of_mem _ hr, hreach⟩

theorem WalkPost_emit (g : Dependencies) (i : Int) (s s2 : SorterState)
    (hi : i ∉ s.Included)
    (h : WalkPost g (DependenciesOf g i) { s with Included := i :: s.Included } s2) :
    WalkPost g [i] s { s2 with Emitted := s2.Emitted ++ [i] } := by
  obtain ⟨L, e, inc, nd, fresh, roots, closed, reach⟩ := h
  simp only at e inc fresh
  have hiL : i ∉ L := fun hL => fresh i hL (by simp)
  refine ⟨L ++ [i], ?_, ?_, ?_, ?_, ?_, ?_, ?_⟩
  · simp [e]
  · intro x
    simp only [inc, List.mem_cons, List.mem_append, List.mem_singleton]
    tauto
  · rw [List.nodup_append]
    refine ⟨nd, by simp, ?_⟩
    intro x hx hx'
    simp at hx'; subst hx'
    exact hiL hx
  · intro x hx
    rcases List.mem_append.mp hx with h | h
    · intro hs
      exact fresh x h (List.mem_cons_of_mem _ hs)
    · simp at h; subst h; exact hi
  · intro r hr
    simp at hr; subst hr
    exact (inc r).mpr (Or.inl (by simp))
  · intro x hx d hd
    rcases List.mem_append.mp hx with h | h
    · exact closed x h d hd
    · simp at h; subst h
      exact roots d hd
  · intro x hx
    refine ⟨i, by simp, ?_⟩
    rcases List.mem_append.mp hx with h | h
    · obtain ⟨r, hr, hreach⟩ := reach x h
      exact Relation.ReflTransGen.head hr hreach
    · simp at h; subst h
      exact Relation.ReflTransGen.refl

theorem ForEachDependency_post (g : Dependencies)
    (visit : Int → SorterState → Option SorterState)
    (hvisit : ∀ d s s', visit d s = some s' → WalkPost g [d] s s') :
    ∀ (ds : List Int) (s s' : SorterState),
      ForEachDependency visit ds s = some s' → WalkPost g ds s s' := by
  intro ds
  induction ds with
  | nil =>
    intro s s' h
    simp [ForEachDependency] at h
    subst h
    exact WalkPost_nil g s
  | cons d rest ih =>
    intro s s' h
    simp only [ForEachDependency] at h
    cases hv : visit d s with
    | none => simp [hv] at h
    | some s1 =>
      simp only [hv] at h
      exact WalkPost_cons g d rest s s1 s' (hvisit d s s1 hv) (ih s1 s' h)

theorem GenerateSorted_post (g : Dependencies) :
    ∀ (fuel : Nat) (i : Int) (s s' : SorterState),
      GenerateSorted g fuel i s = some s' → WalkPost g [i] s s' := by
  intro fuel
  induction fuel with
  | zero => intro i s s' h; simp [GenerateSorted] at h
  | succ n ih =>
    intro i s s' h
    simp only [GenerateSorted] at h
    by_cases hi : i ∈ s.Included
    · simp only [hi, if_true, Option.some.injEq] at h
      subst h
      exact WalkPost_included g i s hi
    · simp only [hi, if_false] at h
      cases hl : ForEachDependency (GenerateSorted g n) (DependenciesOf g i)
          { s with Included := i :: s.Included } with
      | none => simp [hl] at h
      | some s2 =>
        simp only [hl, Option.some.injEq] at h
        subst h
        exact WalkPost_emit g i s s2 hi
          (ForEachDependency_post g (GenerateSorted g n) ih _ _ _ hl)

theorem DependenciesOf_mem_flatMap : ∀ (g : Dependencies) (x d : Int),
    d ∈ DependenciesOf g x → d ∈ g.flatMap (fun e => e.1 :: e.2) := by
  intro g
  induction g with
  | nil => intro x d h; simp [DependenciesOf] at h
  | cons e rest ih =>
    intro x d h
    obtain ⟨k, l⟩ := e
    unfold DependenciesOf at h
    rw [List.lookup_cons] at h
    by_cases hk : (x == k) = true
    · simp only [hk] at h
      simp at h
      simp [List.flatMap_cons, h]
    · simp only [hk] at h
      have := ih x d (by unfold DependenciesOf; exact h)
      simp only [List.flatMap_cons, List.mem_append]
      exact Or.inr this

theorem DependenciesOf_mem_Nodes (g : Dependencies) (roots : List Int) (x d : Int)
    (h : d ∈ DependenciesOf g x) : d ∈ (Nodes g roots).toFinset := by
  simp only [Nodes, List.mem_toFinset, List.mem_append]
  exact Or.inr (DependenciesOf_mem_flatMap g x d h)

theorem WalkPost_mono (g : Dependencies) (roots : List Int) (s s' : SorterState)
    (h : WalkPost g roots s s') : s.Included.toFinset ⊆ s'.Included.toFinset := by
  obtain ⟨L, _, inc, _⟩ := h
  intro x hx
  rw [List.mem_toFinset] at hx ⊢
  exact (inc x).mpr (Or.inl hx)

theorem ForEachDependency_terminates (g : Dependencies) (U : Finset Int) (n : Nat)
    (ih : ∀ (i : Int) (s : SorterState), i ∈ U → (U \ s.Included.toFinset).card < n →
      ∃ s', GenerateSorted g n i s = some s') :
    ∀ (ds : List Int) (s : SorterState), (∀ d ∈ ds, d ∈ U) →
      (U \ s.Included.toFinset).card < n →
      ∃ s', ForEachDependency (GenerateSorted g n) ds s = some s' := by
  intro ds
  induction ds with
  | nil => intro s _ _; exact ⟨s, rfl⟩
  | cons d rest ihl =>
    intro s hds hcard
    obtain ⟨s1, h1⟩ := ih d s (hds d (by simp)) hcard
    have hmono := WalkPost_mono g [d] s s1 (GenerateSorted_post g n d s s1 h1)
    have hcard1 : (U \ s1.Included.toFinset).card < n :=
      lt_of_le_of_lt (Finset.card_le_card (Finset.sdiff_subset_sdiff (le_refl U) hmono)) hcard
    obtain ⟨s2, h2⟩ := ihl s1 (fun d' hd' => hds d' (List.mem_cons_of_mem _ hd')) hcard1
    exact ⟨s2, by simp only [ForEachDependency, h1, h2]⟩

theorem GenerateSorted_terminates (g : Dependencies) (U : Finset Int)
    (hU : ∀ x d, d ∈ DependenciesOf g x → d ∈ U) :
    ∀ (fuel : Nat) (i : Int) (s : SorterState), i ∈ U →
      (U \ s.Included.toFinset).card < fuel →
      ∃ s', GenerateSorted g fuel i s = some s' := by
  intro fuel
  induction fuel with
  | zero => intro i s _ h; exact absurd h (Nat.not_lt_zero _)
  | succ n ih =>
    intro i s hi hcard
    by_cases hinc : i ∈ s.Included
    · exact ⟨s, by simp [GenerateSorted, hinc]⟩
    · have hmem : i ∈ U \ s.Included.toFinset := by
        simp [Finset.mem_sdiff, hi, hinc]
      have hsub : U \ (i :: s.Included).toFinset ⊂ U \ s.Included.toFinset := by
        rw [Finset.ssubset_iff_of_subset]
        · exact ⟨i, hmem, by simp⟩
        · apply Finset.sdiff_subset_sdiff (le_refl U)
          intro x hx
          simp at hx ⊢
          exact Or.inr hx
      have hcard' : (U \ (i :: s.Included).toFinset).card < n := by
        have := Finset.card_lt_card hsub
        omega
      obtain ⟨s2, h2⟩ := ForEachDependency_terminates g U n ih (DependenciesOf g i)
        { s with Included := i :: s.Included } (fun d hd => hU i d hd) hcard'
      exact ⟨{ s2 with Emitted := s2.Emitted ++ [i] }, by
        simp only [GenerateSorted, hinc, if_false, h2]⟩

theorem reachable_of_closed (g : Dependencies) (i : Int) (L : List Int) (hi : i ∈ L)
    (hclosed : ∀ x ∈ L, ∀ d ∈ DependenciesOf g x, d ∈ L) :
    ∀ x, Reachable g i x → x ∈ L := by
  intro x hx
  induction hx with
  | refl => exact hi
  | tail _ hstep ih => exact hclosed _ ih _ hstep

theorem GenerateSorted_reachable_once (g : Dependencies) (i : Int) (fuel : Nat)
    (hfuel : (Nodes g [i]).length < fuel) :
    ∃ s', GenerateSorted g fuel i {} = some s' ∧ s'.Emitted.Nodup ∧
      ∀ x, x ∈ s'.Emitted ↔ Reachable g i x := by
  have hcard : ((Nodes g [i]).toFinset \ ({} : SorterState).Included.toFinset).card < fuel := by
    have h1 : ((Nodes g [i]).toFinset \ ({} : SorterState).Included.toFinset).card
        ≤ (Nodes g [i]).toFinset.card := Finset.card_le_card Finset.sdiff_subset
    have h2 := List.toFinset_card_le (Nodes g [i])
    omega
  obtain ⟨s', hs'⟩ := GenerateSorted_terminates g (Nodes g [i]).toFinset
    (fun x d h => DependenciesOf_mem_Nodes g [i] x d h) fuel i {} (by simp [Nodes]) hcard
  obtain ⟨L, e, inc, nd, _, roots, closed, reach⟩ := GenerateSorted_post g fuel i {} s' hs'
  have hE : s'.Emitted = L := by simpa using e
  have hI : ∀ x, x ∈ s'.Included ↔ x ∈ L := by simpa using inc
  refine ⟨s', hs', by rw [hE]; exact nd, ?_⟩
  intro x
  rw [hE]
  constructor
  · intro hx
    obtain ⟨r, hr, hreach⟩ := reach x hx
    simp at hr; subst hr; exact hreach
  · apply reachable_of_closed g i L ((hI i).mp (roots i (by simp)))
    intro y hy d hd
    exact (hI d).mp (closed y hy d hd)

/-! ## C6 -/

/-- C6: for every finite dependency graph (cycles and self-loops included) and all
visited marks unset, `GenerateStructSorted(i)` and `GenerateClassSorted(i)` terminate
(any recursion bound above the number of indices the graph mentions suffices) and run
the driver's emission for exactly the indices reachable from `i`, each exactly once. -/
theorem C6_sorted_walk_emits_reachable_once (g : Dependencies) (i : Int) (fuel : Nat)
    (hfuel : (Nodes g [i]).length < fuel) :
    (∃ s', GenerateStructSorted g fuel i {} = some s' ∧ s'.Emitted.Nodup ∧
      ∀ x, x ∈ s'.Emitted ↔ Reachable g i x) ∧
    (∃ s', GenerateClassSorted g fuel i {} = some s' ∧ s'.Emitted.Nodup ∧
      ∀ x, x ∈ s'.Emitted ↔ Reachable g i x) :=
  ⟨GenerateSorted_reachable_once g i fuel hfuel, GenerateSorted_reachable_once g i fuel hfuel⟩

/-- C6, witness: the 3-cycle A→B→C→A (A = 0, B = 1, C = 2) from A with recursion
bound 8; the emission order is C, B, A. -/
theorem C6_witness :
    GenerateStructSorted ThreeCycle 8 0 {} = some { Included := [2, 1, 0], Emitted := [2, 1, 0] } ∧
    ((∃ s', GenerateStructSorted ThreeCycle 8 0 {} = some s' ∧ s'.Emitted.Nodup ∧
      ∀ x, x ∈ s'.Emitted ↔ Reachable ThreeCycle 0 x) ∧
    (∃ s', GenerateClassSorted ThreeCycle 8 0 {} = some s' ∧ s'.Emitted.Nodup ∧
      ∀ x, x ∈ s'.Emitted ↔ Reachable ThreeCycle 0 x)) :=
  ⟨by decide, C6_sorted_walk_emits_reachable_once ThreeCycle 0 8 (by decide)⟩

theorem WalkPost_stack (g : Dependencies) (roots : List Int) (s s' : SorterState)
    (h : WalkPost g roots s s') : ∀ y, OnStack s' y ↔ OnStack s y := by
  obtain ⟨L, e, inc, _, fresh, _⟩ := h
  intro y
  unfold OnStack
  rw [e, inc y, List.mem_append]
  constructor
  · rintro ⟨h1 | h1, h2⟩
    · exact ⟨h1, fun hE => h2 (Or.inl hE)⟩
    · exact absurd (Or.inr h1) h2
  · rintro ⟨h1, h2⟩
    refine ⟨Or.inl h1, ?_⟩
    rintro (hE | hL)
    · exact h2 hE
    · exact fresh y hL h1

theorem EmittedBefore_append (l m : List Int) (d x : Int) (h : EmittedBefore l d x) :
    EmittedBefore (l ++ m) d x := by
  obtain ⟨l1, l2, e, hd⟩ := h
  exact ⟨l1, l2 ++ m, by rw [e]; simp, hd⟩

theorem ForEachDependency_order (g : Dependencies)
    (visit : Int → SorterState → Option SorterState)
    (hpost : ∀ d s s', visit d s = some s' → WalkPost g [d] s s')
    (hord : ∀ d s s', visit d s = some s' → (∀ y, OnStack s y → Reachable g y d) →
      DependenciesFirst g s.Emitted → DependenciesFirst g s'.Emitted) :
    ∀ (ds : List Int) (s s' : SorterState),
      ForEachDependency visit ds s = some s' →
      (∀ y, OnStack s y → ∀ d ∈ ds, Reachable g y d) →
      DependenciesFirst g s.Emitted → DependenciesFirst g s'.Emitted := by
  intro ds
  induction ds with
  | nil =>
    intro s s' h _ ho
    simp [ForEachDependency] at h
    subst h; exact ho
  | cons d rest ih =>
    intro s s' h hstack ho
    simp only [ForEachDependency] at h
    cases hv : visit d s with
    | none => simp [hv] at h
    | some s1 =>
      simp only [hv] at h
      have ho1 := hord d s s1 hv (fun y hy => hstack y hy d (by simp)) ho
      have hst := WalkPost_stack g [d] s s1 (hpost d s s1 hv)
      exact ih s1 s' h
        (fun y hy d' hd' => hstack y ((hst y).mp hy) d' (List.mem_cons_of_mem _ hd')) ho1

theorem GenerateSorted_order (g : Dependencies) (hac : Acyclic g) :
    ∀ (fuel : Nat) (i : Int) (s s' : SorterState),
      GenerateSorted g fuel i s = some s' →
      (∀ y, OnStack s y → Reachable g y i) →
      DependenciesFirst g s.Emitted → DependenciesFirst g s'.Emitted := by
  intro fuel
  induction fuel with
  | zero => intro i s s' h; simp [GenerateSorted] at h
  | succ n ih =>
    intro i s s' h hstack ho
    simp only [GenerateSorted] at h
    by_cases hi : i ∈ s.Included
    · simp only [hi, if_true, Option.some.injEq] at h
      subst h; exact ho
    · simp only [hi, if_false] at h
      cases hl : ForEachDependency (GenerateSorted g n) (DependenciesOf g i)
          { s with Included := i :: s.Included } with
      | none => simp [hl] at h
      | some s2 =>
        simp only [hl, Option.some.injEq] at h
        subst h
        have hpost := ForEachDependency_post g (GenerateSorted g n) (GenerateSorted_post g n) _ _ _ hl
        have hstack1 : ∀ y, OnStack { s with Included := i :: s.Included } y →
            y = i ∨ OnStack s y := by
          intro y hy
          obtain ⟨h1, h2⟩ := hy
          simp only [List.mem_cons] at h1
          rcases h1 with h1 | h1
          · exact Or.inl h1
          · exact Or.inr ⟨h1, h2⟩
        have ho2 : DependenciesFirst g s2.Emitted := by
          apply ForEachDependency_order g (GenerateSorted g n) (GenerateSorted_post g n) ih _ _ _ hl
          · intro y hy d hd
            rcases hstack1 y hy with h1 | h1
            · subst h1
              exact Relation.ReflTransGen.single hd
            · exact Relation.ReflTransGen.tail (hstack y h1) hd
          · exact ho
        have hst := WalkPost_stack g _ _ s2 hpost
        obtain ⟨L, _, _, _, _, roots, _, _⟩ := hpost
        intro x hx d hd
        simp only [List.mem_append, List.mem_singleton] at hx
        rcases hx with hx | hx
        · exact EmittedBefore_append _ _ d x (ho2 x hx d hd)
        · subst hx
          have hdE : d ∈ s2.Emitted := by
            by_contra hnot
            have hon : OnStack s2 d := ⟨roots d hd, hnot⟩
            rcases hstack1 d ((hst d).mp hon) with h1 | h1
            · subst h1
              exact hac d (Relation.TransGen.single hd)
            · exact hac x (Relation.TransGen.head' hd (hstack d h1))
          exact ⟨s2.Emitted, [], rfl, hdE⟩

theorem GenerateSorted_top (g : Dependencies) (hac : Acyclic g) (roots : List Int)
    (fuel : Nat) (hfuel : (Nodes g roots).length < fuel) (i : Int) (hi : i ∈ roots)
    (s : SorterState) (hstack : ∀ y, ¬ OnStack s y) (ho : DependenciesFirst g s.Emitted) :
    ∃ s', GenerateSorted g fuel i s = some s' ∧ (∀ y, ¬ OnStack s' y) ∧
      DependenciesFirst g s'.Emitted := by
  have hcard : ((Nodes g roots).toFinset \ s.Included.toFinset).card < fuel := by
    have h1 : ((Nodes g roots).toFinset \ s.Included.toFinset).card
        ≤ (Nodes g roots).toFinset.card := Finset.card_le_card Finset.sdiff_subset
    have h2 := List.toFinset_card_le (Nodes g roots)
    omega
  obtain ⟨s', hs'⟩ := GenerateSorted_terminates g (Nodes g roots).toFinset
    (fun x d h => DependenciesOf_mem_Nodes g roots x d h) fuel i s
    (by simp [Nodes, hi]) hcard
  have hpost := GenerateSorted_post g fuel i s s' hs'
  refine ⟨s', hs', ?_, ?_⟩
  · intro y hy
    exact hstack y ((WalkPost_stack g [i] s s' hpost y).mp hy)
  · exact GenerateSorted_order g hac fuel i s s' hs' (fun y hy => absurd hy (hstack y)) ho

theorem Process_ordered (ObjectArray : Int → UEObject) (ClassDeps StructDeps : Dependencies)
    (hc : Acyclic ClassDeps) (hs : Acyclic StructDeps) (all : List Int) (fuel : Nat)
    (hfc : (Nodes ClassDeps all).length < fuel) (hfs : (Nodes StructDeps all).length < fuel) :
    ∀ (members : List Int) (p : PackageState), (∀ m ∈ members, m ∈ all) →
      PackageOrdered ClassDeps StructDeps p →
      ∃ p', Process ObjectArray ClassDeps StructDeps fuel members p = some p' ∧
        PackageOrdered ClassDeps StructDeps p' := by
  intro members
  induction members with
  | nil => intro p _ hp; exact ⟨p, rfl, hp⟩
  | cons m rest ih =>
    intro p hall hp
    have hrest : ∀ m' ∈ rest, m' ∈ all := fun m' hm' => hall m' (List.mem_cons_of_mem _ hm')
    obtain ⟨hp1, hp2, hp3, hp4⟩ := hp
    simp only [Process]
    by_cases hv : (ObjectArray m).IsValid = true
    · by_cases he : (ObjectArray m).IsEnum = true
      · simp only [hv, he, Bool.not_true, Bool.false_eq_true, if_false, if_true]
        exact ih _ hrest ⟨hp1, hp2, hp3, hp4⟩
      · by_cases hcl : (ObjectArray m).IsClass = true
        · simp only [hv, he, hcl, Bool.not_true, Bool.false_eq_true, if_false, if_true]
          obtain ⟨s', h1, h2, h3⟩ := GenerateSorted_top ClassDeps hc all fuel hfc m
            (hall m (by simp)) p.ClassSorter hp1 hp2
          simp only [GenerateClassSorted, h1]
          exact ih _ hrest ⟨h2, h3, hp3, hp4⟩
        · by_cases hst : ((ObjectArray m).IsStruct && !(ObjectArray m).IsFunction) = true
          · simp only [hv, he, hcl, hst, Bool.not_true, Bool.false_eq_true, if_false, if_true]
            obtain ⟨s', h1, h2, h3⟩ := GenerateSorted_top StructDeps hs all fuel hfs m
              (hall m (by simp)) p.StructSorter hp3 hp4
            simp only [GenerateStructSorted, h1]
            exact ih _ hrest ⟨hp1, hp2, h2, h3⟩
          · simp only [hv, he, hcl, hst, Bool.not_true, Bool.false_eq_true, if_false]
            exact ih _ hrest ⟨hp1, hp2, hp3, hp4⟩
    · simp only [Bool.not_eq_true] at hv
      simp only [hv, Bool.not_false, if_true]
      exact ih _ hrest ⟨hp1, hp2, hp3, hp4⟩

theorem Empty_acyclic : Acyclic [] := by
  intro x h
  obtain ⟨b, hb, _⟩ := Relation.TransGen.head'_iff.mp h
  simp [DependsOn, DependenciesOf] at hb

theorem Diamond_acyclic : Acyclic Diamond := by
  have hstep : ∀ a b, DependsOn Diamond a b → a < b := by
    intro a b h
    unfold DependsOn DependenciesOf Diamond at h
    by_cases h0 : a = 0
    · subst h0; simp [List.lookup] at h; omega
    · by_cases h1 : a = 1
      · subst h1; simp [List.lookup] at h; omega
      · have e0 : (a == 0) = false := by simpa using h0
        have e1 : (a == 1) = false := by simpa using h1
        simp [List.lookup, e0, e1] at h
  have htrans : ∀ a b, Relation.TransGen (DependsOn Diamond) a b → a < b := by
    intro a b h
    induction h with
    | single h => exact hstep _ _ h
    | tail _ h ih => exact lt_trans ih (hstep _ _ h)
  intro x hx
  exact lt_irrefl x (htrans x x hx)

/-! ## C7 -/

/-- C7: for acyclic class and struct dependency graphs and all visited marks unset,
`Process` over any member list (any sequence of `GenerateClassSorted` /
`GenerateStructSorted` calls) terminates, and in the resulting emission order of classes
and of structs every recorded dependency of an emitted index is emitted before that
index. -/
theorem C7_dependencies_emitted_before_dependants (ObjectArray : Int → UEObject)
    (ClassDeps StructDeps : Dependencies) (members : List Int) (fuel : Nat)
    (hc : Acyclic ClassDeps) (hs : Acyclic StructDeps)
    (hfc : (Nodes ClassDeps members).length < fuel)
    (hfs : (Nodes StructDeps members).length < fuel) :
    ∃ p, Process ObjectArray ClassDeps StructDeps fuel members {} = some p ∧
      DependenciesFirst ClassDeps p.ClassSorter.Emitted ∧
      DependenciesFirst StructDeps p.StructSorter.Emitted := by
  obtain ⟨p, h1, _, h2, _, h3⟩ := Process_ordered ObjectArray ClassDeps StructDeps hc hs
    members fuel hfc hfs members {} (fun m hm => hm)
    ⟨by simp [OnStack], by simp [DependenciesFirst], by simp [OnStack],
      by simp [DependenciesFirst]⟩
  exact ⟨p, h1, h2, h3⟩

/-- C7, witness: the structs 2, 0, 1 of the acyclic graph 0→{1,2}, 1→{2} processed in
that order are emitted as 2, 1, 0. -/
theorem C7_witness :
    Process AllStructObjects [] Diamond 9 [2, 0, 1] {}
      = some { StructSorter := { Included := [1, 0, 2], Emitted := [2, 1, 0] } } ∧
    ∃ p, Process AllStructObjects [] Diamond 9 [2, 0, 1] {} = some p ∧
      DependenciesFirst [] p.ClassSorter.Emitted ∧
      DependenciesFirst Diamond p.StructSorter.Emitted :=
  ⟨by decide, C7_dependencies_emitted_before_dependants AllStructObjects [] Diamond [2, 0, 1] 9
    Empty_acyclic Diamond_acyclic (by decide) (by decide)⟩

/-! ## Enum materializer: auxiliary lemmas -/

theorem FindLastOf_none : ∀ (s : List Char) (ch : Char), FindLastOf s ch = none → ch ∉ s := by
  intro s
  induction s with
  | nil => intro ch _; simp
  | cons c rest ih =>
    intro ch h
    simp only [FindLastOf] at h
    cases hr : FindLastOf rest ch with
    | some i => simp [hr] at h
    | none =>
      simp only [hr] at h
      by_cases hc : c = ch
      · simp [hc] at h
      · simp only [List.mem_cons, not_or]
        exact ⟨fun e => hc e.symm, ih ch hr⟩

theorem FindLastOf_some : ∀ (s : List Char) (ch : Char) (i : Nat), FindLastOf s ch = some i →
    ch ∉ s.drop (i + 1) ∧ ∃ qualifier, s = qualifier ++ s.drop (i + 1) ∧
      qualifier.getLast? = some ch := by
  intro s
  induction s with
  | nil => intro ch i h; simp [FindLastOf] at h
  | cons c rest ih =>
    intro ch i h
    simp only [FindLastOf] at h
    cases hr : FindLastOf rest ch with
    | some j =>
      simp only [hr, Option.some.injEq] at h
      subst h
      obtain ⟨h1, q, h2, h3⟩ := ih ch j hr
      refine ⟨by simpa using h1, c :: q, ?_, ?_⟩
      · simp only [List.drop_succ_cons, List.cons_append]
        rw [← h2]
      · cases q with
        | nil => simp at h3
        | cons a q' => rw [List.getLast?_cons_cons]; exact h3
    | none =>
      simp only [hr] at h
      by_cases hc : c = ch
      · simp only [hc, if_true, Option.some.injEq] at h
        subst h
        subst hc
        refine ⟨by simpa using FindLastOf_none rest c hr, [c], by simp, by simp⟩
      · simp [hc] at h

theorem StripQualifier_spec (s : String) : IsUnqualifiedPartOf (StripQualifier s) s := by
  unfold IsUnqualifiedPartOf StripQualifier
  cases h : FindLastOf s.data ':' with
  | none =>
    simp only [List.drop_zero]
    exact ⟨FindLastOf_none s.data ':' h, [], by simp, Or.inl rfl⟩
  | some i =>
    obtain ⟨h1, q, h2, h3⟩ := FindLastOf_some s.data ':' i h
    exact ⟨h1, q, h2, Or.inr h3⟩

theorem AddEnumMembers_eq : ∀ (pairs : List (String × Int)) (Enm : TypesEnum),
    AddEnumMembers pairs Enm =
      { Enm with Members := Enm.Members ++ pairs.map (fun nv => (StripQualifier nv.1, nv.2)) } := by
  intro pairs
  induction pairs with
  | nil => intro Enm; simp [AddEnumMembers]
  | cons nv rest ih =>
    intro Enm
    simp [AddEnumMembers, ih, TypesEnum.AddMember]

theorem GenerateEnum_members (BigEnums : Int → Option String) (Substitute : String → String)
    (Enum : UEEnum) :
    (GenerateEnum BigEnums Substitute Enum).Members =
      Enum.NameValuePairs.map (fun nv =>
        let m1 : String × Int := (StripQualifier nv.1, nv.2)
        let m2 : String × Int :=
          if Contains Enum.EnumTypeAsStr "PixelFormat" = true ∧ m1.1 = "PF_MAX" then
            (Substitute "PF_MAX", m1.2) else m1
        if Contains Enum.EnumTypeAsStr "ERaMaterialName" = true ∧ m2.1 = "TRANSPARENT" then
          (Substitute "TRANSPARENT", m2.2) else m2) := by
  unfold GenerateEnum
  simp only [AddEnumMembers_eq]
  by_cases h1 : Contains Enum.EnumTypeAsStr "PixelFormat" = true <;>
    by_cases h2 : Contains Enum.EnumTypeAsStr "ERaMaterialName" = true <;>
    cases BigEnums Enum.Index <;>
    simp [h1, h2, TypesEnum.FixWindowsConstant, List.map_map, Function.comp_def]

/-! ## C10 -/

/-- C10, counterexample: the enum `EPixelFormat` with the pair
`("EPixelFormat::PF_MAX", 72)`, no width override and a collision table whose substitute
for `PF_MAX` is `PF_MAX_`: the second member is named `PF_MAX_`, not the part `PF_MAX`
after the last `:` of the input name. -/
theorem C10_counterexample :
    (GenerateEnum NoBigEnums UnderscoreSubstitute PixelFormatEnum).Members
      = [("PF_Unknown", 0), ("PF_MAX_", 72)] ∧
    StripQualifier "EPixelFormat::PF_MAX" = "PF_MAX" ∧
    (GenerateEnum NoBigEnums UnderscoreSubstitute PixelFormatEnum).Members[1]?
      ≠ some (StripQualifier "EPixelFormat::PF_MAX", 72) := by
  decide

/-- C10, amended: for every ordered list of (qualified name, 64-bit value) pairs and
every type index, `GenerateEnum` produces an enum whose underlying type is the
width-override table's entry for that index when present and `uint8` otherwise, with
exactly one member per pair in input order, each member's value unchanged, and each
member's name being the part of the input name after its last `:` (the whole name when
it contains no `:`; the result never contains `:`), except for a member with stripped
name `PF_MAX` in an enum whose type name contains `PixelFormat` and one with stripped
name `TRANSPARENT` in an enum whose type name contains `ERaMaterialName`. -/
theorem C10_enum_materialized (BigEnums : Int → Option String)
    (Substitute : String → String) (Enum : UEEnum) :
    (GenerateEnum BigEnums Substitute Enum).UnderlayingType
        = (BigEnums Enum.Index).getD "uint8" ∧
    (GenerateEnum BigEnums Substitute Enum).Members.length = Enum.NameValuePairs.length ∧
    ∀ (k : Nat) (name : String) (value : Int),
      Enum.NameValuePairs[k]? = some (name, value) →
      IsUnqualifiedPartOf (StripQualifier name) name ∧
      ∃ short, (GenerateEnum BigEnums Substitute Enum).Members[k]? = some (short, value) ∧
        (¬ (Contains Enum.EnumTypeAsStr "PixelFormat" = true ∧
            StripQualifier name = "PF_MAX") →
         ¬ (Contains Enum.EnumTypeAsStr "ERaMaterialName" = true ∧
            StripQualifier name = "TRANSPARENT") →
         short = StripQualifier name) := by
  refine ⟨?_, ?_, ?_⟩
  · unfold GenerateEnum
    simp only [AddEnumMembers_eq]
    by_cases h1 : Contains Enum.EnumTypeAsStr "PixelFormat" = true <;>
      by_cases h2 : Contains Enum.EnumTypeAsStr "ERaMaterialName" = true <;>
      cases BigEnums Enum.Index <;>
      simp [h1, h2, TypesEnum.FixWindowsConstant]
  · rw [GenerateEnum_members, List.length_map]
  · intro k name value hk
    refine ⟨StripQualifier_spec name, ?_⟩
    rw [GenerateEnum_members, List.getElem?_map, hk]
    simp only [Option.map_some']
    by_cases h1 : Contains Enum.EnumTypeAsStr "PixelFormat" = true ∧
        StripQualifier name = "PF_MAX"
    · by_cases h2 : Contains Enum.EnumTypeAsStr "ERaMaterialName" = true ∧
          Substitute "PF_MAX" = "TRANSPARENT"
      · exact ⟨Substitute "TRANSPARENT", by simp [h1, h2], fun hn => absurd h1 hn⟩
      · exact ⟨Substitute "PF_MAX", by simp [h1, h2], fun hn => absurd h1 hn⟩
    · by_cases h2 : Contains Enum.EnumTypeAsStr "ERaMaterialName" = true ∧
          StripQualifier name = "TRANSPARENT"
      · exact ⟨Substitute "TRANSPARENT", by simp [h1, h2], fun _ hn => absurd h2 hn⟩
      · exact ⟨StripQualifier name, by simp [h1, h2], fun _ _ => rfl⟩

/-- C10, witness: `[("E::A", 0), ("E::B", 1)]` with no width override gives a `uint8`
enum with the members `A = 0`, `B = 1`. -/
theorem C10_witness :
    GenerateEnum NoBigEnums UnderscoreSubstitute ExampleEnum
      = { Name := "E", UnderlayingType := "uint8", Members := [("A", 0), ("B", 1)] } ∧
    IsUnqualifiedPartOf (StripQualifier "E::B") "E::B" ∧
    ∃ short, (GenerateEnum NoBigEnums UnderscoreSubstitute ExampleEnum).Members[1]?
        = some (short, 1) ∧ short = StripQualifier "E::B" := by
  refine ⟨by decide, ?_⟩
  obtain ⟨hq, short, h1, h2⟩ :=
    (C10_enum_materialized NoBigEnums UnderscoreSubstitute ExampleEnum).2.2 1 "E::B" 1
      (by decide)
  exact ⟨hq, short, h1, h2 (by decide) (by decide)⟩

/-! ## C11 -/

/-- C11, counterexample: the enum `E` (its type name contains neither `PixelFormat` nor
`ERaMaterialName`) with the pair `("E::PF_MAX", 1)`: the member keeps the name `PF_MAX`
although the substitute of `PF_MAX` is `PF_MAX_`; the collision rewrite is not reached. -/
theorem C11_counterexample :
    StripQualifier "E::PF_MAX" = "PF_MAX" ∧
    UnderscoreSubstitute "PF_MAX" = "PF_MAX_" ∧
    (GenerateEnum NoBigEnums UnderscoreSubstitute UnguardedEnum).Members = [("PF_MAX", 1)] := by
  decide

/-- C11, amended: a member whose stripped name is `PF_MAX` is rewritten to the
substitute of `PF_MAX` in every enum whose type name contains `PixelFormat` (unless the
type name also contains `ERaMaterialName` and that substitute is itself `TRANSPARENT`);
a member whose stripped name is `TRANSPARENT` is rewritten to the substitute of
`TRANSPARENT` in every enum whose type name contains `ERaMaterialName`; every other
member, so every member of an enum whose type name contains neither, keeps its stripped
name. -/
theorem C11_collision_rewrite_guarded (BigEnums : Int → Option String)
    (Substitute : String → String) (Enum : UEEnum) (k : Nat) (name : String) (value : Int)
    (hk : Enum.NameValuePairs[k]? = some (name, value)) :
    (Contains Enum.EnumTypeAsStr "PixelFormat" = true → StripQualifier name = "PF_MAX" →
      ¬ (Contains Enum.EnumTypeAsStr "ERaMaterialName" = true ∧
          Substitute "PF_MAX" = "TRANSPARENT") →
      (GenerateEnum BigEnums Substitute Enum).Members[k]?
        = some (Substitute "PF_MAX", value)) ∧
    (Contains Enum.EnumTypeAsStr "ERaMaterialName" = true →
      StripQualifier name = "TRANSPARENT" →
      (GenerateEnum BigEnums Substitute Enum).Members[k]?
        = some (Substitute "TRANSPARENT", value)) ∧
    (¬ (Contains Enum.EnumTypeAsStr "PixelFormat" = true ∧ StripQualifier name = "PF_MAX") →
      ¬ (Contains Enum.EnumTypeAsStr "ERaMaterialName" = true ∧
          StripQualifier name = "TRANSPARENT") →
      (GenerateEnum BigEnums Substitute Enum).Members[k]?
        = some (StripQualifier name, value)) := by
  rw [GenerateEnum_members, List.getElem?_map, hk]
  simp only [Option.map_some']
  refine ⟨?_, ?_, ?_⟩
  · intro h1 h2 h3
    simp only [not_and] at h3
    by_cases h4 : Contains Enum.EnumTypeAsStr "ERaMaterialName" = true
    · simp [h1, h2, h4, h3 h4]
    · simp [h1, h2, h4]
  · intro h1 h2
    simp [h1, h2]
  · intro h1 h2
    simp [h1, h2]

/-- C11, witness: in `EPixelFormat` the member `PF_MAX` becomes `PF_MAX_`. -/
theorem C11_witness :
    (GenerateEnum NoBigEnums UnderscoreSubstitute PixelFormatEnum).Members[1]?
      = some (UnderscoreSubstitute "PF_MAX", 72) :=
  (C11_collision_rewrite_guarded NoBigEnums UnderscoreSubstitute PixelFormatEnum 1
    "EPixelFormat::PF_MAX" 72 (by decide)).1 (by decide) (by decide) (by decide)

/-! ## C18 -/

/-- C18, the code at an override entry with no tuples, no reflected fields, inherited
size 0 and total size 8: the override walk adds one trailing pad of 8 bytes and returns
0; `GenerateMembers` takes the 0 for "no entry", runs the generic algorithm and appends
a second trailing pad of 8 bytes. -/
theorem C18_walk_result_zero_runs_generic_algorithm :
    TableOf [] "S" = some [] ∧
    (GeneratePredefinedMembers (TableOf []) "S" 8 0 {}).1
      = [Member.BytePadding 0 0 8 PadReason.FixSizeOfStruct] ∧
    (GeneratePredefinedMembers (TableOf []) "S" 8 0 {}).2.1 = 0 ∧
    (GenerateMembers (TableOf []) [] "S" 8 0 {}).1
      = [Member.BytePadding 0 0 8 PadReason.FixSizeOfStruct,
          Member.BytePadding 1 0 8 PadReason.FixSizeOfStruct] := by
  decide

/-! ## C20 -/

/-- C20, the code at a field whose value struct (index 5) has reflected size 12 and the
`StructSizes` override 16: `GenerateStruct` declares the value struct with total size
16, while `GenerateMembers` gives the field the span 12 (and pads the owner, of total
size 16, with 4 bytes after it). For every struct-valued field the span is the value
struct's reflected size times the array dimension, never the field's own size. -/
theorem C20_struct_field_span_ignores_size_override :
    (GenerateStructSizes SizeOverrides ValueStruct none false).1 = 16 ∧
    PropertySize StructField = 12 ∧
    (GenerateMembers NoOverrides [StructField] "FOwner" 16 0 {}).1
      = [Member.Property StructField 12,
          Member.BytePadding 0 12 4 PadReason.FixSizeOfStruct] ∧
    ∀ p : UEProperty, p.IsStructProperty = true →
      PropertySize p = p.UnderlayingStructSize * p.ArrayDim := by
  refine ⟨by decide, by decide, by decide, ?_⟩
  intro p hp
  simp [PropertySize, hp]

/-! ## Function stub synthesizer: auxiliary lemmas -/

theorem GenerateFunctionStep_ret (s : ParamLoopState) (p : UEProperty)
    (h : p.HasReturnParm = true) :
    GenerateFunctionStep s p = { s with ReturnType := p.CppType, bHasRetType := true } := by
  simp [GenerateFunctionStep, h]

theorem GenerateFunctionStep_param (s : ParamLoopState) (p : UEProperty)
    (h : p.HasReturnParm = false) :
    GenerateFunctionStep s p =
      { s with
        Params := s.Params ++ [ClassifiedParameter p]
        OutPtrParamNames :=
          if p.HasReferenceParm = false ∧ p.HasOutParm = true then
            s.OutPtrParamNames ++ [p.ValidName]
          else s.OutPtrParamNames } := by
  cases hr : p.HasReferenceParm <;> cases ho : p.HasOutParm <;>
    cases hs : p.IsStructProperty <;> cases ha : p.IsArrayProperty <;>
    cases ht : p.IsStrProperty <;>
    simp [GenerateFunctionStep, ClassifiedParameter, h, hr, ho, hs, ha, ht]

/-- The locals after the parameter loop, in closed form. -/
theorem GenerateFunctionLoop_eq : ∀ (ps : List UEProperty) (s : ParamLoopState),
    GenerateFunctionLoop ps s =
      { ReturnType :=
          match (ps.filter (fun p => p.HasReturnParm)).getLast? with
          | some p => p.CppType
          | none => s.ReturnType
        Params := s.Params ++
          (ps.filter (fun p => !p.HasReturnParm)).map ClassifiedParameter
        OutPtrParamNames := s.OutPtrParamNames ++
          (ps.filter (fun p => !p.HasReturnParm && !p.HasReferenceParm && p.HasOutParm)).map
            (fun p => p.ValidName)
        bHasRetType := s.bHasRetType || ps.any (fun p => p.HasReturnParm) } := by
  intro ps
  induction ps with
  | nil => intro s; simp [GenerateFunctionLoop]
  | cons p rest ih =>
    intro s
    simp only [GenerateFunctionLoop, ih]
    cases h : p.HasReturnParm
    · rw [GenerateFunctionStep_param s p h]
      cases hr : p.HasReferenceParm <;> cases ho : p.HasOutParm <;>
        simp [h, hr, ho, List.filter_cons]
    · rw [GenerateFunctionStep_ret s p h]
      simp only [List.filter_cons, h, Bool.not_true, Bool.false_and, Bool.false_eq_true,
        if_false, if_true, List.any_cons, Bool.true_or, Bool.or_true]
      cases hl : (rest.filter (fun p => p.HasReturnParm)).getLast? with
      | none =>
        have : rest.filter (fun p => p.HasReturnParm) = [] := List.getLast?_eq_none_iff.mp hl
        simp [this]
      | some q =>
        have hne : rest.filter (fun p => p.HasReturnParm) ≠ [] := by
          intro e; rw [e] at hl; simp at hl
        obtain ⟨a, l, hal⟩ := List.exists_cons_of_ne_nil hne
        rw [hal, List.getLast?_cons_cons, ← hal, hl]

theorem ClassifiedParameter_name (p : UEProperty) :
    (ClassifiedParameter p).Name = p.ValidName := by
  unfold ClassifiedParameter
  split_ifs <;> rfl

theorem ClassifiedParameter_bIsOutPtr (p : UEProperty) :
    (ClassifiedParameter p).bIsOutPtr = (!p.HasReferenceParm && p.HasOutParm) := by
  unfold ClassifiedParameter
  cases h1 : p.HasReferenceParm <;> cases h2 : p.HasOutParm <;>
    cases h3 : (p.IsStructProperty || p.IsArrayProperty || p.IsStrProperty) <;> simp [h3]

/-! ## C12 -/

/-- C12: the stub's parameter list holds exactly the parameters without the `ReturnParm`
flag, in their original order, each classified by the priority reference (type suffix
`&`, not an out-pointer) > output (type suffix `*`, out-pointer) > const-reference for a
struct, array or string property (`const T&`) > by value (type unchanged); a parameter
with the `ReturnParm` flag is never in the list, whatever its other flags. -/
theorem C12_parameters_classified_by_priority (Function : UEFunction)
    (SuperCppName SuperName : String) (NumUnnamedFunctions : Nat) :
    (GenerateFunction Function SuperCppName SuperName NumUnnamedFunctions).1.Parameters
      = (Function.Properties.filter (fun p => !p.HasReturnParm)).map ClassifiedParameter := by
  simp [GenerateFunction, GenerateFunctionLoop_eq]

theorem GenerateFunction_returnType (Function : UEFunction) (SuperCppName SuperName : String)
    (n : Nat) :
    (GenerateFunction Function SuperCppName SuperName n).1.ReturnType =
      match (Function.Properties.filter (fun p => p.HasReturnParm)).getLast? with
      | some p => p.CppType
      | none => "void" := by
  simp [GenerateFunction, GenerateFunctionLoop_eq]

theorem GenerateFunction_body (Function : UEFunction) (SuperCppName SuperName : String)
    (n : Nat) :
    (GenerateFunction Function SuperCppName SuperName n).1.Body =
      ([BodyStatement.StaticFunc, BodyStatement.GetFunction SuperName Function.Name,
          BodyStatement.DeclareParms Function.ParamStructName] ++
        (((Function.Properties.filter (fun p => !p.HasReturnParm)).map
            ClassifiedParameter).filter (fun Param => !Param.bIsOutPtr)).map
          (fun Param => BodyStatement.AssignParm Param.Name) ++
        (if Function.IsNative then [BodyStatement.SaveFlags] else [])) ++
      BodyStatement.ProcessEvent ::
        ((if Function.IsNative then [BodyStatement.RestoreFlags] else []) ++
          ((Function.Properties.filter
              (fun p => !p.HasReturnParm && !p.HasReferenceParm && p.HasOutParm)).map
            (fun p => p.ValidName)).map BodyStatement.WriteBack ++
          (if Function.Properties.any (fun p => p.HasReturnParm) then
            [BodyStatement.ReturnValue] else [])) := by
  simp [GenerateFunction, GenerateFunctionLoop_eq, GenerateFunctionBody]

/-! ## C13 -/

/-- C13, counterexample: a function whose only parameter carries the `ReturnParm` flag
and has the C++ type text `void`: the stub's declared result type is `void` although a
parameter carries the flag. -/
theorem C13_counterexample :
    (GenerateFunction VoidReturnFunction "AActor" "Actor" 0).1.ReturnType = "void" ∧
    ∃ p ∈ VoidReturnFunction.Properties, p.HasReturnParm = true := by
  refine ⟨by decide, ParamOf "ReturnValue" "void" true false false, by decide, by decide⟩

/-- C13, amended: the stub's declared result type is `void` when no parameter carries
the `ReturnParm` flag and otherwise the C++ type of the last parameter carrying it (of
the only one when exactly one carries it), so it is `void` exactly when no parameter
carries the flag or that type is itself the text `void`; the body contains the return
statement `return Parms.ReturnValue;`, as its last statement, if and only if a parameter
carries the flag. -/
theorem C13_result_type_and_return_statement (Function : UEFunction)
    (SuperCppName SuperName : String) (n : Nat) :
    ((∀ p ∈ Function.Properties, p.HasReturnParm = false) →
      (GenerateFunction Function SuperCppName SuperName n).1.ReturnType = "void") ∧
    (∀ p, (Function.Properties.filter (fun q => q.HasReturnParm)).getLast? = some p →
      (GenerateFunction Function SuperCppName SuperName n).1.ReturnType = p.CppType) ∧
    (∀ p, Function.Properties.filter (fun q => q.HasReturnParm) = [p] →
      (GenerateFunction Function SuperCppName SuperName n).1.ReturnType = p.CppType) ∧
    ((GenerateFunction Function SuperCppName SuperName n).1.ReturnType = "void" ↔
      (∀ p ∈ Function.Properties, p.HasReturnParm = false) ∨
      ∃ p, (Function.Properties.filter (fun q => q.HasReturnParm)).getLast? = some p ∧
        p.CppType = "void") ∧
    (BodyStatement.ReturnValue ∈ (GenerateFunction Function SuperCppName SuperName n).1.Body ↔
      ∃ p ∈ Function.Properties, p.HasReturnParm = true) ∧
    ((∃ p ∈ Function.Properties, p.HasReturnParm = true) →
      (GenerateFunction Function SuperCppName SuperName n).1.Body.getLast?
        = some BodyStatement.ReturnValue) := by
  have hnone : (∀ p ∈ Function.Properties, p.HasReturnParm = false) ↔
      (Function.Properties.filter (fun q => q.HasReturnParm)).getLast? = none := by
    rw [List.getLast?_eq_none_iff, List.filter_eq_nil_iff]
    constructor
    · intro h p hp; simp [h p hp]
    · intro h p hp; simpa using h p hp
  have hany : Function.Properties.any (fun p => p.HasReturnParm) = true ↔
      ∃ p ∈ Function.Properties, p.HasReturnParm = true := by
    simp [List.any_eq_true]
  rw [GenerateFunction_returnType, GenerateFunction_body]
  refine ⟨?_, ?_, ?_, ?_, ?_, ?_⟩
  · intro h
    rw [hnone.mp h]
  · intro p hp
    rw [hp]
  · intro p hp
    rw [hp]; rfl
  · constructor
    · intro h
      cases hl : (Function.Properties.filter (fun q => q.HasReturnParm)).getLast? with
      | none => exact Or.inl (hnone.mpr hl)
      | some p =>
        rw [hl] at h
        exact Or.inr ⟨p, rfl, h⟩
    · rintro (h | ⟨p, hp, hv⟩)
      · rw [hnone.mp h]
      · rw [hp]; exact hv
  · rw [← hany]
    by_cases ha : Function.Properties.any (fun p => p.HasReturnParm) = true
    · simp [ha]
    · cases hn : Function.IsNative <;> simp [ha]
  · intro h
    have ha := hany.mpr h
    simp [ha, List.getLast?_append, List.getLast?_cons]

/-- C13, witness: the example function has exactly one return parameter, of type `bool`;
the stub returns `bool` and its body ends with the return statement. -/
theorem C13_witness :
    (GenerateFunction ExampleFunction "AActor" "Actor" 0).1.ReturnType = "bool" ∧
    (GenerateFunction ExampleFunction "AActor" "Actor" 0).1.Body.getLast?
      = some BodyStatement.ReturnValue :=
  ⟨(C13_result_type_and_return_statement ExampleFunction "AActor" "Actor" 0).2.2.1
      (ParamOf "ReturnValue" "bool" true false true) (by decide),
    (C13_result_type_and_return_statement ExampleFunction "AActor" "Actor" 0).2.2.2.2.2
      ⟨ParamOf "ReturnValue" "bool" true false true, by decide, by decide⟩⟩

/-! ## C14 -/

/-- C14, counterexample: a function whose only parameter `Value` is a non-return
parameter with the `ReferenceParm` flag: the body ends with the dispatch call and copies
nothing back into `Value`. -/
theorem C14_counterexample :
    (∃ p ∈ ReferenceOnlyFunction.Properties,
      p.HasReturnParm = false ∧ p.HasReferenceParm = true ∧ p.ValidName = "Value") ∧
    (GenerateFunction ReferenceOnlyFunction "AActor" "Actor" 0).1.Body
      = [BodyStatement.StaticFunc, BodyStatement.GetFunction "Actor" "Adjust",
          BodyStatement.DeclareParms "Actor_Adjust_Params", BodyStatement.AssignParm "Value",
          BodyStatement.ProcessEvent] ∧
    BodyStatement.WriteBack "Value" ∉
      (GenerateFunction ReferenceOnlyFunction "AActor" "Actor" 0).1.Body := by
  refine ⟨⟨ParamOf "Value" "struct FValue" false true false, by decide, by decide, by decide,
    by decide⟩, by decide, by decide⟩

/-- C14, amended: the body contains the dispatch call once; no statement before it
copies back, and after it the names copied back from the parameter block are exactly the
names of the non-return parameters that carry `OutParm` and not `ReferenceParm` (the
out-pointer parameters); reference parameters are not copied back. Before the dispatch
call the names assigned into the parameter block are exactly the names of the other
non-return parameters, the reference parameters among them. -/
theorem C14_write_back_out_pointers (Function : UEFunction)
    (SuperCppName SuperName : String) (n : Nat) :
    ∃ pre post,
      (GenerateFunction Function SuperCppName SuperName n).1.Body
        = pre ++ BodyStatement.ProcessEvent :: post ∧
      (∀ name, BodyStatement.WriteBack name ∉ pre) ∧
      BodyStatement.ProcessEvent ∉ pre ∧ BodyStatement.ProcessEvent ∉ post ∧
      (∀ name, BodyStatement.WriteBack name ∈ post ↔
        ∃ p ∈ Function.Properties, p.HasReturnParm = false ∧ p.HasReferenceParm = false ∧
          p.HasOutParm = true ∧ p.ValidName = name) ∧
      (∀ name, BodyStatement.AssignParm name ∈ pre ↔
        ∃ p ∈ Function.Properties, p.HasReturnParm = false ∧
          (p.HasReferenceParm = true ∨ p.HasOutParm = false) ∧ p.ValidName = name) := by
  refine ⟨_, _, GenerateFunction_body Function SuperCppName SuperName n, ?_, ?_, ?_, ?_, ?_⟩
  · intro name
    cases hn : Function.IsNative <;> simp
  · cases hn : Function.IsNative <;> simp
  · cases hn : Function.IsNative <;>
      cases ha : Function.Properties.any (fun p => p.HasReturnParm) <;> simp [ha]
  · intro name
    cases hn : Function.IsNative <;>
      cases ha : Function.Properties.any (fun p => p.HasReturnParm) <;>
      simp [ha, and_assoc]
  · intro name
    have hmem : BodyStatement.AssignParm name ∈
          (((Function.Properties.filter (fun p => !p.HasReturnParm)).map
            ClassifiedParameter).filter (fun Param => !Param.bIsOutPtr)).map
              (fun Param => BodyStatement.AssignParm Param.Name) ↔
        ∃ p ∈ Function.Properties, p.HasReturnParm = false ∧
          (p.HasReferenceParm = true ∨ p.HasOutParm = false) ∧ p.ValidName = name := by
      simp only [List.mem_map, List.mem_filter, BodyStatement.AssignParm.injEq]
      constructor
      · rintro ⟨q, ⟨⟨p, ⟨hp, hr⟩, rfl⟩, hq⟩, rfl⟩
        refine ⟨p, hp, by simpa using hr, ?_, (ClassifiedParameter_name p).symm⟩
        rw [ClassifiedParameter_bIsOutPtr] at hq
        cases h1 : p.HasReferenceParm <;> cases h2 : p.HasOutParm <;> simp [h1, h2] at hq ⊢
      · rintro ⟨p, hp, hr, hk, rfl⟩
        refine ⟨ClassifiedParameter p, ⟨⟨p, ⟨hp, by simpa using hr⟩, rfl⟩, ?_⟩,
          ClassifiedParameter_name p⟩
        rw [ClassifiedParameter_bIsOutPtr]
        rcases hk with hk | hk <;> simp [hk]
    cases hn : Function.IsNative
    · simpa using hmem
    · simpa using hmem

/-! ## Include directives: auxiliary lemmas -/

theorem AppendInclude_packages (ft : EIncludeFileType) (c : Bool) (i : Int)
    (out : List IncludeDirective) (hft : ft ≠ EIncludeFileType.Other) :
    AppendInclude ft c i out = out ++ [{ bCommentOut := c, FileType := ft, Package := i }] := by
  cases ft <;> simp [AppendInclude] at hft ⊢

theorem ForEachInclude_sim
    (visitI : Int → IncludeState → Option IncludeState)
    (visitS : Int → SorterState → Option SorterState)
    (h : ∀ d s, (visitI d s).map IncludeState.toSorter = visitS d s.toSorter) :
    ∀ (ds : List Int) (s : IncludeState),
      (ForEachInclude visitI ds s).map IncludeState.toSorter
        = ForEachDependency visitS ds s.toSorter := by
  intro ds
  induction ds with
  | nil => intro s; simp [ForEachInclude, ForEachDependency]
  | cons d rest ih =>
    intro s
    have hd := h d s
    simp only [ForEachInclude, ForEachDependency]
    cases hv : visitI d s with
    | none =>
      rw [hv] at hd
      simp only [Option.map_none'] at hd
      rw [← hd]
      simp
    | some s1 =>
      rw [hv] at hd
      simp only [Option.map_some'] at hd
      rw [← hd]
      exact ih s1

/-- Without a secondary manager and with a file type that has a directive, the include
walk is the sorted walk: same flags, and the directives name the emitted indices. -/
theorem GetIncludesForPackage_sim (g : Dependencies) (ft : EIncludeFileType) (c : Bool)
    (hft : ft ≠ EIncludeFileType.Other) :
    ∀ (fuel : Nat) (i : Int) (s : IncludeState),
      (GetIncludesForPackage fuel g none i ft c s).map IncludeState.toSorter
        = GenerateSorted g fuel i s.toSorter := by
  intro fuel
  induction fuel with
  | zero => intro i s; simp [GetIncludesForPackage, GenerateSorted]
  | succ n ih =>
    intro i s
    simp only [GetIncludesForPackage, GenerateSorted]
    by_cases hi : i ∈ s.Included
    · have hi' : i ∈ s.toSorter.Included := hi
      simp [hi, hi']
    · have hi' : i ∉ s.toSorter.Included := hi
      simp only [hi, hi', if_false]
      have hloop := ForEachInclude_sim
        (fun d t => GetIncludesForPackage n g none d ft c t) (GenerateSorted g n)
        (fun d t => ih d t) (DependenciesOf g i) { s with Included := i :: s.Included }
      have hstate : ({ s with Included := i :: s.Included } : IncludeState).toSorter
          = { s.toSorter with Included := i :: s.toSorter.Included } := rfl
      rw [hstate] at hloop
      rw [← hloop]
      cases hl : ForEachInclude (fun d t => GetIncludesForPackage n g none d ft c t)
          (DependenciesOf g i) { s with Included := i :: s.Included } with
      | none => simp
      | some s3 =>
        simp [IncludeState.toSorter, IncludedPackages, AppendInclude_packages ft c i _ hft]

theorem ForEachInclude_directives
    (visit : Int → IncludeState → Option IncludeState)
    (P : IncludeDirective → Prop)
    (h : ∀ d s s', visit d s = some s' → (∀ x ∈ s.OutRef, P x) → ∀ x ∈ s'.OutRef, P x) :
    ∀ (ds : List Int) (s s' : IncludeState), ForEachInclude visit ds s = some s' →
      (∀ x ∈ s.OutRef, P x) → ∀ x ∈ s'.OutRef, P x := by
  intro ds
  induction ds with
  | nil =>
    intro s s' hs hP
    simp [ForEachInclude] at hs
    subst hs; exact hP
  | cons d rest ih =>
    intro s s' hs hP
    simp only [ForEachInclude] at hs
    cases hv : visit d s with
    | none => simp [hv] at hs
    | some s1 =>
      simp only [hv] at hs
      exact ih s1 s' hs (h d s s1 hv hP)

theorem GetIncludesForPackage_directives (g : Dependencies) (ft : EIncludeFileType) (c : Bool) :
    ∀ (fuel : Nat) (i : Int) (s s' : IncludeState),
      GetIncludesForPackage fuel g none i ft c s = some s' →
      (∀ x ∈ s.OutRef, x.FileType = ft ∧ x.bCommentOut = c) →
      ∀ x ∈ s'.OutRef, x.FileType = ft ∧ x.bCommentOut = c := by
  intro fuel
  induction fuel with
  | zero => intro i s s' h; simp [GetIncludesForPackage] at h
  | succ n ih =>
    intro i s s' h hP
    simp only [GetIncludesForPackage] at h
    by_cases hi : i ∈ s.Included
    · simp only [hi, if_true, Option.some.injEq] at h
      subst h; exact hP
    · simp only [hi, if_false] at h
      cases hl : ForEachInclude (fun d t => GetIncludesForPackage n g none d ft c t)
          (DependenciesOf g i) { s with Included := i :: s.Included } with
      | none => simp [hl] at h
      | some s3 =>
        simp only [hl, Option.some.injEq] at h
        subst h
        have h3 := ForEachInclude_directives
          (fun d t => GetIncludesForPackage n g none d ft c t)
          (fun x => x.FileType = ft ∧ x.bCommentOut = c)
          (fun d t t' ht hPt => ih d t t' ht hPt) _ _ _ hl hP
        intro x hx
        cases ft <;> simp [AppendInclude] at hx <;>
          first
          | exact h3 x hx
          | (rcases hx with hx | hx
             · exact h3 x hx
             · subst hx; exact ⟨rfl, rfl⟩)

theorem GetIncludesForPackage_last (g : Dependencies) (ft : EIncludeFileType) (c : Bool)
    (hft : ft ≠ EIncludeFileType.Other) (fuel : Nat) (i : Int) (s s' : IncludeState)
    (hi : i ∉ s.Included) (h : GetIncludesForPackage fuel g none i ft c s = some s') :
    s'.OutRef.getLast? = some { bCommentOut := c, FileType := ft, Package := i } := by
  cases fuel with
  | zero => simp [GetIncludesForPackage] at h
  | succ n =>
    simp only [GetIncludesForPackage, hi, if_false] at h
    cases hl : ForEachInclude (fun d t => GetIncludesForPackage n g none d ft c t)
        (DependenciesOf g i) { s with Included := i :: s.Included } with
    | none => simp [hl] at h
    | some s3 =>
      simp only [hl, Option.some.injEq] at h
      subst h
      simp [AppendInclude_packages ft c i _ hft]

theorem ForEachInclude_withoutDirectives
    (visitA visitB : Int → IncludeState → Option IncludeState)
    (h : ∀ d s, (visitA d s).map IncludeState.withoutDirectives
      = visitB d s.withoutDirectives) :
    ∀ (ds : List Int) (s : IncludeState),
      (ForEachInclude visitA ds s).map IncludeState.withoutDirectives
        = ForEachInclude visitB ds s.withoutDirectives := by
  intro ds
  induction ds with
  | nil => intro s; simp [ForEachInclude]
  | cons d rest ih =>
    intro s
    have hd := h d s
    simp only [ForEachInclude]
    cases hv : visitA d s with
    | none =>
      rw [hv] at hd
      simp only [Option.map_none'] at hd
      rw [← hd]
      simp
    | some s1 =>
      rw [hv] at hd
      simp only [Option.map_some'] at hd
      rw [← hd]
      exact ih s1

/-- Without a secondary manager, the walk with any file type sets the flags that the
walk with a file type of the `default` label sets; the latter appends nothing. -/
theorem GetIncludesForPackage_withoutDirectives (g : Dependencies) (ft : EIncludeFileType)
    (c : Bool) :
    ∀ (fuel : Nat) (i : Int) (s : IncludeState),
      (GetIncludesForPackage fuel g none i ft c s).map IncludeState.withoutDirectives
        = GetIncludesForPackage fuel g none i EIncludeFileType.Other c s.withoutDirectives := by
  intro fuel
  induction fuel with
  | zero => intro i s; simp [GetIncludesForPackage]
  | succ n ih =>
    intro i s
    simp only [GetIncludesForPackage]
    by_cases hi : i ∈ s.Included
    · have hi' : i ∈ s.withoutDirectives.Included := hi
      simp [hi, hi']
    · have hi' : i ∉ s.withoutDirectives.Included := hi
      simp only [hi, hi', if_false]
      have hloop := ForEachInclude_withoutDirectives
        (fun d t => GetIncludesForPackage n g none d ft c t)
        (fun d t => GetIncludesForPackage n g none d EIncludeFileType.Other c t)
        (fun d t => ih d t) (DependenciesOf g i) { s with Included := i :: s.Included }
      have hstate : ({ s with Included := i :: s.Included } : IncludeState).withoutDirectives
          = { s.withoutDirectives with Included := i :: s.withoutDirectives.Included } := rfl
      rw [hstate] at hloop
      rw [← hloop]
      cases hl : ForEachInclude (fun d t => GetIncludesForPackage n g none d ft c t)
          (DependenciesOf g i) { s with Included := i :: s.Included } with
      | none => simp
      | some s3 => simp [IncludeState.withoutDirectives, AppendInclude]

/-! ## C15 -/

/-- C15, counterexample: on the 3-cycle, with no secondary table and a file type other
than `Struct`, `Class`, `Params`, the walk from package 0 sets the flags of 0, 1, 2 and
appends no directive, although package 0 is reachable from itself. -/
theorem C15_counterexample :
    GetIncludesForPackage 8 ThreeCycle none 0 EIncludeFileType.Other false {}
      = some { Included := [2, 1, 0], AdditionalIncluded := [], OutRef := [] } ∧
    Reachable ThreeCycle 0 0 :=
  ⟨by decide, Relation.ReflTransGen.refl⟩

/-- C15, amended: for every finite package dependency graph, cycles included, with all
visited marks unset and no secondary table, `GetIncludesForPackage` terminates (any
recursion bound above the number of indices the graph mentions suffices) and sets the
marks of exactly the packages reachable from `Index`, whatever the file type. With a file
type `Struct`, `Class` or `Params` it appends to `Out` exactly one directive, of that
file type and comment mode, for each package reachable from `Index` and none for any
other package; the directive of `Index` is last, and when the graph is acyclic every
package's directive comes after the directives of all packages it depends on. With any
other file type it appends nothing. -/
theorem C15_includes_reachable_once_in_post_order (g : Dependencies) (Index : Int)
    (FileType : EIncludeFileType) (bCommentOut : Bool) (fuel : Nat)
    (hfuel : (Nodes g [Index]).length < fuel) :
    ∃ s', GetIncludesForPackage fuel g none Index FileType bCommentOut {} = some s' ∧
      (∀ x, x ∈ s'.Included ↔ Reachable g Index x) ∧
      (FileType ≠ EIncludeFileType.Other →
        (IncludedPackages s'.OutRef).Nodup ∧
        (∀ x, x ∈ IncludedPackages s'.OutRef ↔ Reachable g Index x) ∧
        (∀ d ∈ s'.OutRef, d.FileType = FileType ∧ d.bCommentOut = bCommentOut) ∧
        s'.OutRef.getLast?
          = some { bCommentOut := bCommentOut, FileType := FileType, Package := Index } ∧
        (Acyclic g → DependenciesFirst g (IncludedPackages s'.OutRef))) ∧
      (FileType = EIncludeFileType.Other → s'.OutRef = []) := by
  obtain ⟨t, ht, hnd, hmem⟩ := GenerateSorted_reachable_once g Index fuel hfuel
  have hInc : ∀ x, x ∈ t.Included ↔ Reachable g Index x := by
    obtain ⟨L, e, inc, _⟩ := GenerateSorted_post g fuel Index {} t ht
    have hE : t.Emitted = L := by simpa using e
    intro x
    rw [← hmem x, hE]
    simpa using inc x
  have hempty : ({} : IncludeState).toSorter = {} := rfl
  by_cases hft : FileType = EIncludeFileType.Other
  · subst hft
    have hsim := GetIncludesForPackage_sim g EIncludeFileType.Struct bCommentOut (by decide)
      fuel Index {}
    rw [hempty, ht] at hsim
    cases hs : GetIncludesForPackage fuel g none Index EIncludeFileType.Struct bCommentOut {} with
    | none => rw [hs] at hsim; simp at hsim
    | some sS =>
      rw [hs] at hsim
      simp only [Option.map_some', Option.some.injEq] at hsim
      have herase := GetIncludesForPackage_withoutDirectives g EIncludeFileType.Struct
        bCommentOut fuel Index {}
      rw [hs] at herase
      have hnil : ({} : IncludeState).withoutDirectives = {} := rfl
      rw [hnil] at herase
      simp only [Option.map_some'] at herase
      refine ⟨sS.withoutDirectives, herase.symm, ?_, fun h => absurd rfl h, fun _ => rfl⟩
      intro x
      rw [← hInc x, ← hsim]
      exact Iff.rfl
  · have hsim := GetIncludesForPackage_sim g FileType bCommentOut hft fuel Index {}
    rw [hempty, ht] at hsim
    cases hs : GetIncludesForPackage fuel g none Index FileType bCommentOut {} with
    | none => rw [hs] at hsim; simp at hsim
    | some s' =>
      rw [hs] at hsim
      simp only [Option.map_some', Option.some.injEq] at hsim
      have hE : IncludedPackages s'.OutRef = t.Emitted := by rw [← hsim]; rfl
      refine ⟨s', rfl, ?_, fun _ => ⟨by rw [hE]; exact hnd, by rw [hE]; exact hmem, ?_, ?_, ?_⟩,
        fun h => absurd h hft⟩
      · intro x
        rw [← hInc x, ← hsim]
        exact Iff.rfl
      · exact GetIncludesForPackage_directives g FileType bCommentOut fuel Index {} s' hs
          (by simp)
      · exact GetIncludesForPackage_last g FileType bCommentOut hft fuel Index {} s'
          (by simp) hs
      · intro hac
        obtain ⟨t2, ht2, _, hord⟩ := GenerateSorted_top g hac [Index] fuel hfuel Index
          (by simp) {} (by simp [OnStack]) (by simp [DependenciesFirst])
        rw [ht] at ht2
        simp only [Option.some.injEq] at ht2
        rw [hE, ht2]
        exact hord

/-- C15, witness: the 3-cycle from package 0 with file type `Struct`: the marks of 0, 1,
2 are set and the directives of 2, 1, 0 are appended in this order. -/
theorem C15_witness :
    (Nodes ThreeCycle [0]).length < 8 ∧
    GetIncludesForPackage 8 ThreeCycle none 0 EIncludeFileType.Struct false {}
      = some { Included := [2, 1, 0], AdditionalIncluded := [],
               OutRef := [{ bCommentOut := false, FileType := EIncludeFileType.Struct, Package := 2 },
                          { bCommentOut := false, FileType := EIncludeFileType.Struct, Package := 1 },
                          { bCommentOut := false, FileType := EIncludeFileType.Struct, Package := 0 }] } ∧
    ∃ s', GetIncludesForPackage 8 ThreeCycle none 0 EIncludeFileType.Struct false {} = some s' ∧
      (∀ x, x ∈ s'.Included ↔ Reachable ThreeCycle 0 x) ∧
      (IncludedPackages s'.OutRef).Nodup ∧
      (∀ x, x ∈ IncludedPackages s'.OutRef ↔ Reachable ThreeCycle 0 x) ∧
      (∀ d ∈ s'.OutRef, d.FileType = EIncludeFileType.Struct ∧ d.bCommentOut = false) ∧
      s'.OutRef.getLast?
        = some { bCommentOut := false, FileType := EIncludeFileType.Struct, Package := 0 } ∧
      (Acyclic ThreeCycle → DependenciesFirst ThreeCycle (IncludedPackages s'.OutRef)) := by
  refine ⟨by decide, by decide, ?_⟩
  obtain ⟨s', h1, h2, h3, _⟩ := C15_includes_reachable_once_in_post_order ThreeCycle 0
    EIncludeFileType.Struct false 8 (by decide)
  exact ⟨s', h1, h2, h3 (by decide)⟩

/-! ## Dependency discovery: auxiliary lemmas -/

theorem DependenciesOf_AddDependency : ∀ (g : Dependencies) (a b x : Int),
    DependenciesOf (AddDependency g a b) x =
      if x = a then
        (if b ∈ DependenciesOf g a then DependenciesOf g a else DependenciesOf g a ++ [b])
      else DependenciesOf g x := by
  intro g
  induction g with
  | nil =>
    intro a b x
    by_cases hx : x = a
    · subst hx; simp [AddDependency, DependenciesOf, List.lookup]
    · have : (x == a) = false := by simpa using hx
      simp [AddDependency, DependenciesOf, List.lookup, this, hx]
  | cons e rest ih =>
    intro a b x
    obtain ⟨k, ds⟩ := e
    by_cases hak : a = k
    · subst hak
      by_cases hx : x = a
      · subst hx
        by_cases hb : b ∈ ds <;> simp [AddDependency, DependenciesOf, List.lookup, hb]
      · have : (x == a) = false := by simpa using hx
        by_cases hb : b ∈ ds <;> simp [AddDependency, DependenciesOf, List.lookup, this, hx]
    · have hka : (a == k) = false := by simpa using hak
      have ih' := ih a b x
      unfold DependenciesOf at ih' ⊢
      by_cases hxk : x = k
      · subst hxk
        have hxa : ¬ x = a := fun e => hak e.symm
        simp [AddDependency, hak, List.lookup, hxa, hka]
      · have hxk' : (x == k) = false := by simpa using hxk
        simp only [AddDependency, hak, if_false, List.lookup, hxk', hka]
        exact ih'

theorem AddDependency_edge (g : Dependencies) (a b : Int) :
    EdgeAdded g (AddDependency g a b) a b := by
  intro x y
  unfold DependsOn
  rw [DependenciesOf_AddDependency]
  by_cases hx : x = a
  · subst hx
    by_cases hb : b ∈ DependenciesOf g x
    · simp only [if_true, hb, true_and]
      constructor
      · intro h; exact Or.inl h
      · rintro (h | h)
        · exact h
        · rw [h]; exact hb
    · simp only [if_true, hb, if_false, List.mem_append, List.mem_singleton, true_and]
  · simp [hx]

/-! ## C16 -/

/-- C16: for every dependency `D` (index `Idx`) recorded for an owner `O` of package
`P`, with `Q` the outermost package of `D`: when `Q ≠ P`, the edge `P → Q` is added to
the class package graph if `D` is a class and to the struct package graph otherwise (the
other one is unchanged), the edge `P → Q` is added to the parameter-holder package
graph, and `ClassSorter` and `StructSorter` are unchanged; when `Q = P`, the edge
`O → D` is added to `ClassSorter` exactly when both are classes, to `StructSorter`
exactly when `O` is not a class and `D` is a non-class struct, and the three package
graphs are unchanged. -/
theorem C16_dependency_edges_routed (ObjectArray : Int → UEObject) (PackageIndex : Int)
    (Object : UEObject) (G : DependencyGraphs) (Idx : Int) :
    ((ObjectArray Idx).OutermostIndex ≠ PackageIndex →
      (if (ObjectArray Idx).IsClass = true then
        EdgeAdded G.PackageSorterClasses
            (RecordDependency ObjectArray PackageIndex Object G Idx).PackageSorterClasses
            PackageIndex (ObjectArray Idx).OutermostIndex ∧
          (RecordDependency ObjectArray PackageIndex Object G Idx).PackageSorterStructs
            = G.PackageSorterStructs
      else
        EdgeAdded G.PackageSorterStructs
            (RecordDependency ObjectArray PackageIndex Object G Idx).PackageSorterStructs
            PackageIndex (ObjectArray Idx).OutermostIndex ∧
          (RecordDependency ObjectArray PackageIndex Object G Idx).PackageSorterClasses
            = G.PackageSorterClasses) ∧
      EdgeAdded G.PackageSorterParams
        (RecordDependency ObjectArray PackageIndex Object G Idx).PackageSorterParams
        PackageIndex (ObjectArray Idx).OutermostIndex ∧
      (RecordDependency ObjectArray PackageIndex Object G Idx).ClassSorter = G.ClassSorter ∧
      (RecordDependency ObjectArray PackageIndex Object G Idx).StructSorter = G.StructSorter) ∧
    ((ObjectArray Idx).OutermostIndex = PackageIndex →
      (if Object.IsClass = true ∧ (ObjectArray Idx).IsClass = true then
        EdgeAdded G.ClassSorter
          (RecordDependency ObjectArray PackageIndex Object G Idx).ClassSorter Object.Index Idx
      else
        (RecordDependency ObjectArray PackageIndex Object G Idx).ClassSorter = G.ClassSorter) ∧
      (if Object.IsClass = false ∧ (ObjectArray Idx).IsStruct = true ∧
          (ObjectArray Idx).IsClass = false then
        EdgeAdded G.StructSorter
          (RecordDependency ObjectArray PackageIndex Object G Idx).StructSorter Object.Index Idx
      else
        (RecordDependency ObjectArray PackageIndex Object G Idx).StructSorter
          = G.StructSorter) ∧
      (RecordDependency ObjectArray PackageIndex Object G Idx).PackageSorterClasses
        = G.PackageSorterClasses ∧
      (RecordDependency ObjectArray PackageIndex Object G Idx).PackageSorterStructs
        = G.PackageSorterStructs ∧
      (RecordDependency ObjectArray PackageIndex Object G Idx).PackageSorterParams
        = G.PackageSorterParams) := by
  constructor
  · intro hq
    have hq' : PackageIndex ≠ (ObjectArray Idx).OutermostIndex := fun e => hq e.symm
    cases hc : (ObjectArray Idx).IsClass <;>
      simp [RecordDependency, hq', hc, AddDependency_edge]
  · intro hq
    have hq' : ¬ PackageIndex ≠ (ObjectArray Idx).OutermostIndex := by simp [hq]
    cases ho : Object.IsClass <;> cases hc : (ObjectArray Idx).IsClass <;>
      cases hs : (ObjectArray Idx).IsStruct <;>
      simp [RecordDependency, hq, ho, hc, hs, AddDependency_edge]

/-- C16, witness: owner class 10 of package 1. Its dependency on class 20 of package 2
adds the edge 1 → 2 to the class and parameter-holder package graphs only; its
dependency on struct 11 of its own package changes nothing. -/
theorem C16_witness :
    RecordDependencies ExampleObjects 1 (ExampleObjects 10) [20, 11] {}
      = { PackageSorterClasses := [(1, [2])], PackageSorterParams := [(1, [2])] } ∧
    (RecordDependency ExampleObjects 1 (ExampleObjects 10) {} 20).ClassSorter = [] ∧
    (RecordDependency ExampleObjects 1 (ExampleObjects 10) {} 11).StructSorter = [] :=
  ⟨by decide,
    ((C16_dependency_edges_routed ExampleObjects 1 (ExampleObjects 10) {} 20).1
      (by decide)).2.2.1,
    by
      have h := ((C16_dependency_edges_routed ExampleObjects 1 (ExampleObjects 10) {} 11).2
        (by decide)).2.1
      simpa [ExampleObjects] using h⟩

/-! ## C17 -/

/-- C17, the code at a collection of three pairs (the return value and the parameters
`A`, `B`): `begin()` and `end()` are the same iterator `TypeNamePairs.begin() + 1`, so
the iteration visits nothing, not the pairs at positions 1 and 2; the same holds for
every collection. -/
theorem C17_iteration_visits_nothing :
    ExampleParams.begin = ExampleParams.end_ ∧
    ExampleParams.Visited = [] ∧
    ExampleParams.TypeNamePairs.drop 1 = [("int32", "A"), ("float", "B")] ∧
    ∀ pc : ParamCollection, pc.Visited = [] := by
  refine ⟨rfl, by decide, by decide, ?_⟩
  intro pc
  simp [ParamCollection.Visited, VisitRange, ParamCollection.begin, ParamCollection.end_]

/-! ## Bitfield groups: auxiliary lemmas -/

theorem BitWidth_ExpectedGroup : ∀ (fs : List UEProperty) (cursor : Int) (n : Nat),
    (∀ f ∈ fs, IsBitField f = true) →
    (∀ f ∈ fs.head?, cursor ≤ GetBitIndex f) →
    fs.Chain' (fun a b => GetBitIndex a < GetBitIndex b) →
    BitWidth (ExpectedGroup cursor n fs) = 9 - cursor := by
  intro fs
  induction fs with
  | nil =>
    intro cursor n _ _ _
    by_cases h : cursor = 9
    · simp [ExpectedGroup, BitWidth, h]
    · simp [ExpectedGroup, BitWidth, h]
  | cons f rest ih =>
    intro cursor n hbit hhead hchain
    have hf : IsBitField f = true := hbit f (by simp)
    have hle : cursor ≤ GetBitIndex f := hhead f (by simp)
    have hnext : ∀ g ∈ rest.head?, GetBitIndex f + 1 ≤ GetBitIndex g := by
      intro g hg
      cases rest with
      | nil => simp at hg
      | cons g' rest' =>
        simp at hg; subst hg
        have := (List.chain'_cons.mp hchain).1
        omega
    have hchain' := (List.chain'_cons'.mp hchain).2
    have hrest : ∀ g ∈ rest, IsBitField g = true := fun g hg => hbit g (by simp [hg])
    by_cases h : cursor < GetBitIndex f
    · simp only [ExpectedGroup, h, if_true, BitWidth, hf]
      rw [ih _ _ hrest hnext hchain']
      ring
    · have : cursor = GetBitIndex f := by omega
      simp only [ExpectedGroup, h, if_false, BitWidth, hf, if_true]
      rw [ih _ _ hrest hnext hchain']
      omega

/-- The loop over the remaining fields of a group, followed by the completion pad the
next step inserts, is the expected group. -/
theorem loop_in_group (o : Int) : ∀ (fs : List UEProperty) (v : LoopVars) (c : PadCounters)
    (cursor : Int), InGroup o cursor v →
    (∀ f ∈ fs, IsBitField f = true ∧ f.Offset = o ∧ PropertySize f = 1) →
    (∃ cursor', InGroup o cursor' (GenerateMembersLoop fs v c).2.1) ∧
    (GenerateMembersLoop fs v c).1 ++
        (if (GenerateMembersLoop fs v c).2.1.PrevBoolPropertyBit ≠ 9 then
          [Member.BitPadding (GenerateMembersLoop fs v c).2.2.BitPadNum
            (9 - (GenerateMembersLoop fs v c).2.1.PrevBoolPropertyBit)]
        else [])
      = ExpectedGroup cursor c.BitPadNum fs := by
  intro fs
  induction fs with
  | nil =>
    intro v c cursor hv _
    obtain ⟨_, _, _, h4⟩ := hv
    refine ⟨⟨cursor, by assumption, by assumption, by assumption, h4⟩, ?_⟩
    simp [GenerateMembersLoop, ExpectedGroup, h4]
  | cons f rest ih =>
    intro v c cursor hv hfs
    obtain ⟨h1, h2, h3, h4⟩ := hv
    obtain ⟨hb, ho, hs⟩ := hfs f (by simp)
    have hrest : ∀ g ∈ rest, IsBitField g = true ∧ g.Offset = o ∧ PropertySize g = 1 :=
      fun g hg => hfs g (by simp [hg])
    obtain ⟨bl, pe, be, bb⟩ := v
    simp only at h1 h2 h3 h4
    subst bl pe be bb
    have hlt : ¬ (o + 1 ≤ f.Offset) := by omega
    have hlt2 : ¬ (o + 1 < f.Offset) := by omega
    have hlt3 : ¬ (o < f.Offset) := by omega
    have hstep : GenerateMembersStep
        { bLastPropertyWasBitField := true, PrevPropertyEnd := o + 1,
          PrevBoolPropertyEnd := o, PrevBoolPropertyBit := cursor } c f
        = ((if cursor < GetBitIndex f then
              [Member.BitPadding c.BitPadNum (GetBitIndex f - cursor)] else []) ++
            [Member.Property f (PropertySize f)],
          { bLastPropertyWasBitField := true, PrevPropertyEnd := o + 1,
            PrevBoolPropertyEnd := o, PrevBoolPropertyBit := GetBitIndex f + 1 },
          if cursor < GetBitIndex f then
            { c with BitPadNum := (c.BitPadNum + 1) % 2 ^ 32 } else c) := by
      by_cases hc : cursor < GetBitIndex f
      · simp [GenerateMembersStep, hb, hlt, hlt2, hlt3, hc, GenerateBitPadding, ho, hs]
      · simp [GenerateMembersStep, hb, hlt, hlt2, hlt3, hc, ho, hs]
    simp only [GenerateMembersLoop, hstep]
    have hin : InGroup o (GetBitIndex f + 1)
        { bLastPropertyWasBitField := true, PrevPropertyEnd := o + 1,
          PrevBoolPropertyEnd := o, PrevBoolPropertyBit := GetBitIndex f + 1 } :=
      ⟨rfl, rfl, rfl, rfl⟩
    obtain ⟨ih1, ih2⟩ := ih _ (if cursor < GetBitIndex f then
        { c with BitPadNum := (c.BitPadNum + 1) % 2 ^ 32 } else c) _ hin hrest
    refine ⟨ih1, ?_⟩
    rw [List.append_assoc, ih2]
    by_cases hc : cursor < GetBitIndex f
    · simp [ExpectedGroup, hc]
    · simp [ExpectedGroup, hc]

/-- The first field of a group: after the padding that reaches its byte, the step emits
the field's bit pad (against bit cursor 1) and the field, and enters the group. -/
theorem step_enter_group (o : Int) (v : LoopVars) (c : PadCounters) (f : UEProperty)
    (hb : IsBitField f = true) (ho : f.Offset = o) (hs : PropertySize f = 1)
    (hcur : v.PrevBoolPropertyEnd < o ∨ v.PrevBoolPropertyBit = 1) :
    ∃ lead c', (∀ m ∈ lead, IsPadding m = true) ∧
      (GenerateMembersStep v c f).1 = lead ++
        ((if (1 : Int) < GetBitIndex f then
            [Member.BitPadding c'.BitPadNum (GetBitIndex f - 1)] else []) ++
          [Member.Property f (PropertySize f)]) ∧
      (GenerateMembersStep v c f).2.2 =
        (if (1 : Int) < GetBitIndex f then
          { c' with BitPadNum := (c'.BitPadNum + 1) % 2 ^ 32 } else c') ∧
      InGroup o (GetBitIndex f + 1) (GenerateMembersStep v c f).2.1 := by
  have hcursor : (if v.PrevBoolPropertyEnd < f.Offset then 1 else v.PrevBoolPropertyBit) = 1 := by
    rcases hcur with h | h
    · simp [ho, h]
    · simp [h]
  refine ⟨(AddPaddingIf
      (decide (f.Offset ≥ v.PrevPropertyEnd) &&
        (v.bLastPropertyWasBitField && decide (v.PrevBoolPropertyBit ≠ 9)))
      (GenerateBitPadding f.Offset (9 - v.PrevBoolPropertyBit)) c).1 ++
    (AddPaddingIf
      (decide (f.Offset ≥ v.PrevPropertyEnd) && decide (f.Offset > v.PrevPropertyEnd))
      (GenerateBytePadding v.PrevPropertyEnd (f.Offset - v.PrevPropertyEnd)
        PadReason.MissedOffset)
      (AddPaddingIf
        (decide (f.Offset ≥ v.PrevPropertyEnd) &&
          (v.bLastPropertyWasBitField && decide (v.PrevBoolPropertyBit ≠ 9)))
        (GenerateBitPadding f.Offset (9 - v.PrevBoolPropertyBit)) c).2).1,
    (AddPaddingIf
      (decide (f.Offset ≥ v.PrevPropertyEnd) && decide (f.Offset > v.PrevPropertyEnd))
      (GenerateBytePadding v.PrevPropertyEnd (f.Offset - v.PrevPropertyEnd)
        PadReason.MissedOffset)
      (AddPaddingIf
        (decide (f.Offset ≥ v.PrevPropertyEnd) &&
          (v.bLastPropertyWasBitField && decide (v.PrevBoolPropertyBit ≠ 9)))
        (GenerateBitPadding f.Offset (9 - v.PrevBoolPropertyBit)) c).2).2, ?_, ?_, ?_, ?_⟩
  · intro m hm
    simp only [AddPaddingIf, GenerateBitPadding, GenerateBytePadding, List.mem_append] at hm
    rcases hm with hm | hm
    · split_ifs at hm <;> simp at hm
      all_goals (subst hm; rfl)
    · split_ifs at hm <;> simp at hm
      all_goals (subst hm; rfl)
  · simp only [GenerateMembersStep, hb, if_true, hcursor, List.append_assoc]
    by_cases h1 : (1 : Int) < GetBitIndex f <;> simp [h1, GenerateBitPadding]
  · simp only [GenerateMembersStep, hb, if_true, hcursor]
    by_cases h1 : (1 : Int) < GetBitIndex f <;> simp [h1, GenerateBitPadding]
  · simp only [GenerateMembersStep, hb, if_true]
    exact ⟨rfl, by simp [ho, hs], by simp [ho], rfl⟩

/-- The field after a group: its step first emits the completion pad. -/
theorem step_leave_group (o cursor : Int) (v : LoopVars) (c : PadCounters) (f : UEProperty)
    (hv : InGroup o cursor v) (hnext : o < f.Offset) :
    ∃ more, (GenerateMembersStep v c f).1 =
      (if v.PrevBoolPropertyBit ≠ 9 then
          [Member.BitPadding c.BitPadNum (9 - v.PrevBoolPropertyBit)] else []) ++
        (more ++ [Member.Property f (PropertySize f)]) ∧
      ∀ m ∈ more, IsPadding m = true := by
  obtain ⟨h1, h2, h3, h4⟩ := hv
  have hge : f.Offset ≥ v.PrevPropertyEnd := by omega
  by_cases hb : IsBitField f = true
  · refine ⟨(AddPaddingIf (decide (f.Offset ≥ v.PrevPropertyEnd) &&
        decide (f.Offset > v.PrevPropertyEnd))
        (GenerateBytePadding v.PrevPropertyEnd (f.Offset - v.PrevPropertyEnd)
          PadReason.MissedOffset)
        (AddPaddingIf (decide (f.Offset ≥ v.PrevPropertyEnd) &&
          (v.bLastPropertyWasBitField && decide (v.PrevBoolPropertyBit ≠ 9)))
          (GenerateBitPadding f.Offset (9 - v.PrevBoolPropertyBit)) c).2).1 ++
      (AddPaddingIf (decide ((if v.PrevBoolPropertyEnd < f.Offset then 1
          else v.PrevBoolPropertyBit) < GetBitIndex f))
        (GenerateBitPadding f.Offset (GetBitIndex f -
          (if v.PrevBoolPropertyEnd < f.Offset then 1 else v.PrevBoolPropertyBit)))
        (AddPaddingIf (decide (f.Offset ≥ v.PrevPropertyEnd) &&
          decide (f.Offset > v.PrevPropertyEnd))
          (GenerateBytePadding v.PrevPropertyEnd (f.Offset - v.PrevPropertyEnd)
            PadReason.MissedOffset)
          (AddPaddingIf (decide (f.Offset ≥ v.PrevPropertyEnd) &&
            (v.bLastPropertyWasBitField && decide (v.PrevBoolPropertyBit ≠ 9)))
            (GenerateBitPadding f.Offset (9 - v.PrevBoolPropertyBit)) c).2).2).1, ?_, ?_⟩
    · simp only [GenerateMembersStep, hb, if_true, List.append_assoc]
      congr 1
      by_cases h9 : v.PrevBoolPropertyBit = 9 <;>
        simp [AddPaddingIf, hge, h1, h9, GenerateBitPadding]
    · intro m hm
      simp only [AddPaddingIf, GenerateBitPadding, GenerateBytePadding, List.mem_append] at hm
      rcases hm with hm | hm
      · split_ifs at hm <;> simp at hm
        all_goals (subst hm; rfl)
      · split_ifs at hm <;> simp at hm
        all_goals (subst hm; rfl)
  · refine ⟨(AddPaddingIf (decide (f.Offset ≥ v.PrevPropertyEnd) &&
        decide (f.Offset > v.PrevPropertyEnd))
        (GenerateBytePadding v.PrevPropertyEnd (f.Offset - v.PrevPropertyEnd)
          PadReason.MissedOffset)
        (AddPaddingIf (decide (f.Offset ≥ v.PrevPropertyEnd) &&
          (v.bLastPropertyWasBitField && decide (v.PrevBoolPropertyBit ≠ 9)))
          (GenerateBitPadding f.Offset (9 - v.PrevBoolPropertyBit)) c).2).1, ?_, ?_⟩
    · simp only [GenerateMembersStep, hb, List.append_assoc]
      simp only [Bool.false_eq_true, if_false]
      congr 1
      by_cases h9 : v.PrevBoolPropertyBit = 9 <;>
        simp [AddPaddingIf, hge, h1, h9, GenerateBitPadding]
    · intro m hm
      simp only [AddPaddingIf, GenerateBytePadding] at hm
      split_ifs at hm <;> simp at hm
      all_goals (subst hm; rfl)

/-- Before a group is reached the bit cursor is 1 or will be reset to 1. -/
theorem loop_cursor_before_group (o : Int) : ∀ (pre : List UEProperty) (v : LoopVars)
    (c : PadCounters),
    (v.PrevBoolPropertyEnd < o ∨ v.PrevBoolPropertyBit = 1) →
    (∀ f ∈ pre, IsBitField f = true → f.Offset < o) →
    ((GenerateMembersLoop pre v c).2.1.PrevBoolPropertyEnd < o ∨
      (GenerateMembersLoop pre v c).2.1.PrevBoolPropertyBit = 1) := by
  intro pre
  induction pre with
  | nil => intro v c hv _; simpa [GenerateMembersLoop] using hv
  | cons f rest ih =>
    intro v c hv hpre
    simp only [GenerateMembersLoop]
    apply ih
    · by_cases hb : IsBitField f = true
      · left
        have := hpre f (by simp) hb
        simp [GenerateMembersStep, hb, this]
      · simp only [GenerateMembersStep, hb]
        simpa using hv
    · intro g hg; exact hpre g (by simp [hg])

/-! ## C19 -/

/-- C19: for every group of bit-packed booleans of byte size 1 that share the byte
offset `o` (no earlier field of the sorted list is a bit-packed boolean at `o`), with
strictly ascending bit indices between 1 and 8, that is followed in the sorted field
list by a field at a later byte offset: the output of `GenerateMembers` contains, after
the members of the earlier fields and the padding that reaches the group's byte, exactly
the group as the spec words it - before each field a bit pad when its bit index is ahead
of the bit cursor (which starts at 1), and after the last field the completion pad of
`9 - bitCursor` bits, ahead of any byte pad and of the next field - and the declared bit
widths of these members (1 per field plus the width of every bit pad) sum to 8. -/
theorem C19_bitfield_group_widths_sum_to_eight
    (Table : String → Option (List PredefinedMember))
    (pre group post : List UEProperty) (next : UEProperty) (SuperName : String)
    (StructSize SuperSize : Int) (c : PadCounters) (o : Int)
    (hne : group ≠ [])
    (hgroup : ∀ f ∈ group, IsBitField f = true ∧ f.Offset = o ∧ PropertySize f = 1 ∧
      1 ≤ GetBitIndex f ∧ GetBitIndex f ≤ 8)
    (hasc : group.Chain' (fun a b => GetBitIndex a < GetBitIndex b))
    (hsorted : (pre ++ group ++ next :: post).Pairwise (fun a b => a.Offset ≤ b.Offset))
    (hwhole : ∀ f ∈ pre, IsBitField f = true → f.Offset ≠ o)
    (hnext : o < next.Offset) :
    ∃ n lead more rest,
      (GenerateMembers Table (pre ++ group ++ next :: post) SuperName StructSize SuperSize c).1
        = ((GenerateMembersLoop pre (InitialVars SuperSize) c).1 ++ lead) ++
          ExpectedGroup 1 n group ++
          (more ++ Member.Property next (PropertySize next) :: rest) ∧
      (∀ m ∈ lead, IsPadding m = true) ∧ (∀ m ∈ more, IsPadding m = true) ∧
      BitWidth (ExpectedGroup 1 n group) = 8 := by
  obtain ⟨first, restg, hg⟩ := List.exists_cons_of_ne_nil hne
  subst hg
  -- earlier bit-packed booleans lie at smaller offsets
  have hpre : ∀ f ∈ pre, IsBitField f = true → f.Offset < o := by
    intro f hf hb
    have hle : f.Offset ≤ first.Offset :=
      (List.pairwise_append.mp (List.pairwise_append.mp hsorted).1).2.2 f hf first (by simp)
    have := hwhole f hf hb
    have ho := (hgroup first (by simp)).2.1
    omega
  have hfirst := hgroup first (by simp)
  have hcur := loop_cursor_before_group o pre (InitialVars SuperSize) c
    (Or.inr (by simp [InitialVars])) hpre
  -- the three phases
  obtain ⟨lead, c', hlead, hstep1, hcount1, hin1⟩ := step_enter_group o
    (GenerateMembersLoop pre (InitialVars SuperSize) c).2.1
    (GenerateMembersLoop pre (InitialVars SuperSize) c).2.2 first
    hfirst.1 hfirst.2.1 hfirst.2.2.1 hcur
  have hrestg : ∀ f ∈ restg, IsBitField f = true ∧ f.Offset = o ∧ PropertySize f = 1 :=
    fun f hf => ⟨(hgroup f (by simp [hf])).1, (hgroup f (by simp [hf])).2.1,
      (hgroup f (by simp [hf])).2.2.1⟩
  obtain ⟨⟨cursor', hin2⟩, hbody⟩ := loop_in_group o restg _
    (GenerateMembersStep (GenerateMembersLoop pre (InitialVars SuperSize) c).2.1
      (GenerateMembersLoop pre (InitialVars SuperSize) c).2.2 first).2.2
    (GetBitIndex first + 1) hin1 hrestg
  obtain ⟨more, hstep3, hmore⟩ := step_leave_group o cursor' _
    (GenerateMembersLoop restg
      (GenerateMembersStep (GenerateMembersLoop pre (InitialVars SuperSize) c).2.1
        (GenerateMembersLoop pre (InitialVars SuperSize) c).2.2 first).2.1
      (GenerateMembersStep (GenerateMembersLoop pre (InitialVars SuperSize) c).2.1
        (GenerateMembersLoop pre (InitialVars SuperSize) c).2.2 first).2.2).2.2
    next hin2 hnext
  have hwidth : BitWidth (ExpectedGroup 1 c'.BitPadNum (first :: restg)) = 8 := by
    have := BitWidth_ExpectedGroup (first :: restg) 1 c'.BitPadNum
      (fun f hf => (hgroup f hf).1)
      (fun f hf => by simp at hf; subst hf; exact hfirst.2.2.2.1) hasc
    omega
  have hexp : ExpectedGroup 1 c'.BitPadNum (first :: restg)
      = ((if (1 : Int) < GetBitIndex first then
            [Member.BitPadding c'.BitPadNum (GetBitIndex first - 1)] else []) ++
          [Member.Property first (PropertySize first)]) ++
        ExpectedGroup (GetBitIndex first + 1)
          (GenerateMembersStep (GenerateMembersLoop pre (InitialVars SuperSize) c).2.1
            (GenerateMembersLoop pre (InitialVars SuperSize) c).2.2 first).2.2.BitPadNum
          restg := by
    rw [hcount1]
    by_cases h1 : (1 : Int) < GetBitIndex first <;> simp [ExpectedGroup, h1]
  have key : ∃ rest,
      (GenerateMembers Table (pre ++ first :: restg ++ next :: post) SuperName StructSize
          SuperSize c).1
        = ((GenerateMembersLoop pre (InitialVars SuperSize) c).1 ++ lead) ++
          ExpectedGroup 1 c'.BitPadNum (first :: restg) ++
          (more ++ Member.Property next (PropertySize next) :: rest) := by
    have hnonempty : pre ++ first :: restg ++ next :: post ≠ [] := by simp
    rw [GenerateMembers_nonempty Table _ SuperName StructSize SuperSize c hnonempty,
      generic_shape]
    have hsplit : pre ++ first :: restg ++ next :: post
        = pre ++ (first :: (restg ++ next :: post)) := by simp
    rw [hsplit, loop_append pre]
    simp only [GenerateMembersLoop]
    rw [loop_append restg]
    simp only [GenerateMembersLoop]
    rw [hstep1, hstep3, hexp, ← hbody]
    simp only [List.append_assoc, List.singleton_append, List.cons_append, List.nil_append]
    exact ⟨_, rfl⟩
  obtain ⟨rest, hrest⟩ := key
  exact ⟨c'.BitPadNum, lead, more, rest, hrest, hlead, hmore, hwidth⟩

/-- C19, witness: the group with bit indices 2 and 5 at byte offset 0, followed by a
bit-packed boolean at offset 1: bit pad 1, field, bit pad 2, field, completion pad 3. -/
theorem C19_witness :
    ExpectedGroup 1 0 [BitField "a" 0 1 2, BitField "b" 0 1 5]
      = [Member.BitPadding 0 1, Member.Property (BitField "a" 0 1 2) 1,
          Member.BitPadding 1 2, Member.Property (BitField "b" 0 1 5) 1,
          Member.BitPadding 2 3] ∧
    ∃ n lead more rest,
      (GenerateMembers NoOverrides
          ([] ++ [BitField "a" 0 1 2, BitField "b" 0 1 5] ++
            BitField "c" 1 1 1 :: [PlainField "X" "int32" 4 4]) "S" 8 0 {}).1
        = ((GenerateMembersLoop [] (InitialVars 0) {}).1 ++ lead) ++
          ExpectedGroup 1 n [BitField "a" 0 1 2, BitField "b" 0 1 5] ++
          (more ++ Member.Property (BitField "c" 1 1 1) (PropertySize (BitField "c" 1 1 1)) ::
            rest) ∧
      (∀ m ∈ lead, IsPadding m = true) ∧ (∀ m ∈ more, IsPadding m = true) ∧
      BitWidth (ExpectedGroup 1 n [BitField "a" 0 1 2, BitField "b" 0 1 5]) = 8 :=
  ⟨by decide,
    C19_bitfield_group_widths_sum_to_eight NoOverrides []
      [BitField "a" 0 1 2, BitField "b" 0 1 5] [PlainField "X" "int32" 4 4]
      (BitField "c" 1 1 1) "S" 8 0 {} 0
      (by simp) (by decide)
      (by simp only [List.chain'_cons, List.chain'_singleton]; decide)
      (by simp [BitField, PlainField]) (by simp) (by decide)⟩

/-! ## Field order: auxiliary lemmas -/

theorem SortCompare_offset_le (a b : UEProperty) (h : SortCompare a b = true) :
    a.Offset ≤ b.Offset := by
  unfold SortCompare at h
  split_ifs at h with h1 h2
  · exact le_of_eq h2
  · exact le_of_lt (by simpa using h)
  · exact le_of_lt (by simpa using h)

theorem SortCompare_of_offset_lt (a b : UEProperty) (h : a.Offset < b.Offset) :
    SortCompare a b = true := by
  unfold SortCompare
  split_ifs with h1 h2
  · omega
  · simpa using h
  · simpa using h

theorem SortCompare_same_offset (a b : UEProperty) (h : a.Offset = b.Offset) :
    SortCompare a b = true ↔
      a.IsBoolProperty = true ∧ b.IsBoolProperty = true ∧ GetFieldMask a < GetFieldMask b := by
  unfold SortCompare
  cases ha : a.IsBoolProperty <;> cases hb : b.IsBoolProperty <;> simp [h]

theorem Incomparable_offset (a b : UEProperty) (h : Incomparable a b) :
    a.Offset = b.Offset := by
  obtain ⟨h1, h2⟩ := h
  rcases lt_trichotomy a.Offset b.Offset with hlt | heq | hgt
  · rw [SortCompare_of_offset_lt a b hlt] at h1; exact absurd h1 (by simp)
  · exact heq
  · rw [SortCompare_of_offset_lt b a hgt] at h2; exact absurd h2 (by simp)

/-! ## C24 -/

/-- C24, counterexample: at offset 0, a boolean `a` with field mask 1, a property `X`
that is not a boolean, and a boolean `b` with field mask 2. `a` and `X` are incomparable,
`X` and `b` are incomparable, and `a` is ordered before `b`: the incomparability relation
is not transitive. -/
theorem C24_counterexample :
    Incomparable (MaskedBool "a" 0 1) (PlainField "X" "int32" 0 4) ∧
    Incomparable (PlainField "X" "int32" 0 4) (MaskedBool "b" 0 2) ∧
    ¬ Incomparable (MaskedBool "a" 0 1) (MaskedBool "b" 0 2) := by
  unfold Incomparable
  decide

/-- C24, amended: on arbitrary properties the comparison is irreflexive and transitive;
its incomparability relation is transitive on properties among which none that is not a
boolean shares its offset with a boolean. -/
theorem C24_comparison_strict_order (a b c : UEProperty) :
    SortCompare a a = false ∧
    (SortCompare a b = true → SortCompare b c = true → SortCompare a c = true) ∧
    (SameKindAtSameOffset a b → SameKindAtSameOffset b c →
      Incomparable a b → Incomparable b c → Incomparable a c) := by
  refine ⟨?_, ?_, ?_⟩
  · have h := SortCompare_same_offset a a rfl
    cases hc : SortCompare a a
    · rfl
    · exact absurd (h.mp hc).2.2 (lt_irrefl _)
  · intro hab hbc
    have h1 := SortCompare_offset_le a b hab
    have h2 := SortCompare_offset_le b c hbc
    rcases lt_or_eq_of_le h1 with hlt | heq
    · exact SortCompare_of_offset_lt a c (lt_of_lt_of_le hlt h2)
    · rcases lt_or_eq_of_le h2 with hlt2 | heq2
      · exact SortCompare_of_offset_lt a c (lt_of_le_of_lt h1 hlt2)
      · obtain ⟨ha, _, m1⟩ := (SortCompare_same_offset a b heq).mp hab
        obtain ⟨_, hc, m2⟩ := (SortCompare_same_offset b c heq2).mp hbc
        exact (SortCompare_same_offset a c (heq.trans heq2)).mpr ⟨ha, hc, lt_trans m1 m2⟩
  · intro k1 k2 i1 i2
    have o1 := Incomparable_offset a b i1
    have o2 := Incomparable_offset b c i2
    have e1 := k1 o1
    have e2 := k2 o2
    obtain ⟨p1, p2⟩ := i1
    obtain ⟨q1, q2⟩ := i2
    have n1 : ¬ SortCompare a b = true := by simp [p1]
    have n2 : ¬ SortCompare b a = true := by simp [p2]
    have n3 : ¬ SortCompare b c = true := by simp [q1]
    have n4 : ¬ SortCompare c b = true := by simp [q2]
    rw [SortCompare_same_offset a b o1] at n1
    rw [SortCompare_same_offset b a o1.symm] at n2
    rw [SortCompare_same_offset b c o2] at n3
    rw [SortCompare_same_offset c b o2.symm] at n4
    constructor
    · cases hc : SortCompare a c
      · rfl
      · obtain ⟨ha, hcc, m⟩ := (SortCompare_same_offset a c (o1.trans o2)).mp hc
        have hb : b.IsBoolProperty = true := by rw [← e1]; exact ha
        have m1 : ¬ GetFieldMask a < GetFieldMask b := fun h => n1 ⟨ha, hb, h⟩
        have m2 : ¬ GetFieldMask b < GetFieldMask c := fun h => n3 ⟨hb, hcc, h⟩
        omega
    · cases hc : SortCompare c a
      · rfl
      · obtain ⟨hcc, ha, m⟩ := (SortCompare_same_offset c a (o1.trans o2).symm).mp hc
        have hb : b.IsBoolProperty = true := by rw [← e1]; exact ha
        have m1 : ¬ GetFieldMask b < GetFieldMask a := fun h => n2 ⟨hb, ha, h⟩
        have m2 : ¬ GetFieldMask c < GetFieldMask b := fun h => n4 ⟨hcc, hb, h⟩
        omega

/-- C24, witness: the booleans `a`, `b`, `c` at offset 0 with field masks 1, 2, 4 are
ordered by mask, so `a` is ordered before `c`; the fields `X`, `Y`, `Z` at offsets 0, 0, 0
are pairwise incomparable. -/
theorem C24_witness :
    SortCompare (MaskedBool "a" 0 1) (MaskedBool "b" 0 2) = true ∧
    SortCompare (MaskedBool "b" 0 2) (MaskedBool "c" 0 4) = true ∧
    SortCompare (MaskedBool "a" 0 1) (MaskedBool "c" 0 4) = true ∧
    Incomparable (PlainField "X" "int32" 0 4) (PlainField "Z" "int32" 0 4) :=
  ⟨by decide, by decide,
    (C24_comparison_strict_order (MaskedBool "a" 0 1) (MaskedBool "b" 0 2)
      (MaskedBool "c" 0 4)).2.1 (by decide) (by decide),
    (C24_comparison_strict_order (PlainField "X" "int32" 0 4) (PlainField "Y" "int32" 0 4)
      (PlainField "Z" "int32" 0 4)).2.2
      (by unfold SameKindAtSameOffset; decide) (by unfold SameKindAtSameOffset; decide)
      (by unfold Incomparable; decide) (by unfold Incomparable; decide)⟩

/-! ## Repeated calls of the sorted walk -/

theorem GenerateSorted_marked (g : Dependencies) (fuel : Nat) (Index : Int) (s : SorterState)
    (h : Index ∈ s.Included) : GenerateSorted g (fuel + 1) Index s = some s := by
  simp [GenerateSorted, h]

theorem GenerateSorted_idempotent (g : Dependencies) (Index : Int) (fuel : Nat)
    (s : SorterState) (hfuel : (Nodes g [Index]).length < fuel) :
    (Index ∈ s.Included → GenerateSorted g fuel Index s = some s) ∧
    ∃ s', GenerateSorted g fuel Index s = some s' ∧
      GenerateSorted g fuel Index s' = some s' ∧
      ∀ x ∈ s.Included, x ∈ s'.Included := by
  obtain ⟨n, rfl⟩ : ∃ n, fuel = n + 1 := ⟨fuel - 1, by omega⟩
  refine ⟨GenerateSorted_marked g n Index s, ?_⟩
  have hcard : ((Nodes g [Index]).toFinset \ s.Included.toFinset).card < n + 1 := by
    have h1 : ((Nodes g [Index]).toFinset \ s.Included.toFinset).card
        ≤ (Nodes g [Index]).toFinset.card := Finset.card_le_card Finset.sdiff_subset
    have h2 := List.toFinset_card_le (Nodes g [Index])
    omega
  obtain ⟨s', hs'⟩ := GenerateSorted_terminates g (Nodes g [Index]).toFinset
    (fun x d h => DependenciesOf_mem_Nodes g [Index] x d h) (n + 1) Index s
    (by simp [Nodes]) hcard
  obtain ⟨L, _, inc, _, _, roots, _, _⟩ := GenerateSorted_post g (n + 1) Index s s' hs'
  exact ⟨s', hs', GenerateSorted_marked g n Index s' (roots Index (by simp)),
    fun x hx => (inc x).mpr (Or.inl hx)⟩

/-! ## C22 -/

/-- C22: for every finite dependency graph, every state of the visited marks and any
recursion bound above the number of indices the graph mentions, `GenerateStructSorted`
and `GenerateClassSorted` return; called on an index whose mark is set they leave the
marks and the emission list as they are; calling one again on the same index right after
a call leaves the marks and the emission list of the first call; and every mark set
before a call is set after it. -/
theorem C22_sorted_walk_idempotent (g : Dependencies) (Index : Int) (fuel : Nat)
    (s : SorterState) (hfuel : (Nodes g [Index]).length < fuel) :
    ((Index ∈ s.Included → GenerateStructSorted g fuel Index s = some s) ∧
      ∃ s', GenerateStructSorted g fuel Index s = some s' ∧
        GenerateStructSorted g fuel Index s' = some s' ∧
        ∀ x ∈ s.Included, x ∈ s'.Included) ∧
    ((Index ∈ s.Included → GenerateClassSorted g fuel Index s = some s) ∧
      ∃ s', GenerateClassSorted g fuel Index s = some s' ∧
        GenerateClassSorted g fuel Index s' = some s' ∧
        ∀ x ∈ s.Included, x ∈ s'.Included) :=
  ⟨GenerateSorted_idempotent g Index fuel s hfuel,
    GenerateSorted_idempotent g Index fuel s hfuel⟩

/-- C22, witness: on the 3-cycle with the mark of 1 set and recursion bound 8, the call
on 0 sets the mark of 0 and emits 0; the same call again changes nothing. -/
theorem C22_witness :
    (Nodes ThreeCycle [0]).length < 8 ∧
    GenerateStructSorted ThreeCycle 8 0 { Included := [1], Emitted := [] }
      = some { Included := [0, 1], Emitted := [0] } ∧
    GenerateStructSorted ThreeCycle 8 0 { Included := [0, 1], Emitted := [0] }
      = some { Included := [0, 1], Emitted := [0] } ∧
    ((0 ∈ ({ Included := [1], Emitted := [] } : SorterState).Included →
        GenerateStructSorted ThreeCycle 8 0 { Included := [1], Emitted := [] }
          = some { Included := [1], Emitted := [] }) ∧
      ∃ s', GenerateStructSorted ThreeCycle 8 0 { Included := [1], Emitted := [] } = some s' ∧
        GenerateStructSorted ThreeCycle 8 0 s' = some s' ∧
        ∀ x ∈ ({ Included := [1], Emitted := [] } : SorterState).Included, x ∈ s'.Included) :=
  ⟨by decide, by decide, by decide,
    (C22_sorted_walk_idempotent ThreeCycle 0 8 { Included := [1], Emitted := [] }
      (by decide)).1⟩

/-! ## Padding counters: auxiliary lemmas -/

theorem ByteCalls_le_length (calls : List PaddingCall) : ByteCalls calls ≤ calls.length :=
  List.countP_le_length _

theorem BitCalls_le_length (calls : List PaddingCall) : BitCalls calls ≤ calls.length :=
  List.countP_le_length _

theorem RunPaddingCalls_get : ∀ (calls : List PaddingCall) (c : PadCounters) (i : Nat),
    c.PadNum + ByteCalls calls < 2 ^ 32 → c.BitPadNum + BitCalls calls < 2 ^ 32 →
    (RunPaddingCalls calls c)[i]? =
      (calls[i]?).map (ExpectedPadding (c.PadNum + ByteCalls (calls.take i))
        (c.BitPadNum + BitCalls (calls.take i))) := by
  intro calls
  induction calls with
  | nil => intro c i _ _; simp [RunPaddingCalls]
  | cons call rest ih =>
    intro c i hb ht
    cases call with
    | Byte o p r =>
      have hb' : c.PadNum + 1 + ByteCalls rest < 2 ^ 32 := by
        simp only [ByteCalls, List.countP_cons, PaddingCall.IsByte, if_true] at hb ⊢
        omega
      have ht' : c.BitPadNum + BitCalls rest < 2 ^ 32 := by
        simpa [BitCalls, List.countP_cons, PaddingCall.IsBit] using ht
      have hmod : (c.PadNum + 1) % 2 ^ 32 = c.PadNum + 1 := Nat.mod_eq_of_lt (by omega)
      cases i with
      | zero => simp [RunPaddingCalls, GenerateBytePadding, ExpectedPadding, ByteCalls]
      | succ j =>
        simp only [RunPaddingCalls, GenerateBytePadding, List.getElem?_cons_succ,
          List.take_succ_cons, hmod]
        rw [ih { c with PadNum := c.PadNum + 1 } j hb' ht']
        simp [ByteCalls, BitCalls, List.countP_cons, PaddingCall.IsByte, PaddingCall.IsBit,
          Nat.add_assoc, Nat.add_comm 1]
    | Bit o p =>
      have hb' : c.PadNum + ByteCalls rest < 2 ^ 32 := by
        simpa [ByteCalls, List.countP_cons, PaddingCall.IsByte] using hb
      have ht' : c.BitPadNum + 1 + BitCalls rest < 2 ^ 32 := by
        simp only [BitCalls, List.countP_cons, PaddingCall.IsBit, if_true] at ht ⊢
        omega
      have hmod : (c.BitPadNum + 1) % 2 ^ 32 = c.BitPadNum + 1 := Nat.mod_eq_of_lt (by omega)
      cases i with
      | zero => simp [RunPaddingCalls, GenerateBitPadding, ExpectedPadding, BitCalls]
      | succ j =>
        simp only [RunPaddingCalls, GenerateBitPadding, List.getElem?_cons_succ,
          List.take_succ_cons, hmod]
        rw [ih { c with BitPadNum := c.BitPadNum + 1 } j hb' ht']
        simp [ByteCalls, BitCalls, List.countP_cons, PaddingCall.IsByte, PaddingCall.IsBit,
          Nat.add_assoc, Nat.add_comm 1]

theorem ByteCalls_take_lt (calls : List PaddingCall) (i j : Nat) (hij : i < j)
    (o p : Int) (r : PadReason) (h : calls[i]? = some (PaddingCall.Byte o p r)) :
    ByteCalls (calls.take i) < ByteCalls (calls.take j) := by
  have h1 : ByteCalls (calls.take (i + 1)) = ByteCalls (calls.take i) + 1 := by
    simp [ByteCalls, List.take_succ, h, List.countP_append, PaddingCall.IsByte]
  have h2 : ByteCalls (calls.take (i + 1)) ≤ ByteCalls (calls.take j) :=
    List.Sublist.countP_le _ (List.take_sublist_take_left calls hij)
  omega

theorem BitCalls_take_lt (calls : List PaddingCall) (i j : Nat) (hij : i < j)
    (o p : Int) (h : calls[i]? = some (PaddingCall.Bit o p)) :
    BitCalls (calls.take i) < BitCalls (calls.take j) := by
  have h1 : BitCalls (calls.take (i + 1)) = BitCalls (calls.take i) + 1 := by
    simp [BitCalls, List.take_succ, h, List.countP_append, PaddingCall.IsBit]
  have h2 : BitCalls (calls.take (i + 1)) ≤ BitCalls (calls.take j) :=
    List.Sublist.countP_le _ (List.take_sublist_take_left calls hij)
  omega

theorem RunPaddingCalls_initial (calls : List PaddingCall) (h : calls.length < 2 ^ 32)
    (i : Nat) :
    (RunPaddingCalls calls InitialCounters)[i]? =
      (calls[i]?).map (ExpectedPadding (ByteCalls (calls.take i))
        (BitCalls (calls.take i))) := by
  have hb := ByteCalls_le_length calls
  have ht := BitCalls_le_length calls
  have := RunPaddingCalls_get calls InitialCounters i
    (by simp only [InitialCounters]; omega) (by simp only [InitialCounters]; omega)
  simpa [InitialCounters] using this

theorem RunPaddingCalls_byte (calls : List PaddingCall) (h : calls.length < 2 ^ 32)
    (i n : Nat) (o p : Int) (r : PadReason)
    (hm : (RunPaddingCalls calls InitialCounters)[i]? = some (Member.BytePadding n o p r)) :
    calls[i]? = some (PaddingCall.Byte o p r) ∧ n = ByteCalls (calls.take i) := by
  rw [RunPaddingCalls_initial calls h i] at hm
  cases hc : calls[i]? with
  | none => simp [hc] at hm
  | some call =>
    cases call with
    | Byte o1 p1 r1 =>
      simp only [hc, Option.map_some', ExpectedPadding, Option.some.injEq,
        Member.BytePadding.injEq] at hm
      obtain ⟨e1, e2, e3, e4⟩ := hm
      subst e2 e3 e4
      exact ⟨rfl, e1.symm⟩
    | Bit o1 p1 => simp [hc, ExpectedPadding] at hm

theorem RunPaddingCalls_bit (calls : List PaddingCall) (h : calls.length < 2 ^ 32)
    (i n : Nat) (p : Int)
    (hm : (RunPaddingCalls calls InitialCounters)[i]? = some (Member.BitPadding n p)) :
    (∃ o, calls[i]? = some (PaddingCall.Bit o p)) ∧ n = BitCalls (calls.take i) := by
  rw [RunPaddingCalls_initial calls h i] at hm
  cases hc : calls[i]? with
  | none => simp [hc] at hm
  | some call =>
    cases call with
    | Byte o1 p1 r1 => simp [hc, ExpectedPadding] at hm
    | Bit o1 p1 =>
      simp only [hc, Option.map_some', ExpectedPadding, Option.some.injEq,
        Member.BitPadding.injEq] at hm
      obtain ⟨e1, e2⟩ := hm
      subst e2
      exact ⟨⟨o1, rfl⟩, e1.symm⟩

/-! ## C23 -/

/-- C23: in a run of fewer than `2 ^ 32` padding creations, starting from the counters'
initial values, the call at position `i` creates, when it is a call of
`GenerateBytePadding`, the member `Pad_<k>` with `k` the number of `GenerateBytePadding`
calls before it, and when it is a call of `GenerateBitPadding`, the member `BitPad_<n>`
with `n` the number of `GenerateBitPadding` calls before it (each counter ignores the
calls of the other generator); hence of two byte pads of the run the later one carries
the larger number, and likewise for two bit pads, so no number is used twice. -/
theorem C23_padding_counters_count_calls (calls : List PaddingCall)
    (h : calls.length < 2 ^ 32) :
    (∀ (i : Nat) (Offset PadSize : Int) (Reason : PadReason),
      calls[i]? = some (PaddingCall.Byte Offset PadSize Reason) →
      (RunPaddingCalls calls InitialCounters)[i]?
        = some (Member.BytePadding (ByteCalls (calls.take i)) Offset PadSize Reason)) ∧
    (∀ (i : Nat) (Offset PadSize : Int), calls[i]? = some (PaddingCall.Bit Offset PadSize) →
      (RunPaddingCalls calls InitialCounters)[i]?
        = some (Member.BitPadding (BitCalls (calls.take i)) PadSize)) ∧
    (∀ (i j n m : Nat) (o1 p1 : Int) (r1 : PadReason) (o2 p2 : Int) (r2 : PadReason),
      i < j →
      (RunPaddingCalls calls InitialCounters)[i]? = some (Member.BytePadding n o1 p1 r1) →
      (RunPaddingCalls calls InitialCounters)[j]? = some (Member.BytePadding m o2 p2 r2) →
      n < m) ∧
    (∀ (i j n m : Nat) (p1 p2 : Int), i < j →
      (RunPaddingCalls calls InitialCounters)[i]? = some (Member.BitPadding n p1) →
      (RunPaddingCalls calls InitialCounters)[j]? = some (Member.BitPadding m p2) →
      n < m) := by
  refine ⟨?_, ?_, ?_, ?_⟩
  · intro i o p r hc
    rw [RunPaddingCalls_initial calls h i, hc]
    rfl
  · intro i o p hc
    rw [RunPaddingCalls_initial calls h i, hc]
    rfl
  · intro i j n m o1 p1 r1 o2 p2 r2 hij hi hj
    obtain ⟨ci, ni⟩ := RunPaddingCalls_byte calls h i n o1 p1 r1 hi
    obtain ⟨_, nj⟩ := RunPaddingCalls_byte calls h j m o2 p2 r2 hj
    rw [ni, nj]
    exact ByteCalls_take_lt calls i j hij o1 p1 r1 ci
  · intro i j n m p1 p2 hij hi hj
    obtain ⟨⟨o, ci⟩, ni⟩ := RunPaddingCalls_bit calls h i n p1 hi
    obtain ⟨_, nj⟩ := RunPaddingCalls_bit calls h j m p2 hj
    rw [ni, nj]
    exact BitCalls_take_lt calls i j hij o p1 ci

/-- C23, witness: the run byte, bit, byte, bit, byte creates `Pad_0`, `BitPad_0`,
`Pad_1`, `BitPad_1`, `Pad_2`. -/
theorem C23_witness :
    ExampleCalls.length < 2 ^ 32 ∧
    RunPaddingCalls ExampleCalls InitialCounters
      = [Member.BytePadding 0 0 4 PadReason.MissedOffset, Member.BitPadding 0 3,
          Member.BytePadding 1 8 2 PadReason.MissedOffset, Member.BitPadding 1 7,
          Member.BytePadding 2 16 8 PadReason.FixSizeOfStruct] ∧
    (RunPaddingCalls ExampleCalls InitialCounters)[4]?
      = some (Member.BytePadding (ByteCalls (ExampleCalls.take 4)) 16 8
          PadReason.FixSizeOfStruct) :=
  ⟨by decide, by decide,
    (C23_padding_counters_count_calls ExampleCalls (by decide)).1 4 16 8
      PadReason.FixSizeOfStruct (by decide)⟩

/-! ## Dependency gathering: auxiliary lemmas -/

theorem mem_StoreInsert (Store : List Int) (i x : Int) :
    x ∈ StoreInsert Store i ↔ x ∈ Store ∨ x = i := by
  unfold StoreInsert
  split_ifs with h
  · constructor
    · exact Or.inl
    · rintro (h1 | h1)
      · exact h1
      · rw [h1]; exact h
  · simp

theorem mem_GetPropertyDependency : ∀ (p : PropertyKind) (Store : List Int) (x : Int),
    x ∈ GetPropertyDependency p Store ↔ x ∈ Store ∨ Mentions p x := by
  intro p
  induction p with
  | StructProperty i =>
    intro Store x
    simp only [GetPropertyDependency, mem_StoreInsert, Mentions]
    exact or_congr Iff.rfl eq_comm
  | EnumProperty e =>
    intro Store x
    cases e with
    | none => simp [GetPropertyDependency, Mentions]
    | some i =>
      simp only [GetPropertyDependency, mem_StoreInsert, Mentions, Option.some.injEq]
      exact or_congr Iff.rfl eq_comm
  | ByteProperty e =>
    intro Store x
    cases e with
    | none => simp [GetPropertyDependency, Mentions]
    | some i =>
      simp only [GetPropertyDependency, mem_StoreInsert, Mentions, Option.some.injEq]
      exact or_congr Iff.rfl eq_comm
  | ArrayProperty q ih => intro Store x; simp only [GetPropertyDependency, Mentions, ih]
  | SetProperty q ih => intro Store x; simp only [GetPropertyDependency, Mentions, ih]
  | MapProperty k v ihk ihv =>
    intro Store x
    simp only [GetPropertyDependency, Mentions, ihk, ihv, or_assoc]
  | Other => intro Store x; simp [GetPropertyDependency, Mentions]

theorem mem_GetFunctionDependency : ∀ (ps : List PropertyKind) (Store : List Int) (x : Int),
    x ∈ GetFunctionDependency ps Store ↔ x ∈ Store ∨ ∃ p ∈ ps, Mentions p x := by
  intro ps
  induction ps with
  | nil => intro Store x; simp [GetFunctionDependency]
  | cons p rest ih =>
    intro Store x
    have h := ih (GetPropertyDependency p Store) x
    unfold GetFunctionDependency at h ⊢
    simp only [List.foldl_cons, h, mem_GetPropertyDependency, List.mem_cons, exists_eq_or_imp,
      or_assoc]

theorem mem_children_fold : ∀ (fs : List UEField) (Store : List Int) (x : Int),
    x ∈ fs.foldl
        (fun St Field =>
          if Field.IsFunction then GetFunctionDependency Field.Properties St else St) Store ↔
      x ∈ Store ∨ ∃ f ∈ fs, f.IsFunction = true ∧ ∃ p ∈ f.Properties, Mentions p x := by
  intro fs
  induction fs with
  | nil => intro Store x; simp
  | cons f rest ih =>
    intro Store x
    simp only [List.foldl_cons, ih, List.mem_cons, exists_eq_or_imp]
    cases hf : f.IsFunction
    · simp
    · simp only [if_true, mem_GetFunctionDependency, true_and, or_assoc]

theorem mem_ObjectsToCheck (Struct : ReflectedStruct) (x : Int) :
    x ∈ ObjectsToCheck Struct ↔
      Struct.Super = some x ∨ (∃ p ∈ Struct.Properties, Mentions p x) ∨
      ∃ f ∈ Struct.Children, f.IsFunction = true ∧ ∃ p ∈ f.Properties, Mentions p x := by
  unfold ObjectsToCheck
  simp only [mem_children_fold]
  have h := mem_GetFunctionDependency Struct.Properties
  unfold GetFunctionDependency at h
  rw [h]
  cases hs : Struct.Super with
  | none => simp
  | some i =>
    simp only [mem_StoreInsert, List.not_mem_nil, false_or, Option.some.injEq, or_assoc]
    exact or_congr eq_comm Iff.rfl

theorem RecordDependency_StructSorter (ObjectArray : Int → UEObject) (PackageIndex : Int)
    (Object : UEObject) (G : DependencyGraphs) (Idx a b : Int) :
    DependsOn (RecordDependency ObjectArray PackageIndex Object G Idx).StructSorter a b ↔
      DependsOn G.StructSorter a b ∨
      (a = Object.Index ∧ b = Idx ∧
        RoutedToStructSorter ObjectArray PackageIndex Object Idx) := by
  unfold RoutedToStructSorter
  by_cases hq : PackageIndex = (ObjectArray Idx).OutermostIndex
  · cases ho : Object.IsClass <;> cases hc : (ObjectArray Idx).IsClass <;>
      cases hs : (ObjectArray Idx).IsStruct <;>
      simp [RecordDependency, hq, ho, hc, hs, AddDependency_edge _ _ _ a b]
  · cases hc : (ObjectArray Idx).IsClass <;> simp [RecordDependency, hq, hc]

theorem RecordDependency_ClassSorter (ObjectArray : Int → UEObject) (PackageIndex : Int)
    (Object : UEObject) (G : DependencyGraphs) (Idx a b : Int) :
    DependsOn (RecordDependency ObjectArray PackageIndex Object G Idx).ClassSorter a b ↔
      DependsOn G.ClassSorter a b ∨
      (a = Object.Index ∧ b = Idx ∧
        RoutedToClassSorter ObjectArray PackageIndex Object Idx) := by
  unfold RoutedToClassSorter
  by_cases hq : PackageIndex = (ObjectArray Idx).OutermostIndex
  · cases ho : Object.IsClass <;> cases hc : (ObjectArray Idx).IsClass <;>
      cases hs : (ObjectArray Idx).IsStruct <;>
      simp [RecordDependency, hq, ho, hc, hs, AddDependency_edge _ _ _ a b]
  · cases hc : (ObjectArray Idx).IsClass <;> simp [RecordDependency, hq, hc]

theorem RecordDependencies_StructSorter (ObjectArray : Int → UEObject) (PackageIndex : Int)
    (Object : UEObject) : ∀ (Idxs : List Int) (G : DependencyGraphs) (a b : Int),
    DependsOn (RecordDependencies ObjectArray PackageIndex Object Idxs G).StructSorter a b ↔
      DependsOn G.StructSorter a b ∨
      (a = Object.Index ∧ b ∈ Idxs ∧ RoutedToStructSorter ObjectArray PackageIndex Object b) := by
  intro Idxs
  induction Idxs with
  | nil => intro G a b; simp [RecordDependencies]
  | cons Idx rest ih =>
    intro G a b
    have h := ih (RecordDependency ObjectArray PackageIndex Object G Idx) a b
    unfold RecordDependencies at h ⊢
    rw [List.foldl_cons, h, RecordDependency_StructSorter]
    constructor
    · rintro ((h0 | ⟨h1, h2, h3⟩) | ⟨h1, h2, h3⟩)
      · exact Or.inl h0
      · rw [h2]; exact Or.inr ⟨h1, List.mem_cons_self _ _, h3⟩
      · exact Or.inr ⟨h1, List.mem_cons_of_mem _ h2, h3⟩
    · rintro (h0 | ⟨h1, h2, h3⟩)
      · exact Or.inl (Or.inl h0)
      · rcases List.mem_cons.mp h2 with e | e
        · rw [e] at h3; exact Or.inl (Or.inr ⟨h1, e, h3⟩)
        · exact Or.inr ⟨h1, e, h3⟩

theorem GatherDependencies_StructSorter (ObjectArray : Int → UEObject)
    (StructAt : Int → ReflectedStruct) (PackageIndex : Int) :
    ∀ (PackageMembers : List Int) (G : DependencyGraphs) (a b : Int),
    DependsOn (GatherDependencies ObjectArray StructAt PackageIndex PackageMembers G).StructSorter
        a b ↔
      DependsOn G.StructSorter a b ∨
      ∃ Index ∈ PackageMembers, IsGathered ObjectArray Index ∧
        a = (ObjectArray Index).Index ∧ b ∈ ObjectsToCheck (StructAt Index) ∧
        RoutedToStructSorter ObjectArray PackageIndex (ObjectArray Index) b := by
  intro PackageMembers
  induction PackageMembers with
  | nil => intro G a b; simp [GatherDependencies]
  | cons Index rest ih =>
    intro G a b
    simp only [GatherDependencies, List.mem_cons, exists_eq_or_imp]
    by_cases hg : IsGathered ObjectArray Index
    · obtain ⟨hv, hs, hf⟩ := hg
      simp only [hv, hs, hf, Bool.not_true, Bool.not_false, Bool.and_true, if_true,
        Bool.false_eq_true, if_false, ih, RecordDependencies_StructSorter, IsGathered, true_and,
        and_self, or_assoc]
    · have hskip :
          (if (!(ObjectArray Index).IsValid) = true then
            GatherDependencies ObjectArray StructAt PackageIndex rest G
          else if ((ObjectArray Index).IsStruct && !(ObjectArray Index).IsFunction) = true then
            GatherDependencies ObjectArray StructAt PackageIndex rest
              (RecordDependencies ObjectArray PackageIndex (ObjectArray Index)
                (ObjectsToCheck (StructAt Index)) G)
          else GatherDependencies ObjectArray StructAt PackageIndex rest G)
            = GatherDependencies ObjectArray StructAt PackageIndex rest G := by
        unfold IsGathered at hg
        cases hv : (ObjectArray Index).IsValid <;> cases hs : (ObjectArray Index).IsStruct <;>
          cases hf : (ObjectArray Index).IsFunction <;> simp [hv, hs, hf] at hg ⊢
      rw [hskip, ih]
      simp [hg]

theorem RecordDependencies_ClassSorter (ObjectArray : Int → UEObject) (PackageIndex : Int)
    (Object : UEObject) : ∀ (Idxs : List Int) (G : DependencyGraphs) (a b : Int),
    DependsOn (RecordDependencies ObjectArray PackageIndex Object Idxs G).ClassSorter a b ↔
      DependsOn G.ClassSorter a b ∨
      (a = Object.Index ∧ b ∈ Idxs ∧ RoutedToClassSorter ObjectArray PackageIndex Object b) := by
  intro Idxs
  induction Idxs with
  | nil => intro G a b; simp [RecordDependencies]
  | cons Idx rest ih =>
    intro G a b
    have h := ih (RecordDependency ObjectArray PackageIndex Object G Idx) a b
    unfold RecordDependencies at h ⊢
    rw [List.foldl_cons, h, RecordDependency_ClassSorter]
    constructor
    · rintro ((h0 | ⟨h1, h2, h3⟩) | ⟨h1, h2, h3⟩)
      · exact Or.inl h0
      · rw [h2]; exact Or.inr ⟨h1, List.mem_cons_self _ _, h3⟩
      · exact Or.inr ⟨h1, List.mem_cons_of_mem _ h2, h3⟩
    · rintro (h0 | ⟨h1, h2, h3⟩)
      · exact Or.inl (Or.inl h0)
      · rcases List.mem_cons.mp h2 with e | e
        · rw [e] at h3; exact Or.inl (Or.inr ⟨h1, e, h3⟩)
        · exact Or.inr ⟨h1, e, h3⟩

theorem GatherDependencies_ClassSorter (ObjectArray : Int → UEObject)
    (StructAt : Int → ReflectedStruct) (PackageIndex : Int) :
    ∀ (PackageMembers : List Int) (G : DependencyGraphs) (a b : Int),
    DependsOn (GatherDependencies ObjectArray StructAt PackageIndex PackageMembers G).ClassSorter
        a b ↔
      DependsOn G.ClassSorter a b ∨
      ∃ Index ∈ PackageMembers, IsGathered ObjectArray Index ∧
        a = (ObjectArray Index).Index ∧ b ∈ ObjectsToCheck (StructAt Index) ∧
        RoutedToClassSorter ObjectArray PackageIndex (ObjectArray Index) b := by
  intro PackageMembers
  induction PackageMembers with
  | nil => intro G a b; simp [GatherDependencies]
  | cons Index rest ih =>
    intro G a b
    simp only [GatherDependencies, List.mem_cons, exists_eq_or_imp]
    by_cases hg : IsGathered ObjectArray Index
    · obtain ⟨hv, hs, hf⟩ := hg
      simp only [hv, hs, hf, Bool.not_true, Bool.not_false, Bool.and_true, if_true,
        Bool.false_eq_true, if_false, ih, RecordDependencies_ClassSorter, IsGathered, true_and,
        and_self, or_assoc]
    · have hskip :
          (if (!(ObjectArray Index).IsValid) = true then
            GatherDependencies ObjectArray StructAt PackageIndex rest G
          else if ((ObjectArray Index).IsStruct && !(ObjectArray Index).IsFunction) = true then
            GatherDependencies ObjectArray StructAt PackageIndex rest
              (RecordDependencies ObjectArray PackageIndex (ObjectArray Index)
                (ObjectsToCheck (StructAt Index)) G)
          else GatherDependencies ObjectArray StructAt PackageIndex rest G)
            = GatherDependencies ObjectArray StructAt PackageIndex rest G := by
        unfold IsGathered at hg
        cases hv : (ObjectArray Index).IsValid <;> cases hs : (ObjectArray Index).IsStruct <;>
          cases hf : (ObjectArray Index).IsFunction <;> simp [hv, hs, hf] at hg ⊢
      rw [hskip, ih]
      simp [hg]

/-! ## C21 -/

/-- C21, counterexample: struct 11 of package 1 has a field whose type is an array of
struct 11. `GatherDependencies` gathers index 11 for it and, the dependency being a
struct of the same package, calls `StructSorter.AddDependency(11, 11)`. -/
theorem C21_counterexample :
    ObjectsToCheck (TreeNodeStruct 11) = [11] ∧
    (GatherDependencies ExampleObjects TreeNodeStruct 1 [11] {}).StructSorter = [(11, [11])] ∧
    DependsOn (GatherDependencies ExampleObjects TreeNodeStruct 1 [11] {}).StructSorter 11 11 := by
  refine ⟨by decide, by decide, ?_⟩
  unfold DependsOn
  decide

/-- C21, amended: `GatherDependencies` records the edge from a type index `x` to itself
in `StructSorter` exactly when the edge was there before or some gathered member with
index `x` has `x` among its own `ObjectsToCheck` and the dependency is routed to
`StructSorter` (same package, owner not a class, `x` a struct that is not a class);
likewise in `ClassSorter` (same package, both classes). An index is in `ObjectsToCheck`
exactly when it is the super's index or is the struct or enum of the type of a field or
of a member-function parameter, or of an array, set or map element type nested in
one. -/
theorem C21_self_edge_iff_own_index_gathered (ObjectArray : Int → UEObject)
    (StructAt : Int → ReflectedStruct) (PackageIndex : Int) (PackageMembers : List Int)
    (G : DependencyGraphs) (x : Int) :
    (DependsOn (GatherDependencies ObjectArray StructAt PackageIndex PackageMembers G).StructSorter
        x x ↔
      DependsOn G.StructSorter x x ∨
      ∃ Index ∈ PackageMembers, IsGathered ObjectArray Index ∧
        x = (ObjectArray Index).Index ∧ x ∈ ObjectsToCheck (StructAt Index) ∧
        RoutedToStructSorter ObjectArray PackageIndex (ObjectArray Index) x) ∧
    (DependsOn (GatherDependencies ObjectArray StructAt PackageIndex PackageMembers G).ClassSorter
        x x ↔
      DependsOn G.ClassSorter x x ∨
      ∃ Index ∈ PackageMembers, IsGathered ObjectArray Index ∧
        x = (ObjectArray Index).Index ∧ x ∈ ObjectsToCheck (StructAt Index) ∧
        RoutedToClassSorter ObjectArray PackageIndex (ObjectArray Index) x) ∧
    (∀ Struct : ReflectedStruct, x ∈ ObjectsToCheck Struct ↔
      Struct.Super = some x ∨ (∃ p ∈ Struct.Properties, Mentions p x) ∨
      ∃ f ∈ Struct.Children, f.IsFunction = true ∧ ∃ p ∈ f.Properties, Mentions p x) :=
  ⟨GatherDependencies_StructSorter ObjectArray StructAt PackageIndex PackageMembers G x x,
    GatherDependencies_ClassSorter ObjectArray StructAt PackageIndex PackageMembers G x x,
    fun Struct => mem_ObjectsToCheck Struct x⟩

end Dumper
